import Mathlib

/-!
# Venator: exclusion engine, signal builder, enrichment stage, pipeline and connectors

A shallow embedding of `internal/exclusion/exclusion.go`, `internal/config/rule_config.go`,
`internal/config/global_config.go`, `internal/signal/signal.go`, `internal/llm/llm.go`, the
pipeline of `main.go`, `connector/registry.go` and the publisher of
`connector/pubsub/client.go`, followed by theorems about them.

Modelling conventions
* A Go `map[string]string` is an association list of key/value pairs in which the first
  binding of a key is the one the map holds; `len` counts the distinct keys.
* Go strings are Lean strings (sequences of characters).
* Functions of Go's standard library that the code calls (`regexp.Compile`, `time.Parse`,
  the decoding of JSON text, `json.Marshal`, `fmt.Sprintf("%v", _)`, `text/template`) are
  parameters of the model. What `json.Unmarshal` makes of a decoded value for the Go type it
  fills is part of the model, as is the one regular expression `llm.go` holds.
* Concrete instances of these parameters (`literalRegexp`, `textStdlib`, `plainStdlib`) serve
  the evaluations on concrete inputs. Their decoder of JSON text, `JSON.unmarshalValue`, is the
  grammar of RFC 8259 (`JSON.decode`) followed by the checks of `encoding/json` when it
  decodes into `interface{}`: arrays and objects nested at most ten thousand deep, every
  number within the range of `float64`.
* A Go `error` built by `fmt.Errorf` is a constructor holding the arguments of the format.
* A Go slice or map that may be nil is an `Option`.
* The constructors of the backend clients and the calls of the cloud client library are
  parameters too (`Connector.Backends`, `PubSub.Cloud`). The goroutine and the channel of the
  PubSub publisher are the list of the values sent, in the order of the batch.
-/

set_option linter.dupNamespace false
set_option exponentiation.threshold 100000

namespace Venator

/-! ## Records -/

/-- A row-record, Go's `map[string]string`. -/
abbrev Record := List (String × String)

/-- The map index expression `value, exists := result[key]`. -/
def Record.get (result : Record) (key : String) : Option String :=
  match result with
  | [] => none
  | (k, v) :: rest => if k = key then some v else Record.get rest key

/-- Go's `len(result)`: the number of distinct keys of the map. -/
def Record.len (result : Record) : Nat :=
  (result.map Prod.fst).dedup.length

/-! ## internal/exclusion/exclusion.go -/

namespace Exclusion

/-- The part of Go's `regexp` package the exclusion engine uses. `compile pattern` is
`regexp.Compile`: an error message, or the compiled expression seen as its unanchored
`MatchString` method. -/
structure Regexp where
  compile : String → Except String (String → Bool)

/-- Go's `regexp.MatchString(pattern, s)`: compiles the pattern and, when that succeeds,
reports whether the expression matches `s`. -/
def Regexp.matchString (re : Regexp) (pattern s : String) : Except String Bool :=
  match re.compile pattern with
  | .error err => .error err
  | .ok m => .ok (m s)

/-- Whether `s` starts with `sub`, on character sequences. -/
def hasPrefixChars : List Char → List Char → Bool
  | _, [] => true
  | [], _ :: _ => false
  | a :: s, b :: sub => if a = b then hasPrefixChars s sub else false

/-- Search for `sub` at every position of `s`, left to right. -/
def containsChars : List Char → List Char → Bool
  | [], sub => hasPrefixChars [] sub
  | a :: s, sub => if hasPrefixChars (a :: s) sub then true else containsChars s sub

/-- Go's `strings.Contains(s, substr)`. -/
def stringsContains (s substr : String) : Bool :=
  containsChars s.data substr.data

/-- Condition represents a single condition in an exclusion rule. -/
structure Condition where
  Field : String
  Operator : String
  Value : String
  Values : List String
  deriving Repr, DecidableEq

/-- ConditionGroup defines logical operators for grouping conditions. -/
structure ConditionGroup where
  And : List Condition
  Or : List Condition
  deriving Repr, DecidableEq

/-- ExclusionRule represents a single exclusion rule with conditions. -/
structure ExclusionRule where
  Conditions : ConditionGroup
  deriving Repr, DecidableEq

/-- Excluder manages exclusion rules loaded from a YAML file. -/
structure Excluder where
  rules : List ExclusionRule
  deriving Repr, DecidableEq

/-- The errors `validateCondition` builds with `fmt.Errorf`. -/
inductive ConditionError where
  /-- The format "invalid regex pattern (Value): (err)". -/
  | invalidRegex (pattern : String) (err : String)
  /-- The format "operator (Operator) requires values field to be non-empty". -/
  | emptyValues (operator : String)
  /-- The format "unsupported operator (Operator)". -/
  | unsupportedOperator (operator : String)
  deriving Repr, DecidableEq

/-- The error `NewExcluder` builds for an invalid condition:
"invalid condition in rule (i+1): (err)". -/
inductive LoadError where
  | invalidCondition (ruleNumber : Nat) (err : ConditionError)
  deriving Repr, DecidableEq

/-- The function `validateCondition`: checks if the condition has a supported operator and
valid regex if needed. -/
def validateCondition (re : Regexp) (cond : Condition) : Except ConditionError Unit :=
  match cond.Operator with
  | "equals" | "contains" | "not_equals" => .ok ()
  | "regex" =>
    match re.compile cond.Value with
    | .error err => .error (.invalidRegex cond.Value err)
    | .ok _ => .ok ()
  | "in" | "not_in" =>
    if cond.Values.length = 0 then .error (.emptyValues cond.Operator) else .ok ()
  | _ => .error (.unsupportedOperator cond.Operator)

/-- The loops `for _, cond := range ...` of `NewExcluder`: validate each condition in order,
stopping at the first error. -/
def validateConditions (re : Regexp) : List Condition → Except ConditionError Unit
  | [] => .ok ()
  | cond :: rest =>
    match validateCondition re cond with
    | .error err => .error err
    | .ok _ => validateConditions re rest

/-- The loop `for i, rule := range rules` of `NewExcluder`, from index `i` on. -/
def validateRules (re : Regexp) (i : Nat) : List ExclusionRule → Except LoadError Unit
  | [] => .ok ()
  | rule :: rest =>
    match validateConditions re rule.Conditions.And with
    | .error err => .error (.invalidCondition (i + 1) err)
    | .ok _ =>
      match validateConditions re rule.Conditions.Or with
      | .error err => .error (.invalidCondition (i + 1) err)
      | .ok _ => validateRules re (i + 1) rest

/-- The function `NewExcluder`, from the decoded rule list on (opening and decoding the YAML
file precede it). -/
def NewExcluder (re : Regexp) (rules : List ExclusionRule) : Except LoadError Excluder :=
  match validateRules re 0 rules with
  | .error err => .error err
  | .ok _ => .ok { rules := rules }

/-- The loop `for _, v := range cond.Values` of the `in` and `not_in` cases: whether some
element equals `value`. -/
def valueInValues (value : String) : List String → Bool
  | [] => false
  | v :: rest => if value = v then true else valueInValues value rest

/-- The function `evaluateCondition`: evaluates a single condition against the result. -/
def evaluateCondition (re : Regexp) (cond : Condition) (result : Record) : Bool :=
  match result.get cond.Field with
  | none => false
  | some value =>
    match cond.Operator with
    | "equals" => decide (value = cond.Value)
    | "not_equals" => decide (value ≠ cond.Value)
    | "contains" => stringsContains value cond.Value
    | "regex" =>
      match re.matchString cond.Value value with
      | .error _ => false
      | .ok matched => matched
    | "in" => valueInValues value cond.Values
    | "not_in" => !(valueInValues value cond.Values)
    | _ => false

/-- The `And` loop of `evaluateConditionGroup`: false at the first condition that fails. -/
def evaluateAnd (re : Regexp) (result : Record) : List Condition → Bool
  | [] => true
  | cond :: rest => if !(evaluateCondition re cond result) then false else evaluateAnd re result rest

/-- The `Or` loop of `evaluateConditionGroup`: true at the first condition that holds. -/
def evaluateOr (re : Regexp) (result : Record) : List Condition → Bool
  | [] => false
  | cond :: rest => if evaluateCondition re cond result then true else evaluateOr re result rest

/-- The function `evaluateConditionGroup`: evaluates a group of conditions against the result. -/
def evaluateConditionGroup (re : Regexp) (group : ConditionGroup) (result : Record) : Bool :=
  if group.And.length > 0 then evaluateAnd re result group.And
  else if group.Or.length > 0 then evaluateOr re result group.Or
  else false

/-- The loop of `IsExcluded` over the rules. -/
def isExcludedRules (re : Regexp) (result : Record) : List ExclusionRule → Bool
  | [] => false
  | rule :: rest =>
    if evaluateConditionGroup re rule.Conditions result then true
    else isExcludedRules re result rest

/-- The method `IsExcluded`: checks if a given result matches any exclusion rule. -/
def Excluder.IsExcluded (re : Regexp) (e : Excluder) (result : Record) : Bool :=
  isExcludedRules re result e.rules

/-- A small regular-expression engine for concrete evaluations: a pattern holding an opening
parenthesis does not compile, every other pattern matches the values that contain it. -/
def literalRegexp : Regexp where
  compile := fun pattern =>
    if stringsContains pattern "(" then .error "missing closing )"
    else .ok (fun s => stringsContains s pattern)

end Exclusion

/-! ## internal/config/rule_config.go -/

namespace Config

/-- The struct `LLM`. -/
structure LLM where
  Enabled : Bool
  Prompt : String
  deriving Repr, DecidableEq

/-- The struct `OutputField`. -/
structure OutputField where
  Field : String
  Source : String
  deriving Repr, DecidableEq

/-- The struct `Output`; `Format` is an `OutputFormat`, a string type. -/
structure Output where
  Format : String
  Fields : List OutputField
  deriving Repr, DecidableEq

/-- The struct `TTP`. -/
structure TTP where
  Framework : String
  Tactic : String
  Name : String
  ID : String
  Reference : String
  deriving Repr, DecidableEq

/-- RuleConfig represents the entire config structure for a single rule; `Confidence` is a
`ConfidenceLevel`, a string type. -/
structure RuleConfig where
  Author : String
  Confidence : String
  Description : String
  Enabled : Bool
  ExclusionsPath : String
  Language : String
  LLM : Option LLM
  Name : String
  Output : Output
  Publishers : List String
  Query : String
  QueryEngine : String
  References : List String
  Schedule : String
  Status : String
  Tags : List String
  TTPs : List TTP
  UID : String
  deriving Repr, DecidableEq

abbrev ConfidenceUnknown : String := "unknown"
abbrev ConfidenceLow : String := "low"
abbrev ConfidenceMedium : String := "medium"
abbrev ConfidenceHigh : String := "high"

abbrev OutputFormatRaw : String := "raw"
abbrev OutputFormatSignal : String := "signal"

end Config

/-! ## JSON values and Go's `encoding/json` -/

/-- A JSON value, as `encoding/json` decodes it into an `interface{}`: `nil`, a `bool`, a
number (kept as its source text; Go holds it as a `float64`), a `string`, a `[]interface{}`
or a `map[string]interface{}` (kept as the members of the object, in source order). -/
inductive JSON where
  | null
  | bool (b : Bool)
  | number (text : String)
  | string (s : String)
  | array (elems : List JSON)
  | object (members : List (String × JSON))
  deriving Repr

namespace JSON

/-- The quotation mark. -/
def quoteChar : Char := Char.ofNat 34

/-- The reverse solidus. -/
def backslashChar : Char := Char.ofNat 92

/-- The left curly bracket. -/
def leftBrace : Char := Char.ofNat 123

/-- The right curly bracket. -/
def rightBrace : Char := Char.ofNat 125

/-- The map a JSON object decodes to: each member is assigned in source order, so the last
member of a name is the one the map holds. -/
def objectMap (members : List (String × JSON)) : List (String × JSON) :=
  members.reverse

/-- The entries a Go `range` over a map visits: one per key, with the value the map holds. -/
def mapEntries {α : Type} : List (String × α) → List (String × α)
  | [] => []
  | (k, v) :: rest => (k, v) :: (mapEntries rest).filter (fun e => e.1 ≠ k)

/-- JSON whitespace: space, horizontal tab, line feed, carriage return. -/
def isSpaceChar (c : Char) : Bool :=
  c = ' ' || c = '\t' || c = '\n' || c = '\r'

/-- The value of a hexadecimal digit. -/
def hexValue (c : Char) : Option Nat :=
  if '0' ≤ c ∧ c ≤ '9' then some (c.toNat - 48)
  else if 'a' ≤ c ∧ c ≤ 'f' then some (c.toNat - 87)
  else if 'A' ≤ c ∧ c ≤ 'F' then some (c.toNat - 55)
  else none

/-- The value of four hexadecimal digits. -/
def hex4 (a b c d : Char) : Option Nat :=
  match hexValue a, hexValue b, hexValue c, hexValue d with
  | some x, some y, some z, some w => some (((x * 16 + y) * 16 + z) * 16 + w)
  | _, _, _, _ => none

/-- The character a one-letter escape stands for. -/
def unescape (e : Char) : Option Char :=
  if e = quoteChar then some quoteChar
  else if e = backslashChar then some backslashChar
  else if e = '/' then some '/'
  else if e = 'b' then some (Char.ofNat 8)
  else if e = 'f' then some (Char.ofNat 12)
  else if e = 'n' then some '\n'
  else if e = 'r' then some '\r'
  else if e = 't' then some '\t'
  else none

/-- The characters of a string after its opening quotation mark, up to the closing one, and
the text that follows. -/
def parseStringBody : Nat → List Char → Option (List Char × List Char)
  | 0, _ => none
  | _ + 1, [] => none
  | fuel + 1, c :: rest =>
    if c = quoteChar then some ([], rest)
    else if c = backslashChar then
      match rest with
      | [] => none
      | e :: rest2 =>
        if e = 'u' then
          match rest2 with
          | h1 :: h2 :: h3 :: h4 :: rest3 =>
            match hex4 h1 h2 h3 h4, parseStringBody fuel rest3 with
            | some n, some (s, after) => some (Char.ofNat n :: s, after)
            | _, _ => none
          | _ => none
        else
          match unescape e, parseStringBody fuel rest2 with
          | some ch, some (s, after) => some (ch :: s, after)
          | _, _ => none
    else if c.toNat < 32 then none
    else
      match parseStringBody fuel rest with
      | some (s, after) => some (c :: s, after)
      | none => none

/-- The characters a number is made of. -/
def isNumberChar (c : Char) : Bool :=
  c.isDigit || c = '-' || c = '+' || c = '.' || c = 'e' || c = 'E'

/-- The exponent of a number, after the letter: an optional sign and at least one digit. -/
def validExponent (cs : List Char) : Bool :=
  let digits := match cs with
    | '+' :: rest => rest
    | '-' :: rest => rest
    | _ => cs
  !digits.isEmpty && digits.all Char.isDigit

/-- The part of a number after its integer part: an optional fraction, then an optional
exponent. -/
def validFractionExponent (cs : List Char) : Bool :=
  let afterFraction : Option (List Char) := match cs with
    | '.' :: rest =>
      if (rest.takeWhile Char.isDigit).isEmpty then none
      else some (rest.dropWhile Char.isDigit)
    | _ => some cs
  match afterFraction with
  | none => false
  | some [] => true
  | some (e :: rest) => (e = 'e' || e = 'E') && validExponent rest

/-- The grammar of a JSON number: an optional minus sign, an integer part without a leading
zero, an optional fraction, an optional exponent. -/
def validNumber (cs : List Char) : Bool :=
  let unsigned := match cs with
    | '-' :: rest => rest
    | _ => cs
  let intDigits := unsigned.takeWhile Char.isDigit
  let intOk := !intDigits.isEmpty && (intDigits.head? ≠ some '0' || intDigits.length = 1)
  intOk && validFractionExponent (unsigned.dropWhile Char.isDigit)

/-- The literal `lit` at the start of the text. -/
def parseLiteral (lit : List Char) (v : JSON) (cs : List Char) : Option (JSON × List Char) :=
  if Exclusion.hasPrefixChars cs lit then some (v, cs.drop lit.length) else none

mutual
/-- A JSON value at the start of the text, and the text that follows it. -/
def parseValue : Nat → List Char → Option (JSON × List Char)
  | 0, _ => none
  | fuel + 1, cs =>
    match cs.dropWhile isSpaceChar with
    | [] => none
    | c :: rest =>
      if c = quoteChar then
        match parseStringBody fuel rest with
        | some (s, after) => some (.string (String.mk s), after)
        | none => none
      else if c = '[' then
        match rest.dropWhile isSpaceChar with
        | ']' :: after => some (.array [], after)
        | _ =>
          match parseElems fuel rest with
          | some (elems, after) => some (.array elems, after)
          | none => none
      else if c = leftBrace then
        match rest.dropWhile isSpaceChar with
        | [] => none
        | c2 :: after =>
          if c2 = rightBrace then some (.object [], after)
          else
            match parseMembers fuel rest with
            | some (members, after2) => some (.object members, after2)
            | none => none
      else if c = 'n' then parseLiteral "null".data .null (c :: rest)
      else if c = 't' then parseLiteral "true".data (.bool true) (c :: rest)
      else if c = 'f' then parseLiteral "false".data (.bool false) (c :: rest)
      else
        let numChars := (c :: rest).takeWhile isNumberChar
        if validNumber numChars then
          some (.number (String.mk numChars), (c :: rest).dropWhile isNumberChar)
        else none
/-- The elements of an array after its opening bracket, up to the closing one. -/
def parseElems : Nat → List Char → Option (List JSON × List Char)
  | 0, _ => none
  | fuel + 1, cs =>
    match parseValue fuel cs with
    | none => none
    | some (v, rest) =>
      match rest.dropWhile isSpaceChar with
      | ',' :: rest2 =>
        match parseElems fuel rest2 with
        | some (vs, after) => some (v :: vs, after)
        | none => none
      | ']' :: after => some ([v], after)
      | _ => none
/-- The members of an object after its opening bracket, up to the closing one. -/
def parseMembers : Nat → List Char → Option (List (String × JSON) × List Char)
  | 0, _ => none
  | fuel + 1, cs =>
    match cs.dropWhile isSpaceChar with
    | [] => none
    | c :: rest =>
      if c = quoteChar then
        match parseStringBody fuel rest with
        | none => none
        | some (k, rest2) =>
          match rest2.dropWhile isSpaceChar with
          | ':' :: rest3 =>
            match parseValue fuel rest3 with
            | none => none
            | some (v, rest4) =>
              match rest4.dropWhile isSpaceChar with
              | [] => none
              | c4 :: rest5 =>
                if c4 = ',' then
                  match parseMembers fuel rest5 with
                  | some (ms, after) => some ((String.mk k, v) :: ms, after)
                  | none => none
                else if c4 = rightBrace then some ([(String.mk k, v)], rest5)
                else none
          | _ => none
      else none
end

/-- The grammar of JSON text, after RFC 8259, which is the syntax `encoding/json` checks
before it decodes: one value, surrounded by JSON whitespace only. The result is the syntax
error or the value the text denotes. The fuel, twice the length of the text and two, exceeds
the number of nested calls, of which each second one consumes a character. -/
def decode (s : String) : Except String JSON :=
  match parseValue (2 * s.length + 2) s.data with
  | none => .error "invalid character"
  | some (v, rest) =>
    if (rest.dropWhile isSpaceChar).isEmpty then .ok v
    else .error "invalid character after top-level value"

/-- The number a sequence of decimal digits stands for. -/
def digitsValue (cs : List Char) : Nat :=
  cs.foldl (fun n c => 10 * n + (c.toNat - 48)) 0

/-- The exponent `strconv.ParseFloat` reads from the digits after the letter: a digit is
taken in only while the value read so far is below ten thousand. -/
def exponentValue (cs : List Char) : Nat :=
  cs.foldl (fun e c => if e < 10000 then e * 10 + (c.toNat - 48) else e) 0

/-- The least magnitude that `strconv.ParseFloat(s, 64)` rounds to infinity: halfway between
the largest `float64` and two to the power 1024. -/
def float64Limit : Nat := 2 ^ 1024 - 2 ^ 970

/-- Whether `strconv.ParseFloat(s, 64)` returns a range error on a text of the grammar of
JSON numbers: the digits of the integer part and of the fraction, scaled by the exponent,
are a magnitude of at least `float64Limit`. A magnitude too small for `float64` is no error.
This is the result of `strconv` for every number of at most 800 digits, the digits it
keeps. -/
def exceedsFloat64 (cs : List Char) : Bool :=
  let unsigned := match cs with
    | '-' :: rest => rest
    | _ => cs
  let intDigits := unsigned.takeWhile Char.isDigit
  let afterInt := unsigned.dropWhile Char.isDigit
  let fracDigits := match afterInt with
    | '.' :: rest => rest.takeWhile Char.isDigit
    | _ => []
  let afterFrac := match afterInt with
    | '.' :: rest => rest.dropWhile Char.isDigit
    | _ => afterInt
  let mantissa := digitsValue (intDigits ++ fracDigits)
  match afterFrac with
  | [] => decide (float64Limit * 10 ^ fracDigits.length ≤ mantissa)
  | _ :: '-' :: expDigits =>
    decide (float64Limit * 10 ^ (fracDigits.length + exponentValue expDigits) ≤ mantissa)
  | _ :: '+' :: expDigits =>
    decide (float64Limit * 10 ^ fracDigits.length ≤ mantissa * 10 ^ exponentValue expDigits)
  | _ :: expDigits =>
    decide (float64Limit * 10 ^ fracDigits.length ≤ mantissa * 10 ^ exponentValue expDigits)

mutual
/-- Whether every number of a value is within the range of `float64`, so that
`encoding/json` can hold it. -/
def numbersFit : JSON → Bool
  | .null => true
  | .bool _ => true
  | .number text => !exceedsFloat64 text.data
  | .string _ => true
  | .array elems => numbersFitElems elems
  | .object members => numbersFitMembers members
/-- Whether every number of the elements of an array is within the range of `float64`. -/
def numbersFitElems : List JSON → Bool
  | [] => true
  | v :: rest => numbersFit v && numbersFitElems rest
/-- Whether every number of the members of an object is within the range of `float64`. -/
def numbersFitMembers : List (String × JSON) → Bool
  | [] => true
  | (_, v) :: rest => numbersFit v && numbersFitMembers rest
end

mutual
/-- How deep the arrays and objects of a value are nested: the greatest length the stack
`parseState` of the scanner of `encoding/json` reaches on the text of the value. -/
def nesting : JSON → Nat
  | .null => 0
  | .bool _ => 0
  | .number _ => 0
  | .string _ => 0
  | .array elems => nestingElems elems + 1
  | .object members => nestingMembers members + 1
/-- The greatest nesting among the elements of an array. -/
def nestingElems : List JSON → Nat
  | [] => 0
  | v :: rest => max (nesting v) (nestingElems rest)
/-- The greatest nesting among the members of an object. -/
def nestingMembers : List (String × JSON) → Nat
  | [] => 0
  | (_, v) :: rest => max (nesting v) (nestingMembers rest)
end

/-- The constant `maxNestingDepth` of the scanner of `encoding/json`. -/
def maxNestingDepth : Nat := 10000

/-- The decoding of JSON text by `encoding/json` into values of the type `interface{}`:
the syntax error of a text that is not of the grammar or that nests arrays and objects
deeper than `maxNestingDepth`, the type error of a text with a number outside the range of
`float64` (`json.Unmarshal` returns the error it saved first), else the value the text
denotes. -/
def unmarshalValue (s : String) : Except String JSON :=
  match decode s with
  | .error err => .error err
  | .ok v =>
    if maxNestingDepth < nesting v then .error "exceeded max depth"
    else if numbersFit v then .ok v
    else .error "json: cannot unmarshal number into Go value of type float64"

/-- Insertion of a keyed text into a list sorted by key; Go compares strings byte by byte,
which on valid UTF-8 is the lexicographic order of the characters. -/
def insertByKey (e : String × String) : List (String × String) → List (String × String)
  | [] => [e]
  | x :: rest => if e.1.data ≤ x.1.data then e :: x :: rest else x :: insertByKey e rest

/-- The keyed texts sorted by key. -/
def sortByKey : List (String × String) → List (String × String)
  | [] => []
  | e :: rest => insertByKey e (sortByKey rest)

mutual
/-- What `fmt.Sprintf("%v", v)` prints for a decoded value: a string as itself, `true` or
`false`, `<nil>` for `nil`, a slice as its elements between square brackets and a map as its
`key:value` pairs in key order after `map`, both separated by spaces. A number is printed by
its source text, which is what `%v` prints for the `float64` of a decimal integer of at most
six digits; from one million on `%v` prints an exponent. -/
def sprintV : JSON → String
  | .null => "<nil>"
  | .bool b => if b then "true" else "false"
  | .number text => text
  | .string s => s
  | .array elems => "[" ++ " ".intercalate (sprintVElems elems) ++ "]"
  | .object members =>
    "map[" ++ " ".intercalate
      ((sortByKey (mapEntries (sprintVMembers members).reverse)).map
        (fun e => e.1 ++ ":" ++ e.2)) ++ "]"
/-- The texts of the elements of a slice. -/
def sprintVElems : List JSON → List String
  | [] => []
  | v :: rest => sprintV v :: sprintVElems rest
/-- The keys and texts of the members of an object. -/
def sprintVMembers : List (String × JSON) → List (String × String)
  | [] => []
  | (k, v) :: rest => (k, sprintV v) :: sprintVMembers rest
end

/-- The hexadecimal digit of a value below sixteen. -/
def hexDigit (n : Nat) : Char :=
  if n < 10 then Char.ofNat (48 + n) else Char.ofNat (87 + n)

/-- How `json.Marshal` writes one character of a string: the quotation mark, the reverse
solidus, the control characters and the characters `<`, `>`, `&` are escaped. -/
def marshalChar (c : Char) : List Char :=
  if c = quoteChar then [backslashChar, quoteChar]
  else if c = backslashChar then [backslashChar, backslashChar]
  else if c = '\n' then [backslashChar, 'n']
  else if c = '\r' then [backslashChar, 'r']
  else if c = '\t' then [backslashChar, 't']
  else if c.toNat < 32 ∨ c = '<' ∨ c = '>' ∨ c = '&' ∨ c.toNat = 8232 ∨ c.toNat = 8233 then
    [backslashChar, 'u', hexDigit (c.toNat / 4096), hexDigit (c.toNat / 256 % 16),
      hexDigit (c.toNat / 16 % 16), hexDigit (c.toNat % 16)]
  else [c]

/-- How `json.Marshal` writes a string. -/
def marshalString (s : String) : String :=
  String.mk (quoteChar :: (s.data.flatMap marshalChar ++ [quoteChar]))

mutual
/-- What `json.Marshal` writes for a decoded value: compact JSON text, the keys of a map in
sorted order. A number is written by its source text, which is what `json.Marshal` writes
for the `float64` of a decimal integer of at most fifteen digits. -/
def marshal : JSON → String
  | .null => "null"
  | .bool b => if b then "true" else "false"
  | .number text => text
  | .string s => marshalString s
  | .array elems => "[" ++ ",".intercalate (marshalElems elems) ++ "]"
  | .object members =>
    String.mk [leftBrace] ++ ",".intercalate
      ((sortByKey (mapEntries (marshalMembers members).reverse)).map
        (fun e => marshalString e.1 ++ ":" ++ e.2)) ++ String.mk [rightBrace]
/-- The texts of the elements of a slice. -/
def marshalElems : List JSON → List String
  | [] => []
  | v :: rest => marshal v :: marshalElems rest
/-- The keys and texts of the members of an object. -/
def marshalMembers : List (String × JSON) → List (String × String)
  | [] => []
  | (k, v) :: rest => (k, marshal v) :: marshalMembers rest
end

end JSON

/-! ## internal/signal/signal.go -/

namespace Signal

open Config

/-- The functions of Go's standard library the signal builder calls. -/
structure Stdlib where
  /-- The values of `time.Time`. -/
  Time : Type
  /-- The zero value of `time.Time`. -/
  zeroTime : Time
  /-- The call `time.Parse(time.RFC3339, value)`. -/
  parseRFC3339 : String → Except String Time
  /-- The decoding of JSON text by `encoding/json` into values of the type `interface{}`:
  an error (of syntax, of nesting beyond the depth it admits, or of a number outside the
  range of `float64`), or the value the text denotes. -/
  decodeJSON : String → Except String JSON
  /-- The call `fmt.Sprintf("%v", v)`. -/
  sprintV : JSON → String

/-- The struct `User`. -/
structure User where
  Name : String
  UID : String
  deriving Repr, DecidableEq

/-- The struct `Actor`. -/
structure Actor where
  User : User
  deriving Repr, DecidableEq

/-- Resource that was affected by the activity/event; `Type_` is the Go field `Type`. -/
structure Resource where
  Name : String
  Type_ : String
  UID : String
  deriving Repr, DecidableEq

/-- Endpoint represents a network endpoint. -/
structure Endpoint where
  Hostname : String
  IP : String
  deriving Repr, DecidableEq

/-- Metadata contains additional information about the event. -/
structure Metadata where
  EventID : String
  EventIndex : String
  deriving Repr, DecidableEq

/-- Struct for the output Signal, over the type `T` of timestamps. `TTPs` and
`RuleSpecificData` are `none` for Go's nil slice and nil map. -/
structure Signal (T : Type) where
  Timestamp : T
  Rule_ID : String
  Rule_Name : String
  ConfidenceID : Nat
  Confidence : String
  TTPs : Option (List Record)
  Actor : Actor
  Resource : Resource
  SrcEndpoint : Endpoint
  DstEndpoint : Endpoint
  Message : String
  Metadata : Metadata
  RuleSpecificData : Option Record
  deriving Repr, DecidableEq

abbrev ConfidenceUnknownID : Nat := 0
abbrev ConfidenceLowID : Nat := 1
abbrev ConfidenceMediumID : Nat := 2
abbrev ConfidenceHighID : Nat := 3

/-- The errors `BuildSignal` and `BuildOutput` build with `fmt.Errorf`. -/
inductive BuildError where
  /-- The message "number of query result fields mismatches expected count". -/
  | fieldCountMismatch
  /-- The format "source field (Source) not found in query results". -/
  | missingSourceField (source : String)
  /-- The format "failed to parse timestamp: (err)". -/
  | timestampParse (err : String)
  /-- The format "unsupported output field (Field)". -/
  | unsupportedOutputField (field : String)
  /-- The format "unsupported output format: (Format)". -/
  | unsupportedOutputFormat (format : String)
  deriving Repr, DecidableEq

/-- The value `BuildOutput` returns as `any`: a pointer to a signal, or the record. -/
inductive Output (T : Type) where
  | signal (sig : Signal T)
  | raw (result : Record)
  deriving Repr, DecidableEq

/-- The function `getConfidenceID`. -/
def getConfidenceID (confidence : String) : Nat :=
  if confidence = ConfidenceLow then ConfidenceLowID
  else if confidence = ConfidenceMedium then ConfidenceMediumID
  else if confidence = ConfidenceHigh then ConfidenceHighID
  else ConfidenceUnknownID

/-- Go's `append(s, x)` on a slice that may be nil. -/
def goAppend {α : Type} (s : Option (List α)) (x : α) : Option (List α) :=
  match s with
  | none => some [x]
  | some xs => some (xs ++ [x])

/-- The map literal `BuildSignal` appends for one TTP. -/
def ttpMap (ttp : TTP) : Record :=
  [("framework", ttp.Framework), ("tactic", ttp.Tactic), ("name", ttp.Name), ("id", ttp.ID)]

/-- The loop `for _, ttp := range cfg.TTPs` of `BuildSignal`. -/
def appendTTPs (ttps : Option (List Record)) : List TTP → Option (List Record)
  | [] => ttps
  | ttp :: rest => appendTTPs (goAppend ttps (ttpMap ttp)) rest

/-- The signal `BuildSignal` holds when it enters the loop over the output fields: the
struct literal, every other field at its zero value, with the TTPs appended. -/
def newSignal (lib : Stdlib) (cfg : RuleConfig) : Signal lib.Time :=
  { Timestamp := lib.zeroTime
    Rule_ID := cfg.UID
    Rule_Name := cfg.Name
    ConfidenceID := getConfidenceID cfg.Confidence
    Confidence := cfg.Confidence
    TTPs := appendTTPs (some []) cfg.TTPs
    Actor := ⟨⟨"", ""⟩⟩
    Resource := ⟨"", "", ""⟩
    SrcEndpoint := ⟨"", ""⟩
    DstEndpoint := ⟨"", ""⟩
    Message := ""
    Metadata := ⟨"", ""⟩
    RuleSpecificData := none }

/-- The call `json.Unmarshal([]byte(value), &rsd)` on a nil `map[string]interface{}`: the
error, or the entries of `rsd` afterwards. An object fills the map; the JSON value `null`
leaves the map nil and is no error; any other value is a type error. -/
def unmarshalMap (lib : Stdlib) (value : String) : Except String (List (String × JSON)) :=
  match lib.decodeJSON value with
  | .error err => .error err
  | .ok (.object members) => .ok (JSON.objectMap members)
  | .ok .null => .ok []
  | .ok _ => .error "json: cannot unmarshal into Go value of type map[string]interface {}"

/-- The loop `for k, v := range rsd` of the `RuleSpecificData` case. -/
def stringifyEntries (lib : Stdlib) : List (String × JSON) → Record
  | [] => []
  | (k, v) :: rest => (k, lib.sprintV v) :: stringifyEntries lib rest

/-- The body of the loop `for _, outputField := range cfg.Output.Fields` of `BuildSignal`. -/
def setOutputField (lib : Stdlib) (result : Record) (signal : Signal lib.Time)
    (outputField : OutputField) : Except BuildError (Signal lib.Time) :=
  match result.get outputField.Source with
  | none => .error (.missingSourceField outputField.Source)
  | some value =>
    match outputField.Field with
    | "Timestamp" =>
      match lib.parseRFC3339 value with
      | .error err => .error (.timestampParse err)
      | .ok parsedTime => .ok { signal with Timestamp := parsedTime }
    | "ActorUserName" =>
      .ok { signal with Actor := { User := { signal.Actor.User with Name := value } } }
    | "ActorUserUID" =>
      .ok { signal with Actor := { User := { signal.Actor.User with UID := value } } }
    | "ResourceName" => .ok { signal with Resource := { signal.Resource with Name := value } }
    | "ResourceType" => .ok { signal with Resource := { signal.Resource with Type_ := value } }
    | "ResourceUID" => .ok { signal with Resource := { signal.Resource with UID := value } }
    | "SrcHostname" =>
      .ok { signal with SrcEndpoint := { signal.SrcEndpoint with Hostname := value } }
    | "SrcIP" => .ok { signal with SrcEndpoint := { signal.SrcEndpoint with IP := value } }
    | "DstHostname" =>
      .ok { signal with DstEndpoint := { signal.DstEndpoint with Hostname := value } }
    | "DstIP" => .ok { signal with DstEndpoint := { signal.DstEndpoint with IP := value } }
    | "Message" => .ok { signal with Message := value }
    | "EventID" => .ok { signal with Metadata := { signal.Metadata with EventID := value } }
    | "EventIndex" =>
      .ok { signal with Metadata := { signal.Metadata with EventIndex := value } }
    | "RuleSpecificData" =>
      match unmarshalMap lib value with
      | .ok rsd => .ok { signal with RuleSpecificData := some (stringifyEntries lib rsd) }
      | .error _ => .ok { signal with RuleSpecificData := some [("raw", value)] }
    | _ => .error (.unsupportedOutputField outputField.Field)

/-- The loop `for _, outputField := range cfg.Output.Fields` of `BuildSignal`: it returns at
the first field that fails. -/
def mapOutputFields (lib : Stdlib) (result : Record) :
    Signal lib.Time → List OutputField → Except BuildError (Signal lib.Time)
  | signal, [] => .ok signal
  | signal, outputField :: rest =>
    match setOutputField lib result signal outputField with
    | .error err => .error err
    | .ok signal2 => mapOutputFields lib result signal2 rest

/-- The function `BuildSignal`. -/
def BuildSignal (lib : Stdlib) (result : Record) (cfg : RuleConfig) :
    Except BuildError (Signal lib.Time) :=
  if result.len < cfg.Output.Fields.length then .error .fieldCountMismatch
  else mapOutputFields lib result (newSignal lib cfg) cfg.Output.Fields

/-- The function `BuildOutput`. -/
def BuildOutput (lib : Stdlib) (result : Record) (cfg : RuleConfig) :
    Except BuildError (Output lib.Time) :=
  if cfg.Output.Format = OutputFormatSignal then
    match BuildSignal lib result cfg with
    | .error err => .error err
    | .ok sig => .ok (.signal sig)
  else if cfg.Output.Format = OutputFormatRaw then .ok (.raw result)
  else .error (.unsupportedOutputFormat cfg.Output.Format)

/-- The reference construction of a string slot of the signal: the record value of the source
of the last output field whose target is `target`, and the empty string when no output field
has that target. -/
def referenceSlot (result : Record) (fields : List OutputField) (target : String) : String :=
  match (fields.filter (fun f => f.Field = target)).getLast? with
  | none => ""
  | some f => (result.get f.Source).getD ""

/-- A small standard library for concrete evaluations: a timestamp is kept as its text and
parses when it has the twenty characters of a UTC RFC3339 second; JSON text is decoded by
`JSON.unmarshalValue` and printed by `JSON.sprintV`. -/
def textStdlib : Stdlib where
  Time := String
  zeroTime := "0001-01-01T00:00:00Z"
  parseRFC3339 := fun value =>
    if value.length = 20 then .ok value else .error "cannot parse"
  decodeJSON := JSON.unmarshalValue
  sprintV := JSON.sprintV

/-- A rule configuration with the given confidence, TTPs and output specification. -/
def ruleConfig (confidence : String) (ttps : List TTP) (output : Config.Output) : RuleConfig :=
  { Author := "", Confidence := confidence, Description := "", Enabled := true,
    ExclusionsPath := "", Language := "", LLM := none, Name := "test-rule", Output := output,
    Publishers := [], Query := "", QueryEngine := "", References := [], Schedule := "",
    Status := "", Tags := [], TTPs := ttps, UID := "test-uid" }

end Signal

/-! ## internal/llm/llm.go -/

namespace Llm

open Config

/-- The functions of Go's standard library the enrichment stage calls. -/
structure Stdlib where
  /-- The decoding of JSON text by `encoding/json` into values of the type `interface{}`:
  an error (of syntax, of nesting beyond the depth it admits, or of a number outside the
  range of `float64`), or the value the text denotes. -/
  decodeJSON : String → Except String JSON
  /-- The call `json.Marshal(val)`. -/
  marshalJSON : JSON → Except String String
  /-- The call `fmt.Sprintf("%v", val)`. -/
  sprintV : JSON → String
  /-- The parsed templates of `text/template`. -/
  Template : Type
  /-- The call `template.New("prompt").Parse(promptTemplate)`. -/
  parseTemplate : String → Except String Template
  /-- The call `tmpl.Execute(&buf, data)` where `data` maps `FormattedResults` to the given
  text: the error, or `buf.String()`. -/
  executeTemplate : Template → String → Except String String

/-- Client defines the interface for LLM clients; the context argument of `Call` is left
out. -/
structure Client where
  Call : String → Except String String

/-- The grave accent, the character code fences are made of. -/
def backtick : Char := Char.ofNat 96

/-- Go's `unicode.IsSpace`. -/
def isSpace (c : Char) : Bool :=
  decide (c.toNat = 9 ∨ c.toNat = 10 ∨ c.toNat = 11 ∨ c.toNat = 12 ∨ c.toNat = 13 ∨
    c.toNat = 32 ∨ c.toNat = 133 ∨ c.toNat = 160 ∨ c.toNat = 5760 ∨
    (8192 ≤ c.toNat ∧ c.toNat ≤ 8202) ∨ c.toNat = 8232 ∨ c.toNat = 8233 ∨
    c.toNat = 8239 ∨ c.toNat = 8287 ∨ c.toNat = 12288)

/-- Go's `strings.TrimSpace` on the characters of a string: the leading white space is
dropped, then the trailing white space. -/
def trimSpaceChars (cs : List Char) : List Char :=
  (cs.dropWhile isSpace).rdropWhile isSpace

/-- Go's `strings.TrimSpace(s)`. -/
def trimSpace (s : String) : String :=
  String.mk (trimSpaceChars s.data)

/-- The tail of the code-fence expression, a greedy group `(.*)` followed by a line feed and
three grave accents, matched at the start of the text under the flag `s`: the group is the
longest prefix of the text that is followed by a line feed and three grave accents. -/
def captureGreedy : List Char → Option (List Char)
  | [] => none
  | c :: rest =>
    match captureGreedy rest with
    | some group => some (c :: group)
    | none => if Exclusion.hasPrefixChars (c :: rest) "\n```".data then some [] else none

/-- The code-fence expression matched at the start of the text: three grave accents, the
optional tag `json` (tried first), a line feed, then `captureGreedy`. The result is the
first group of the match. -/
def matchFenceAt (cs : List Char) : Option (List Char) :=
  if Exclusion.hasPrefixChars cs "```json\n".data then captureGreedy (cs.drop 8)
  else if Exclusion.hasPrefixChars cs "```\n".data then captureGreedy (cs.drop 4)
  else none

/-- The call `codeFenceRegex.FindStringSubmatch(response)` for the expression
three grave accents, `(?:json)?`, line feed, `(.*)`, line feed, three grave accents under
the flag `s`: the leftmost match is looked for, and the result is its first group, `none`
when the expression matches nowhere. -/
def findFenceChars : List Char → Option (List Char)
  | [] => none
  | c :: rest =>
    match matchFenceAt (c :: rest) with
    | some group => some group
    | none => findFenceChars rest

/-- The first group of `codeFenceRegex.FindStringSubmatch(response)`, as a string. -/
def findFence (response : String) : Option String :=
  match findFenceChars response.data with
  | some group => some (String.mk group)
  | none => none

/-- The errors `parseResponse` builds with `fmt.Errorf`. -/
inductive ParseError where
  /-- The format "error unmarshaling LLM response: (err)". -/
  | unmarshal (err : String)
  /-- The format "error converting result at index (i): (err)". -/
  | convert (index : Nat) (err : String)
  deriving Repr, DecidableEq

/-- The errors `generatePrompt` builds with `fmt.Errorf`. -/
inductive PromptError where
  /-- The format "error parsing prompt template: (err)". -/
  | parseTemplate (err : String)
  /-- The format "error executing prompt template: (err)". -/
  | executeTemplate (err : String)
  deriving Repr, DecidableEq

/-- The errors `Process` builds with `fmt.Errorf`. -/
inductive ProcessError where
  /-- The message "LLM client is not initialized". -/
  | clientNotInitialized
  /-- The format "error generating prompt: (err)". -/
  | generatingPrompt (err : PromptError)
  /-- The format "error calling LLM: (err)". -/
  | callingLLM (err : String)
  /-- The format "error parsing LLM response: (err)". -/
  | parsingResponse (err : ParseError)
  deriving Repr, DecidableEq

/-- The map one element of the decoded array gives in a `[]map[string]interface{}`: an
object fills the map, `null` leaves it nil, any other value is a type error. -/
def elementMap : JSON → Option (List (String × JSON))
  | .object members => some (JSON.objectMap members)
  | .null => some []
  | _ => none

/-- The maps the elements of the decoded array give; `none` when one of them is a type
error. -/
def elementMaps : List JSON → Option (List (List (String × JSON)))
  | [] => some []
  | v :: rest =>
    match elementMap v, elementMaps rest with
    | some m, some ms => some (m :: ms)
    | _, _ => none

/-- The call `json.Unmarshal([]byte(response), &rawResults)` on a nil
`[]map[string]interface{}`: the error, or the elements of `rawResults` afterwards. An array
fills the slice, the JSON value `null` leaves it nil and is no error, any other value is a
type error. -/
def unmarshalMaps (lib : Stdlib) (response : String) :
    Except String (List (List (String × JSON))) :=
  match lib.decodeJSON response with
  | .error err => .error err
  | .ok (.array elems) =>
    match elementMaps elems with
    | some ms => .ok ms
    | none => .error "json: cannot unmarshal into Go value of type map[string]interface {}"
  | .ok .null => .ok []
  | .ok _ => .error "json: cannot unmarshal into Go value of type []map[string]interface {}"

/-- The type switch of `convertToMapStringString` on one value. -/
def convertValue (lib : Stdlib) : JSON → Except String String
  | .string val => .ok val
  | .null => .ok ""
  | .array elems => lib.marshalJSON (.array elems)
  | .object members => lib.marshalJSON (.object members)
  | .bool b => .ok (lib.sprintV (.bool b))
  | .number text => .ok (lib.sprintV (.number text))

/-- The loop `for k, v := range m` of `convertToMapStringString` over the entries of the
map. -/
def convertEntries (lib : Stdlib) : List (String × JSON) → Except String Record
  | [] => .ok []
  | (k, v) :: rest =>
    match convertValue lib v with
    | .error err => .error err
    | .ok text =>
      match convertEntries lib rest with
      | .error err => .error err
      | .ok res => .ok ((k, text) :: res)

/-- The function `convertToMapStringString`; the error is the one of `json.Marshal`. -/
def convertToMapStringString (lib : Stdlib) (m : List (String × JSON)) :
    Except String Record :=
  convertEntries lib (JSON.mapEntries m)

/-- The loop `for i, rawResult := range rawResults` of `parseResponse`, from index `i` on. -/
def convertResults (lib : Stdlib) (i : Nat) :
    List (List (String × JSON)) → Except ParseError (List Record)
  | [] => .ok []
  | rawResult :: rest =>
    match convertToMapStringString lib rawResult with
    | .error err => .error (.convert i err)
    | .ok res =>
      match convertResults lib (i + 1) rest with
      | .error err => .error err
      | .ok results => .ok (res :: results)

/-- The function `parseResponse`. The result `none` is the nil slice, `some results` a slice
that is not nil. -/
def parseResponse (lib : Stdlib) (response : String) :
    Except ParseError (Option (List Record)) :=
  let response := trimSpace response
  let response := match findFence response with
    | some group => group
    | none => response
  let response := trimSpace response
  if response = "[]" ∨ response = "" then .ok none
  else
    match unmarshalMaps lib response with
    | .error err => .error (.unmarshal err)
    | .ok rawResults =>
      match convertResults lib 0 rawResults with
      | .error err => .error err
      | .ok results => .ok (some results)

/-- The call `maps.Keys(result)`: the keys of the map, in an order that is not specified. -/
def mapsKeys (result : Record) : List String :=
  (result.map Prod.fst).dedup

/-- The call `sort.Strings(keys)`: the keys in ascending order. -/
def sortStrings (keys : List String) : List String :=
  keys.insertionSort (fun a b => a ≤ b)

/-- The loop `for _, key := range keys` of `generatePrompt`: one `key: value` text per key,
the value being `result[key]`. -/
def formatFields (result : Record) : List String → List String
  | [] => []
  | key :: rest => (key ++ ": " ++ (result.get key).getD "") :: formatFields result rest

/-- The line `generatePrompt` builds for one record. -/
def formatLine (result : Record) : String :=
  ", ".intercalate (formatFields result (sortStrings (mapsKeys result)))

/-- The loop `for _, result := range results` of `generatePrompt`, writing one line after the
other to the buffer `formattedResults`. -/
def writeResults (formattedResults : String) : List Record → String
  | [] => formattedResults
  | result :: rest => writeResults (formattedResults ++ (formatLine result ++ "\n")) rest

/-- The formatted block of `generatePrompt`: `formattedResults.String()` after the loop. -/
def formatResults (results : List Record) : String :=
  writeResults "" results

/-- The function `generatePrompt`. -/
def generatePrompt (lib : Stdlib) (promptTemplate : String) (results : List Record) :
    Except PromptError String :=
  match lib.parseTemplate promptTemplate with
  | .error err => .error (.parseTemplate err)
  | .ok tmpl =>
    match lib.executeTemplate tmpl (formatResults results) with
    | .error err => .error (.executeTemplate err)
    | .ok prompt => .ok prompt

/-- Go's `len` of a slice that may be nil. -/
def sliceLen {α : Type} (s : Option (List α)) : Nat :=
  match s with
  | none => 0
  | some xs => xs.length

/-- What one call of `Process` does: `returned` is the pair of results and error it returns,
`none` when the call panics instead of returning; `calls` lists the prompts passed to
`client.Call`. -/
structure ProcessRun where
  returned : Option (Except ProcessError (Option (List Record)))
  calls : List String

/-- The function `Process`: runs the LLM analysis on the query results. A missing client is
`none`. Reading `cfg.LLM.Prompt` when `cfg.LLM` is nil is a nil pointer dereference, a
panic. -/
def Process (lib : Stdlib) (client : Option Client) (results : List Record)
    (cfg : RuleConfig) : ProcessRun :=
  if results.length = 0 then ⟨some (.ok none), []⟩
  else
    match client with
    | none => ⟨some (.error .clientNotInitialized), []⟩
    | some c =>
      match cfg.LLM with
      | none => ⟨none, []⟩
      | some llm =>
        match generatePrompt lib llm.Prompt results with
        | .error err => ⟨some (.error (.generatingPrompt err)), []⟩
        | .ok prompt =>
          match c.Call prompt with
          | .error err => ⟨some (.error (.callingLLM err)), [prompt]⟩
          | .ok response =>
            match parseResponse lib response with
            | .error err => ⟨some (.error (.parsingResponse err)), [prompt]⟩
            | .ok newResults =>
              if sliceLen newResults = 0 then ⟨some (.ok none), [prompt]⟩
              else ⟨some (.ok newResults), [prompt]⟩

/-- A small template engine for concrete evaluations: a template with an action that is not
closed does not parse; executing a template replaces the first action
`.FormattedResults` by the text. -/
def substituteFirst (action text : List Char) : List Char → List Char
  | [] => []
  | c :: rest =>
    if Exclusion.hasPrefixChars (c :: rest) action then text ++ (c :: rest).drop action.length
    else c :: substituteFirst action text rest

/-- A small standard library for concrete evaluations: JSON text is decoded by
`JSON.unmarshalValue`, written by `JSON.marshal` and printed by `JSON.sprintV`; templates are
those of `substituteFirst`. -/
def plainStdlib : Stdlib where
  decodeJSON := JSON.unmarshalValue
  marshalJSON := fun v => .ok (JSON.marshal v)
  sprintV := JSON.sprintV
  Template := String
  parseTemplate := fun t =>
    if Exclusion.stringsContains t "\x7b\x7b" && !Exclusion.stringsContains t "\x7d\x7d" then
      .error "unclosed action"
    else .ok t
  executeTemplate := fun tmpl text =>
    .ok (String.mk (substituteFirst "\x7b\x7b .FormattedResults \x7d\x7d".data text.data
      tmpl.data))

/-- A client that answers every prompt with the same response. -/
def fixedClient (response : Except String String) : Client where
  Call := fun _ => response

end Llm

/-! ## The return statements of `evaluateCondition` -/

namespace Exclusion

/-- The return statements of `evaluateCondition`, in source order: the missing field, the
six operators (the regular expression with its error return and its result return) and
the default case of the switch. -/
inductive ConditionReturn where
  | missingField
  | equals
  | notEquals
  | contains
  | regexError
  | regexMatched
  | inValues
  | notInValues
  | unsupportedOperator
  deriving Repr, DecidableEq

/-- The return statement a call of `evaluateCondition` ends at: the control flow of
`evaluateCondition`, without the values. -/
def evaluateConditionReturn (re : Regexp) (cond : Condition) (result : Record) :
    ConditionReturn :=
  match result.get cond.Field with
  | none => .missingField
  | some value =>
    match cond.Operator with
    | "equals" => .equals
    | "not_equals" => .notEquals
    | "contains" => .contains
    | "regex" =>
      match re.matchString cond.Value value with
      | .error _ => .regexError
      | .ok _ => .regexMatched
    | "in" => .inValues
    | "not_in" => .notInValues
    | _ => .unsupportedOperator

end Exclusion

/-! ## The cleaned text of a response and the maps of decoded objects -/

namespace JSON

/-- The map index expression `v, exists := m[key]` on a map of any values. -/
def mapGet {α : Type} (m : List (String × α)) (key : String) : Option α :=
  match m with
  | [] => none
  | (k, v) :: rest => if k = key then some v else mapGet rest key

end JSON

namespace Llm

/-- The cleaned text of `parseResponse`, the value of `response` when it is compared with
`[]` and the empty string: the response trimmed, replaced by the first group of the
code-fence expression when it matches, and trimmed again. -/
def cleanResponse (response : String) : String :=
  trimSpace (match findFence (trimSpace response) with
    | some group => group
    | none => trimSpace response)

end Llm

/-! ## main.go -/

namespace Main

open Config

/-- Publisher, the interface of `connector.go`: `Publish` returns an error or nil; the
context argument is left out. -/
structure Publisher where
  Publish : List Record → RuleConfig → Except String Unit

/-- One call of `Publish` made by `main`: the position of the publisher in `publishers`, the
data passed, and whether the call returned an error, which `main` logs. -/
structure PublishCall where
  index : Nat
  data : List Record
  failed : Bool
  deriving Repr, DecidableEq

/-- Whether a returned error is not nil. -/
def isError {ε α : Type} (r : Except ε α) : Bool :=
  match r with
  | .error _ => true
  | .ok _ => false

/-- The excluder of `main`: nil when `ExclusionsPath` is empty, else the result of
`exclusion.NewExcluder`, whose error ends the process. The decoded content of the file comes
as `decoded`, the error of opening or decoding it or the rule list. The result is `none`
when the process ends with `logger.Fatalf`. -/
def setupExcluder (re : Exclusion.Regexp) (ruleCfg : RuleConfig)
    (decoded : Except String (List Exclusion.ExclusionRule)) :
    Option (Option Exclusion.Excluder) :=
  if ruleCfg.ExclusionsPath ≠ "" then
    match decoded with
    | .error _ => none
    | .ok rules =>
      match Exclusion.NewExcluder re rules with
      | .error _ => none
      | .ok excluder => some (some excluder)
  else some none

/-- The loop `for _, result := range parsedResponse` of the exclusion stage, appending to
`filtered` the results that are not excluded. -/
def filterResults (re : Exclusion.Regexp) (excluder : Exclusion.Excluder)
    (filtered : List Record) : List Record → List Record
  | [] => filtered
  | result :: rest =>
    if excluder.IsExcluded re result then filterResults re excluder filtered rest
    else filterResults re excluder (filtered ++ [result]) rest

/-- The exclusion stage of `main`: `parsedResponse` after the block
`if excluder != nil`. -/
def exclusionStage (re : Exclusion.Regexp) (excluder : Option Exclusion.Excluder)
    (parsedResponse : List Record) : List Record :=
  match excluder with
  | none => parsedResponse
  | some e => filterResults re e [] parsedResponse

/-- The loop `for i, pub := range publishers` of `main`, from index `i` on: every publisher
is called with the batch, and an error is logged. -/
def publishAll (ruleCfg : RuleConfig) (parsedResponse : List Record) :
    Nat → List Publisher → List PublishCall
  | _, [] => []
  | i, pub :: rest =>
    { index := i, data := parsedResponse,
      failed := isError (pub.Publish parsedResponse ruleCfg) } ::
      publishAll ruleCfg parsedResponse (i + 1) rest

/-- The end of `main`, from the test `len(parsedResponse) == 0` on. -/
def publishStage (ruleCfg : RuleConfig) (parsedResponse : List Record)
    (publishers : List Publisher) : List PublishCall :=
  if parsedResponse.length = 0 then []
  else publishAll ruleCfg parsedResponse 0 publishers

/-- The enrichment stage of `main`, the block `if ruleCfg.LLM != nil && ruleCfg.LLM.Enabled`:
`none` when `main` returns there (an error of `Process`, no result, or a call of `Process`
that does not return), else the batch that goes on. -/
def enrichmentStage (lib : Llm.Stdlib) (llmClient : Option Llm.Client) (ruleCfg : RuleConfig)
    (parsedResponse : List Record) : Option (List Record) :=
  match ruleCfg.LLM with
  | none => some parsedResponse
  | some llm =>
    if llm.Enabled then
      match (Llm.Process lib llmClient parsedResponse ruleCfg).returned with
      | none => none
      | some (.error _) => none
      | some (.ok newResults) =>
        if Llm.sliceLen newResults = 0 then none else some (newResults.getD [])
    else some parsedResponse

/-- What a run of `main` does, from the set-up of the excluder on: whether the process ends
with `logger.Fatalf`, and the calls of `Publish` it makes. -/
structure MainRun where
  fatal : Bool
  calls : List PublishCall
  deriving Repr, DecidableEq

/-- The LLM client of `main`: nil unless the LLM settings are present and enabled, else the
result of `llm.New`, whose error ends the process. The result is `none` when the process ends
with `logger.Fatalf`. -/
def setupClient (ruleCfg : RuleConfig) (newClient : Except String Llm.Client) :
    Option (Option Llm.Client) :=
  match ruleCfg.LLM with
  | none => some none
  | some llm =>
    if llm.Enabled then
      match newClient with
      | .error _ => none
      | .ok client => some (some client)
    else some none

/-- The function `main`, from the set-up of the excluder on. The resolved query runner and
publishers are given; `decoded` is the content of the exclusions file, `newClient` the
result of `llm.New`, `queryResult` the result of `qr.Query`. -/
def run (re : Exclusion.Regexp) (lib : Llm.Stdlib) (ruleCfg : RuleConfig)
    (publishers : List Publisher) (decoded : Except String (List Exclusion.ExclusionRule))
    (newClient : Except String Llm.Client) (queryResult : Except String (List Record)) :
    MainRun :=
  match setupExcluder re ruleCfg decoded with
  | none => { fatal := true, calls := [] }
  | some excluder =>
    match setupClient ruleCfg newClient with
    | none => { fatal := true, calls := [] }
    | some llmClient =>
      match queryResult with
      | .error _ => { fatal := true, calls := [] }
      | .ok parsedResponse =>
        match enrichmentStage lib llmClient ruleCfg
            (exclusionStage re excluder parsedResponse) with
        | none => { fatal := false, calls := [] }
        | some batch => { fatal := false, calls := publishStage ruleCfg batch publishers }

end Main

/-! ## internal/config/global_config.go -/

namespace Config

/-- The struct `OpenSearchConfig`. -/
structure OpenSearchConfig where
  URL : String
  Username : String
  Password : String
  InsecureSkipVerify : Bool
  deriving Repr, DecidableEq

/-- The struct `PubSubConfig`. -/
structure PubSubConfig where
  ProjectID : String
  TopicID : String
  deriving Repr, DecidableEq

/-- The struct `BigQueryConfig`. -/
structure BigQueryConfig where
  ProjectID : String
  DatasetID : String
  TableID : String
  deriving Repr, DecidableEq

/-- The struct `SlackConfig`. -/
structure SlackConfig where
  WebhookURL : String
  deriving Repr, DecidableEq

/-- The struct `LLMConfig`; the temperature, a `float64`, is kept as its text. -/
structure LLMConfig where
  Provider : String
  APIKey : String
  Model : String
  ServerURL : String
  Temperature : String
  deriving Repr, DecidableEq

/-- The struct `OpenSearchConnectors`: the map from instance name to settings. -/
structure OpenSearchConnectors where
  Instances : List (String × OpenSearchConfig)
  deriving Repr, DecidableEq

/-- The struct `PubSubConnectors`. -/
structure PubSubConnectors where
  Instances : List (String × PubSubConfig)
  deriving Repr, DecidableEq

/-- The struct `BigQueryConnectors`. -/
structure BigQueryConnectors where
  Instances : List (String × BigQueryConfig)
  deriving Repr, DecidableEq

/-- The struct `SlackConnectors`. -/
structure SlackConnectors where
  Instances : List (String × SlackConfig)
  deriving Repr, DecidableEq

/-- GlobalConfig holds the entire global configuration. -/
structure GlobalConfig where
  OpenSearch : OpenSearchConnectors
  PubSub : PubSubConnectors
  BigQuery : BigQueryConnectors
  Slack : SlackConnectors
  LLM : LLMConfig
  deriving Repr, DecidableEq

end Config

/-! ## connector/pubsub/client.go: the client -/

namespace PubSub

/-- The struct `Client` of the package `pubsub`. -/
structure Client where
  projectID : String
  topicID : String
  deriving Repr, DecidableEq

/-- The function `New` of the package `pubsub`: it builds the client and returns no error. -/
def New (projectID topicID : String) : Except String Client :=
  .ok { projectID := projectID, topicID := topicID }

/-- The calls `Publish` makes outside the repository: to the client library
`cloud.google.com/go/pubsub` and to `encoding/json`. -/
structure Cloud (lib : Signal.Stdlib) where
  /-- The call `pubsub.NewClient(ctx, c.projectID)`: its error, if any. -/
  newClient : String → Except String Unit
  /-- The call `topic.Exists(ctx)` on the topic `c.topicID` of the project. -/
  topicExists : String → String → Except String Bool
  /-- The call `json.Marshal(output)`. -/
  marshalOutput : Signal.Output lib.Time → Except String String
  /-- The call `topic.Publish(ctx, msg)` followed by `res.Get(ctx)`, for the message at a
  position of the batch: the error of the delivery, or the server ID of the message. -/
  deliver : Nat → String → Except String String

/-- The errors `buildPubSubMessage` returns: the one of `signal.BuildOutput`, or the one of
`json.Marshal`. -/
inductive MessageError where
  | build (err : Signal.BuildError)
  | marshal (err : String)
  deriving Repr, DecidableEq

/-- The errors `Publish` returns. -/
inductive PublishError where
  /-- The error of `pubsub.NewClient`. -/
  | newClient (err : String)
  /-- The error of `topic.Exists`. -/
  | topicExists (err : String)
  /-- The format "topic (topicID) doesn't exist". -/
  | topicMissing (topicID : String)
  /-- The format "get: (errors)" around `errors.Join(pubErrors...)`. -/
  | get (pubErrors : List String)
  deriving Repr, DecidableEq

/-- The function `buildPubSubMessage`: the data of the message. -/
def buildPubSubMessage (lib : Signal.Stdlib) (cloud : Cloud lib) (result : Record)
    (cfg : Config.RuleConfig) : Except MessageError String :=
  match Signal.BuildOutput lib result cfg with
  | .error err => .error (.build err)
  | .ok output =>
    match cloud.marshalOutput output with
    | .error err => .error (.marshal err)
    | .ok dataJSON => .ok dataJSON

/-- The goroutine of `Publish`: what it sends on the channel `pubResults` for the records from
position `index` on, in order; `none` is the nil sent when the message cannot be built, and a
publish result is held as what its `Get` returns. -/
def sendResults (lib : Signal.Stdlib) (cloud : Cloud lib) (cfg : Config.RuleConfig) :
    Nat → List Record → List (Option (Except String String))
  | _, [] => []
  | index, r :: rest =>
    match buildPubSubMessage lib cloud r cfg with
    | .error _ => none :: sendResults lib cloud cfg (index + 1) rest
    | .ok msg => some (cloud.deliver index msg) :: sendResults lib cloud cfg (index + 1) rest

/-- The loop `for res := range pubResults` of `Publish`: the slice `pubErrors` it builds. -/
def collectErrors : List (Option (Except String String)) → List String
  | [] => []
  | none :: rest => collectErrors rest
  | some (.error err) :: rest => err :: collectErrors rest
  | some (.ok _) :: rest => collectErrors rest

/-- The method `Publish` of the client. -/
def Client.Publish (lib : Signal.Stdlib) (cloud : Cloud lib) (c : Client)
    (results : List Record) (cfg : Config.RuleConfig) : Except PublishError Unit :=
  if results.length = 0 then .ok ()
  else
    match cloud.newClient c.projectID with
    | .error err => .error (.newClient err)
    | .ok _ =>
      match cloud.topicExists c.projectID c.topicID with
      | .error err => .error (.topicExists err)
      | .ok false => .error (.topicMissing c.topicID)
      | .ok true =>
        let pubErrors := collectErrors (sendResults lib cloud cfg 0 results)
        if pubErrors.length ≠ 0 then .error (.get pubErrors) else .ok ()

end PubSub

/-! ## connector/registry.go -/

namespace Connector

open Config

/-- The constructors of the connectors whose clients are made by libraries outside the
repository (`opensearch.New`, `bigquery.New`) or by a package not at hand (`slack.New`): for
the settings of an instance, an error or a client. -/
structure Backends where
  OpenSearchClient : Type
  newOpenSearch : OpenSearchConfig → Except String OpenSearchClient
  BigQueryClient : Type
  newBigQuery : BigQueryConfig → Except String BigQueryClient
  SlackClient : Type
  newSlack : SlackConfig → Except String SlackClient

/-- A value held by the maps of the registry: the client of one of the four families. -/
inductive Instance (b : Backends) where
  | opensearch (client : b.OpenSearchClient)
  | pubsub (client : PubSub.Client)
  | bigquery (client : b.BigQueryClient)
  | slack (client : b.SlackClient)

/-- Registry manages all connector instances for querying and publishing. -/
structure Registry (b : Backends) where
  queryRunners : List (String × Instance b)
  publishers : List (String × Instance b)

/-- The errors `GetQueryRunner` and `GetPublisher` build with `fmt.Errorf`. -/
inductive RegistryError where
  /-- The format "query runner (name) not found". -/
  | queryRunnerNotFound (name : String)
  /-- The format "publisher (name) not found". -/
  | publisherNotFound (name : String)
  deriving Repr, DecidableEq

/-- The loop `for name, osCfg := range connectors.Instances` of `initOpenSearch`. -/
def registerOpenSearch (b : Backends) :
    Registry b → List (String × OpenSearchConfig) → Registry b
  | r, [] => r
  | r, (name, osCfg) :: rest =>
    if osCfg.URL = "" ∨ osCfg.Username = "" ∨ osCfg.Password = "" then
      registerOpenSearch b r rest
    else
      match b.newOpenSearch osCfg with
      | .error _ => registerOpenSearch b r rest
      | .ok client =>
        registerOpenSearch b
          { queryRunners := ("opensearch." ++ name, .opensearch client) :: r.queryRunners,
            publishers := ("opensearch." ++ name, .opensearch client) :: r.publishers } rest

/-- The method `initOpenSearch`. -/
def initOpenSearch (b : Backends) (r : Registry b) (connectors : OpenSearchConnectors) : Registry b :=
  if (JSON.mapEntries connectors.Instances).length = 0 then r
  else registerOpenSearch b r (JSON.mapEntries connectors.Instances)

/-- The loop `for name, psCfg := range connectors.Instances` of `initPubSub`. -/
def registerPubSub (b : Backends) : Registry b → List (String × PubSubConfig) → Registry b
  | r, [] => r
  | r, (name, psCfg) :: rest =>
    if psCfg.ProjectID = "" ∨ psCfg.TopicID = "" then registerPubSub b r rest
    else
      match PubSub.New psCfg.ProjectID psCfg.TopicID with
      | .error _ => registerPubSub b r rest
      | .ok client =>
        registerPubSub b
          { queryRunners := r.queryRunners,
            publishers := ("pubsub." ++ name, .pubsub client) :: r.publishers } rest

/-- The method `initPubSub`. -/
def initPubSub (b : Backends) (r : Registry b) (connectors : PubSubConnectors) : Registry b :=
  if (JSON.mapEntries connectors.Instances).length = 0 then r
  else registerPubSub b r (JSON.mapEntries connectors.Instances)

/-- The loop `for name, bqCfg := range connectors.Instances` of `initBigQuery`. -/
def registerBigQuery (b : Backends) : Registry b → List (String × BigQueryConfig) → Registry b
  | r, [] => r
  | r, (name, bqCfg) :: rest =>
    if bqCfg.ProjectID = "" then registerBigQuery b r rest
    else
      match b.newBigQuery bqCfg with
      | .error _ => registerBigQuery b r rest
      | .ok client =>
        registerBigQuery b
          { queryRunners := ("bigquery." ++ name, .bigquery client) :: r.queryRunners,
            publishers := ("bigquery." ++ name, .bigquery client) :: r.publishers } rest

/-- The method `initBigQuery`. -/
def initBigQuery (b : Backends) (r : Registry b) (connectors : BigQueryConnectors) : Registry b :=
  if (JSON.mapEntries connectors.Instances).length = 0 then r
  else registerBigQuery b r (JSON.mapEntries connectors.Instances)

/-- The loop `for name, slackCfg := range connectors.Instances` of `initSlack`. -/
def registerSlack (b : Backends) : Registry b → List (String × SlackConfig) → Registry b
  | r, [] => r
  | r, (name, slackCfg) :: rest =>
    if slackCfg.WebhookURL = "" then registerSlack b r rest
    else
      match b.newSlack slackCfg with
      | .error _ => registerSlack b r rest
      | .ok client =>
        registerSlack b
          { queryRunners := r.queryRunners,
            publishers := ("slack." ++ name, .slack client) :: r.publishers } rest

/-- The method `initSlack`. -/
def initSlack (b : Backends) (r : Registry b) (connectors : SlackConnectors) : Registry b :=
  if (JSON.mapEntries connectors.Instances).length = 0 then r
  else registerSlack b r (JSON.mapEntries connectors.Instances)

/-- The function `NewRegistry`: initializes the Registry with all configured connector
instances. -/
def NewRegistry (b : Backends) (globalCfg : GlobalConfig) : Registry b :=
  initSlack b
    (initBigQuery b
      (initPubSub b
        (initOpenSearch b { queryRunners := [], publishers := [] } globalCfg.OpenSearch)
        globalCfg.PubSub)
      globalCfg.BigQuery)
    globalCfg.Slack

/-- The method `GetQueryRunner`. -/
def Registry.GetQueryRunner {b : Backends} (r : Registry b) (name : String) :
    Except RegistryError (Instance b) :=
  match JSON.mapGet r.queryRunners name with
  | none => .error (.queryRunnerNotFound name)
  | some qr => .ok qr

/-- The method `GetPublisher`. -/
def Registry.GetPublisher {b : Backends} (r : Registry b) (name : String) :
    Except RegistryError (Instance b) :=
  match JSON.mapGet r.publishers name with
  | none => .error (.publisherNotFound name)
  | some pub => .ok pub

/-- Constructors for concrete evaluations: a client is the address it is made for; an
OpenSearch address that does not start with `http` and a BigQuery project named `denied`
make the constructor fail. -/
def textBackends : Backends where
  OpenSearchClient := String
  newOpenSearch := fun cfg =>
    if Exclusion.hasPrefixChars cfg.URL.data "http".data then .ok cfg.URL
    else .error "unable to create opensearch client"
  BigQueryClient := String
  newBigQuery := fun cfg =>
    if cfg.ProjectID = "denied" then .error "permission denied" else .ok cfg.ProjectID
  SlackClient := String
  newSlack := fun cfg => .ok cfg.WebhookURL

/-- A global configuration for concrete evaluations: of three OpenSearch instances one lacks
its password and one has an address the constructor refuses; of two PubSub instances one lacks
its topic; of two BigQuery instances one is refused by the constructor. -/
def sampleGlobalConfig : GlobalConfig where
  OpenSearch := { Instances := [
    ("prod", { URL := "https://search.example", Username := "venator", Password := "secret",
               InsecureSkipVerify := false }),
    ("nopass", { URL := "https://search.example", Username := "venator", Password := "",
                 InsecureSkipVerify := false }),
    ("ftp", { URL := "ftp://search.example", Username := "venator", Password := "secret",
              InsecureSkipVerify := false })] }
  PubSub := { Instances := [
    ("alerts", { ProjectID := "detections", TopicID := "signals" }),
    ("notopic", { ProjectID := "detections", TopicID := "" })] }
  BigQuery := { Instances := [
    ("denied", { ProjectID := "denied", DatasetID := "logs", TableID := "events" }),
    ("warehouse", { ProjectID := "detections", DatasetID := "logs", TableID := "events" })] }
  Slack := { Instances := [("soc", { WebhookURL := "https://hooks.example/soc" })] }
  LLM := { Provider := "", APIKey := "", Model := "", ServerURL := "", Temperature := "0" }

end Connector

/-! ## Lemmas on the exclusion engine -/

namespace Exclusion

theorem isExcludedRules_eq_true_iff (re : Regexp) (result : Record) (rules : List ExclusionRule) :
    isExcludedRules re result rules = true ↔
      ∃ rule ∈ rules, evaluateConditionGroup re rule.Conditions result = true := by
  induction rules with
  | nil => simp [isExcludedRules]
  | cons rule rest ih =>
    by_cases h : evaluateConditionGroup re rule.Conditions result = true
    · simp [isExcludedRules, h]
    · simp [isExcludedRules, h, ih]

theorem evaluateAnd_eq_true_iff (re : Regexp) (result : Record) (conds : List Condition) :
    evaluateAnd re result conds = true ↔
      ∀ cond ∈ conds, evaluateCondition re cond result = true := by
  induction conds with
  | nil => simp [evaluateAnd]
  | cons cond rest ih =>
    by_cases h : evaluateCondition re cond result = true
    · simp [evaluateAnd, h, ih]
    · simp [evaluateAnd, h]

theorem evaluateOr_eq_true_iff (re : Regexp) (result : Record) (conds : List Condition) :
    evaluateOr re result conds = true ↔
      ∃ cond ∈ conds, evaluateCondition re cond result = true := by
  induction conds with
  | nil => simp [evaluateOr]
  | cons cond rest ih =>
    by_cases h : evaluateCondition re cond result = true
    · simp [evaluateOr, h]
    · simp [evaluateOr, h, ih]

theorem valueInValues_eq_true_iff (value : String) (values : List String) :
    valueInValues value values = true ↔ value ∈ values := by
  induction values with
  | nil => simp [valueInValues]
  | cons v rest ih =>
    by_cases h : value = v
    · simp [valueInValues, h]
    · simp [valueInValues, h, ih]

theorem hasPrefixChars_eq_true_iff (s sub : List Char) :
    hasPrefixChars s sub = true ↔ ∃ after, s = sub ++ after := by
  induction sub generalizing s with
  | nil => simp [hasPrefixChars]
  | cons b sub ih =>
    cases s with
    | nil => simp [hasPrefixChars]
    | cons a s =>
      by_cases h : a = b
      · simp [hasPrefixChars, h, ih]
      · simp [hasPrefixChars, h]

theorem containsChars_eq_true_iff (s sub : List Char) :
    containsChars s sub = true ↔ ∃ before after, s = before ++ sub ++ after := by
  induction s with
  | nil =>
    cases sub with
    | nil => simp [containsChars, hasPrefixChars]
    | cons b sub => simp [containsChars, hasPrefixChars]
  | cons a s ih =>
    unfold containsChars
    by_cases h : hasPrefixChars (a :: s) sub = true
    · simp only [h, if_true, true_iff]
      obtain ⟨after, hs⟩ := (hasPrefixChars_eq_true_iff _ _).1 h
      exact ⟨[], after, by simpa using hs⟩
    · simp only [h, if_false, Bool.false_eq_true]
      rw [ih]
      constructor
      · rintro ⟨before, after, hs⟩
        exact ⟨a :: before, after, by simp [hs]⟩
      · rintro ⟨before, after, hs⟩
        cases before with
        | nil =>
          exact absurd ((hasPrefixChars_eq_true_iff _ _).2 ⟨after, by simpa using hs⟩) h
        | cons x before =>
          simp only [List.cons_append, List.cons.injEq] at hs
          exact ⟨before, after, hs.2⟩

theorem validateConditions_eq_ok_iff (re : Regexp) (conds : List Condition) :
    validateConditions re conds = .ok () ↔
      ∀ cond ∈ conds, validateCondition re cond = .ok () := by
  induction conds with
  | nil => simp [validateConditions]
  | cons cond rest ih =>
    cases h : validateCondition re cond with
    | error err => simp [validateConditions, h]
    | ok u => simp [validateConditions, h, ih]

theorem validateConditions_error_mem (re : Regexp) (conds : List Condition) (err : ConditionError)
    (h : validateConditions re conds = .error err) :
    ∃ cond ∈ conds, validateCondition re cond = .error err := by
  induction conds with
  | nil => simp [validateConditions] at h
  | cons cond rest ih =>
    cases hc : validateCondition re cond with
    | error err2 =>
      simp [validateConditions, hc] at h
      exact ⟨cond, by simp, by rw [hc, h]⟩
    | ok u =>
      simp [validateConditions, hc] at h
      obtain ⟨c, hmem, hv⟩ := ih h
      exact ⟨c, by simp [hmem], hv⟩

end Exclusion

namespace Exclusion

theorem validateRules_eq_ok_iff (re : Regexp) (i : Nat) (rules : List ExclusionRule) :
    validateRules re i rules = .ok () ↔
      ∀ rule ∈ rules, ∀ cond ∈ rule.Conditions.And ++ rule.Conditions.Or,
        validateCondition re cond = .ok () := by
  induction rules generalizing i with
  | nil => simp [validateRules]
  | cons rule rest ih =>
    have hand := validateConditions_eq_ok_iff re rule.Conditions.And
    have hor := validateConditions_eq_ok_iff re rule.Conditions.Or
    cases ha : validateConditions re rule.Conditions.And with
    | error err =>
      have hna : ¬ ∀ cond ∈ rule.Conditions.And, validateCondition re cond = .ok () := by
        rw [← hand, ha]; simp
      simp only [validateRules, ha, List.mem_cons, List.mem_append, forall_eq_or_imp]
      constructor
      · intro h; cases h
      · intro h
        exact absurd (fun c hc => h.1 c (Or.inl hc)) hna
    | ok u =>
      cases ho : validateConditions re rule.Conditions.Or with
      | error err =>
        have hno : ¬ ∀ cond ∈ rule.Conditions.Or, validateCondition re cond = .ok () := by
          rw [← hor, ho]; simp
        simp only [validateRules, ha, ho, List.mem_cons, List.mem_append, forall_eq_or_imp]
        constructor
        · intro h; cases h
        · intro h
          exact absurd (fun c hc => h.1 c (Or.inr hc)) hno
      | ok u2 =>
        have h1 := hand.1 (by rw [ha])
        have h2 := hor.1 (by rw [ho])
        simp only [validateRules, ha, ho, ih, List.mem_cons, List.mem_append, forall_eq_or_imp]
        constructor
        · intro h
          exact ⟨fun c hc => hc.elim (h1 c) (h2 c), h⟩
        · intro h
          exact h.2

theorem validateRules_error_first (re : Regexp) (i : Nat) (rules : List ExclusionRule)
    (err : LoadError) (h : validateRules re i rules = .error err) :
    ∃ k rule cerr, err = .invalidCondition (i + k + 1) cerr ∧ rules[k]? = some rule ∧
      (∃ cond ∈ rule.Conditions.And ++ rule.Conditions.Or,
        validateCondition re cond = .error cerr) ∧
      ∀ j, j < k → ∀ earlier, rules[j]? = some earlier →
        ∀ cond ∈ earlier.Conditions.And ++ earlier.Conditions.Or,
          validateCondition re cond = .ok () := by
  induction rules generalizing i with
  | nil => simp [validateRules] at h
  | cons rule rest ih =>
    cases ha : validateConditions re rule.Conditions.And with
    | error cerr =>
      simp only [validateRules, ha, Except.error.injEq] at h
      obtain ⟨c, hc, hv⟩ := validateConditions_error_mem re _ _ ha
      refine ⟨0, rule, cerr, by simp [← h], by simp, ⟨c, by simp [hc], hv⟩, ?_⟩
      intro j hj
      exact absurd hj (Nat.not_lt_zero j)
    | ok u =>
      cases ho : validateConditions re rule.Conditions.Or with
      | error cerr =>
        simp only [validateRules, ha, ho, Except.error.injEq] at h
        obtain ⟨c, hc, hv⟩ := validateConditions_error_mem re _ _ ho
        refine ⟨0, rule, cerr, by simp [← h], by simp, ⟨c, by simp [hc], hv⟩, ?_⟩
        intro j hj
        exact absurd hj (Nat.not_lt_zero j)
      | ok u2 =>
        simp only [validateRules, ha, ho] at h
        obtain ⟨k, r, cerr, herr, hget, hbad, hearlier⟩ := ih (i + 1) h
        refine ⟨k + 1, r, cerr, ?_, by simpa using hget, hbad, ?_⟩
        · rw [herr]; congr 1; omega
        · intro j hj earlier hje
          cases j with
          | zero =>
            simp only [List.getElem?_cons_zero, Option.some.injEq] at hje
            subst hje
            intro c hc
            rcases List.mem_append.1 hc with hc | hc
            · exact (validateConditions_eq_ok_iff re _).1 (by rw [ha]) c hc
            · exact (validateConditions_eq_ok_iff re _).1 (by rw [ho]) c hc
          | succ j =>
            exact hearlier j (by omega) earlier (by simpa using hje)

end Exclusion

/-! ## Theorems on the exclusion engine -/

namespace Exclusion

/-- C1: `IsExcluded` is true exactly when the condition group of at least one rule of the set
matches the record, and it is false for the empty rule set. -/
theorem IsExcluded_iff_some_rule_matches (re : Regexp) (e : Excluder) (result : Record) :
    (e.IsExcluded re result = true ↔
      ∃ rule ∈ e.rules, evaluateConditionGroup re rule.Conditions result = true) ∧
    Excluder.IsExcluded re ⟨[]⟩ result = false := by
  constructor
  · exact isExcludedRules_eq_true_iff re result e.rules
  · rfl

/-- C2: for a condition group with exactly one list populated, an And-only group matches
exactly when every And condition is true on the record, and an Or-only group matches exactly
when at least one Or condition is true on the record. -/
theorem evaluateConditionGroup_single_list (re : Regexp) (group : ConditionGroup)
    (result : Record) :
    (group.And ≠ [] → group.Or = [] →
      (evaluateConditionGroup re group result = true ↔
        ∀ cond ∈ group.And, evaluateCondition re cond result = true)) ∧
    (group.And = [] → group.Or ≠ [] →
      (evaluateConditionGroup re group result = true ↔
        ∃ cond ∈ group.Or, evaluateCondition re cond result = true)) := by
  constructor
  · intro hand _
    have hlen : group.And.length > 0 := List.length_pos.2 hand
    simp only [evaluateConditionGroup, hlen, if_true]
    exact evaluateAnd_eq_true_iff re result group.And
  · intro hand hor
    have hlen : group.Or.length > 0 := List.length_pos.2 hor
    simp only [evaluateConditionGroup, hand, List.length_nil, gt_iff_lt, lt_self_iff_false,
      if_false, hlen, if_true]
    exact evaluateOr_eq_true_iff re result group.Or

/-- Witness of C2: an And-only group and an Or-only group on a record with two fields. -/
theorem evaluateConditionGroup_single_list_witness :
    (evaluateConditionGroup literalRegexp
        ⟨[⟨"username", "equals", "test", []⟩, ⟨"ip_address", "contains", "192.", []⟩], []⟩
        [("username", "test"), ("ip_address", "192.168.1.1")] = true ↔
      ∀ cond ∈ [(⟨"username", "equals", "test", []⟩ : Condition),
          ⟨"ip_address", "contains", "192.", []⟩],
        evaluateCondition literalRegexp cond
          [("username", "test"), ("ip_address", "192.168.1.1")] = true) ∧
    (evaluateConditionGroup literalRegexp
        ⟨[], [⟨"username", "equals", "root", []⟩, ⟨"ip_address", "contains", "192.", []⟩]⟩
        [("username", "test"), ("ip_address", "192.168.1.1")] = true ↔
      ∃ cond ∈ [(⟨"username", "equals", "root", []⟩ : Condition),
          ⟨"ip_address", "contains", "192.", []⟩],
        evaluateCondition literalRegexp cond
          [("username", "test"), ("ip_address", "192.168.1.1")] = true) :=
  ⟨(evaluateConditionGroup_single_list literalRegexp _ _).1 (by decide) (by decide),
   (evaluateConditionGroup_single_list literalRegexp _ _).2 (by decide) (by decide)⟩

/-- C3: a rule whose condition group has an empty And list and an empty Or list matches no
record, and a rule set made only of such rules excludes no record. -/
theorem empty_group_never_matches (re : Regexp) (result : Record) :
    (∀ group : ConditionGroup, group.And = [] → group.Or = [] →
      evaluateConditionGroup re group result = false) ∧
    (∀ e : Excluder,
      (∀ rule ∈ e.rules, rule.Conditions.And = [] ∧ rule.Conditions.Or = []) →
      e.IsExcluded re result = false) := by
  have hgroup : ∀ group : ConditionGroup, group.And = [] → group.Or = [] →
      evaluateConditionGroup re group result = false := by
    intro group hand hor
    simp [evaluateConditionGroup, hand, hor]
  refine ⟨hgroup, ?_⟩
  intro e hall
  rw [← Bool.not_eq_true, Excluder.IsExcluded, isExcludedRules_eq_true_iff]
  rintro ⟨rule, hmem, hmatch⟩
  rw [hgroup rule.Conditions (hall rule hmem).1 (hall rule hmem).2] at hmatch
  cases hmatch

/-- Witness of C3: the empty group, and a rule set of two empty rules. -/
theorem empty_group_never_matches_witness :
    evaluateConditionGroup literalRegexp ⟨[], []⟩ [("status", "inactive")] = false ∧
    Excluder.IsExcluded literalRegexp ⟨[⟨⟨[], []⟩⟩, ⟨⟨[], []⟩⟩]⟩ [("status", "inactive")] = false :=
  ⟨(empty_group_never_matches literalRegexp [("status", "inactive")]).1 ⟨[], []⟩ rfl rfl,
   (empty_group_never_matches literalRegexp [("status", "inactive")]).2
     ⟨[⟨⟨[], []⟩⟩, ⟨⟨[], []⟩⟩]⟩ (by decide)⟩

/-- C4: on a record that has no entry for the condition's field, `evaluateCondition` is false
for every operator string, whatever `Value` and `Values` are. -/
theorem evaluateCondition_missing_field (re : Regexp) (cond : Condition) (result : Record)
    (hmissing : result.get cond.Field = none) :
    evaluateCondition re cond result = false := by
  simp [evaluateCondition, hmissing]

/-- Witness of C4: `not_equals` on a field the record does not have. -/
theorem evaluateCondition_missing_field_witness :
    Record.get [("region", "eu-west-1")] "status" = none ∧
    evaluateCondition literalRegexp ⟨"status", "not_equals", "active", ["a"]⟩
      [("region", "eu-west-1")] = false :=
  ⟨by decide,
   evaluateCondition_missing_field literalRegexp ⟨"status", "not_equals", "active", ["a"]⟩
     [("region", "eu-west-1")] (by decide)⟩

/-- C5: when the condition's field is present with value `v`, `equals` is true exactly when
`v` is the string `Value`, `not_equals` exactly when it differs, `contains` exactly when
`Value` occurs as a contiguous run of characters of `v`, `in` exactly when `v` is an element
of `Values`, and `not_in` exactly when it is none of them. -/
theorem evaluateCondition_present_field (re : Regexp) (cond : Condition) (result : Record)
    (v : String) (hpresent : result.get cond.Field = some v) :
    (cond.Operator = "equals" → (evaluateCondition re cond result = true ↔ v = cond.Value)) ∧
    (cond.Operator = "not_equals" →
      (evaluateCondition re cond result = true ↔ v ≠ cond.Value)) ∧
    (cond.Operator = "contains" →
      (evaluateCondition re cond result = true ↔
        ∃ before after : List Char, v.data = before ++ cond.Value.data ++ after)) ∧
    (cond.Operator = "in" → (evaluateCondition re cond result = true ↔ v ∈ cond.Values)) ∧
    (cond.Operator = "not_in" →
      (evaluateCondition re cond result = true ↔ v ∉ cond.Values)) := by
  refine ⟨?_, ?_, ?_, ?_, ?_⟩
  · intro hop
    simp [evaluateCondition, hpresent, hop]
  · intro hop
    simp [evaluateCondition, hpresent, hop]
  · intro hop
    simp only [evaluateCondition, hpresent, hop, stringsContains]
    exact containsChars_eq_true_iff v.data cond.Value.data
  · intro hop
    simp only [evaluateCondition, hpresent, hop]
    exact valueInValues_eq_true_iff v cond.Values
  · intro hop
    simp only [evaluateCondition, hpresent, hop, Bool.not_eq_true', ← Bool.not_eq_true]
    exact not_congr (valueInValues_eq_true_iff v cond.Values)

/-- Witness of C5: `equals` compares case-sensitively, and `not_in` looks for the identical
string among the values. -/
theorem evaluateCondition_present_field_witness :
    Record.get [("user_role", "Admin")] "user_role" = some "Admin" ∧
    (evaluateCondition literalRegexp ⟨"user_role", "equals", "admin", []⟩
      [("user_role", "Admin")] = true ↔ "Admin" = "admin") ∧
    (evaluateCondition literalRegexp ⟨"user_role", "not_in", "", ["admin", "root"]⟩
      [("user_role", "Admin")] = true ↔ "Admin" ∉ ["admin", "root"]) :=
  ⟨by decide,
   (evaluateCondition_present_field literalRegexp ⟨"user_role", "equals", "admin", []⟩
     [("user_role", "Admin")] "Admin" (by decide)).1 rfl,
   (evaluateCondition_present_field literalRegexp
     ⟨"user_role", "not_in", "", ["admin", "root"]⟩
     [("user_role", "Admin")] "Admin" (by decide)).2.2.2.2 rfl⟩

/-- C6: `validateCondition` returns no error exactly when the operator is `equals`,
`contains` or `not_equals`, or it is `regex` and `Value` compiles, or it is `in` or `not_in`
and `Values` is non-empty; an operator outside the six recognised ones is rejected as
unsupported. -/
theorem validateCondition_ok_iff (re : Regexp) (cond : Condition) :
    (validateCondition re cond = .ok () ↔
      (cond.Operator = "equals" ∨ cond.Operator = "contains" ∨ cond.Operator = "not_equals") ∨
      (cond.Operator = "regex" ∧ ∃ m, re.compile cond.Value = .ok m) ∨
      ((cond.Operator = "in" ∨ cond.Operator = "not_in") ∧ cond.Values ≠ [])) ∧
    (cond.Operator ∉ ["equals", "not_equals", "contains", "regex", "in", "not_in"] →
      validateCondition re cond = .error (.unsupportedOperator cond.Operator)) := by
  constructor
  · unfold validateCondition
    split
    · simp [*]
    · simp [*]
    · simp [*]
    · rename_i hop
      cases hc : re.compile cond.Value with
      | error err => simp [hop]
      | ok m => simp [hop]
    · rename_i hop
      by_cases hv : cond.Values = []
      · simp [hop, hv]
      · simp [hop, hv]
    · rename_i hop
      by_cases hv : cond.Values = []
      · simp [hop, hv]
      · simp [hop, hv]
    · rename_i h1 h2 h3 h4 h5 h6
      simp only [reduceCtorEq, false_iff, not_or, not_and]
      exact ⟨⟨h1, h2, h3⟩, fun h => absurd h h4, fun h => absurd h (not_or.2 ⟨h5, h6⟩)⟩
  · intro hop
    simp only [List.mem_cons, List.mem_singleton, List.not_mem_nil, or_false, not_or] at hop
    unfold validateCondition
    split
    all_goals first | rfl | (exfalso; simp_all)

/-- Witness of C6: an operator outside the six recognised ones. -/
theorem validateCondition_ok_iff_witness :
    validateCondition literalRegexp ⟨"status", "Equals", "active", []⟩ =
      .error (.unsupportedOperator "Equals") :=
  (validateCondition_ok_iff literalRegexp ⟨"status", "Equals", "active", []⟩).2 (by decide)

end Exclusion

namespace Exclusion

/-- C7: `NewExcluder` succeeds on a decoded rule list exactly when every condition of the And
list and of the Or list of every rule passes `validateCondition`; otherwise it returns an
error and no Excluder, and the error carries the 1-based index of the first rule that holds
an invalid condition, together with the error of one of that rule's conditions. -/
theorem NewExcluder_ok_iff_all_valid (re : Regexp) (rules : List ExclusionRule) :
    ((∃ e, NewExcluder re rules = .ok e) ↔
      ∀ rule ∈ rules, ∀ cond ∈ rule.Conditions.And ++ rule.Conditions.Or,
        validateCondition re cond = .ok ()) ∧
    ((¬ ∀ rule ∈ rules, ∀ cond ∈ rule.Conditions.And ++ rule.Conditions.Or,
        validateCondition re cond = .ok ()) →
      ∃ i rule cerr,
        NewExcluder re rules = .error (.invalidCondition (i + 1) cerr) ∧
        rules[i]? = some rule ∧
        (∃ cond ∈ rule.Conditions.And ++ rule.Conditions.Or,
          validateCondition re cond = .error cerr) ∧
        ∀ j, j < i → ∀ earlier, rules[j]? = some earlier →
          ∀ cond ∈ earlier.Conditions.And ++ earlier.Conditions.Or,
            validateCondition re cond = .ok ()) := by
  have hiff := validateRules_eq_ok_iff re 0 rules
  constructor
  · rw [← hiff]
    cases hv : validateRules re 0 rules with
    | error err => simp [NewExcluder, hv]
    | ok u => simp [NewExcluder, hv]
  · intro hbad
    rw [← hiff] at hbad
    cases hv : validateRules re 0 rules with
    | ok u => exact absurd hv hbad
    | error err =>
      obtain ⟨k, rule, cerr, herr, hget, hcond, hearlier⟩ :=
        validateRules_error_first re 0 rules err hv
      refine ⟨k, rule, cerr, ?_, hget, hcond, hearlier⟩
      simp only [NewExcluder, hv, herr, Nat.zero_add]

/-- Witness of C7: the second of three rules holds, in its Or list, an operator that is not
recognised, next to a valid And list; the error names rule 2. -/
theorem NewExcluder_ok_iff_all_valid_witness :
    ∃ i rule cerr,
      NewExcluder literalRegexp
        [⟨⟨[⟨"a", "equals", "1", []⟩], [⟨"b", "in", "", ["x"]⟩]⟩⟩,
         ⟨⟨[⟨"a", "regex", "^1", []⟩], [⟨"b", "matches", "", []⟩]⟩⟩,
         ⟨⟨[⟨"a", "in", "", []⟩], []⟩⟩] = .error (.invalidCondition (i + 1) cerr) ∧
      [(⟨⟨[⟨"a", "equals", "1", []⟩], [⟨"b", "in", "", ["x"]⟩]⟩⟩ : ExclusionRule),
         ⟨⟨[⟨"a", "regex", "^1", []⟩], [⟨"b", "matches", "", []⟩]⟩⟩,
         ⟨⟨[⟨"a", "in", "", []⟩], []⟩⟩][i]? = some rule ∧
      (∃ cond ∈ rule.Conditions.And ++ rule.Conditions.Or,
        validateCondition literalRegexp cond = .error cerr) ∧
      ∀ j, j < i → ∀ earlier,
        [(⟨⟨[⟨"a", "equals", "1", []⟩], [⟨"b", "in", "", ["x"]⟩]⟩⟩ : ExclusionRule),
         ⟨⟨[⟨"a", "regex", "^1", []⟩], [⟨"b", "matches", "", []⟩]⟩⟩,
         ⟨⟨[⟨"a", "in", "", []⟩], []⟩⟩][j]? = some earlier →
        ∀ cond ∈ earlier.Conditions.And ++ earlier.Conditions.Or,
          validateCondition literalRegexp cond = .ok () :=
  (NewExcluder_ok_iff_all_valid literalRegexp _).2 (fun hall =>
    absurd (hall ⟨⟨[⟨"a", "regex", "^1", []⟩], [⟨"b", "matches", "", []⟩]⟩⟩ (by decide)
      ⟨"b", "matches", "", []⟩ (by decide)) (by simp [validateCondition]))

end Exclusion

/-! ## Lemmas on the signal builder -/

namespace Signal

open Config

theorem mapOutputFields_append (lib : Stdlib) (result : Record) (signal : Signal lib.Time)
    (earlier later : List OutputField) :
    mapOutputFields lib result signal (earlier ++ later) =
      match mapOutputFields lib result signal earlier with
      | .error err => .error err
      | .ok signal2 => mapOutputFields lib result signal2 later := by
  induction earlier generalizing signal with
  | nil => simp [mapOutputFields]
  | cons f rest ih =>
    cases hf : setOutputField lib result signal f with
    | error err => simp [mapOutputFields, hf]
    | ok signal2 => simp [mapOutputFields, hf, ih]

theorem setOutputField_missing_source (lib : Stdlib) (result : Record)
    (signal : Signal lib.Time) (f : OutputField) (hmissing : result.get f.Source = none) :
    setOutputField lib result signal f = .error (.missingSourceField f.Source) := by
  simp [setOutputField, hmissing]

theorem mapOutputFields_error_of_missing_source (lib : Stdlib) (result : Record)
    (signal : Signal lib.Time) (fields : List OutputField)
    (hmissing : ∃ f ∈ fields, result.get f.Source = none) :
    ∃ err, mapOutputFields lib result signal fields = .error err := by
  induction fields generalizing signal with
  | nil => simp at hmissing
  | cons f rest ih =>
    cases hf : setOutputField lib result signal f with
    | error err => exact ⟨err, by simp [mapOutputFields, hf]⟩
    | ok signal2 =>
      obtain ⟨g, hg, hget⟩ := hmissing
      rcases List.mem_cons.1 hg with hgf | hgrest
      · subst hgf
        rw [setOutputField_missing_source lib result signal g hget] at hf
        cases hf
      · obtain ⟨err, herr⟩ := ih signal2 ⟨g, hgrest, hget⟩
        exact ⟨err, by simp [mapOutputFields, hf, herr]⟩

end Signal

/-! ## Theorems on the signal builder -/

namespace Signal

open Config

/-- C8: when the output format of the configuration is `raw`, `BuildOutput` returns the
record itself, unchanged, and no error, whatever the rest of the configuration and the
record are. -/
theorem BuildOutput_raw (lib : Stdlib) (result : Record) (cfg : RuleConfig)
    (hraw : cfg.Output.Format = OutputFormatRaw) :
    BuildOutput lib result cfg = .ok (.raw result) := by
  simp [BuildOutput, hraw, OutputFormatRaw, OutputFormatSignal]

/-- Witness of C8: a record with one key under a raw configuration that lists three output
fields, one of them unsupported, and an unknown confidence. -/
theorem BuildOutput_raw_witness :
    BuildOutput textStdlib [("k", "v")]
      (ruleConfig "certain" [⟨"f", "t", "n", "i", "r"⟩]
        ⟨"raw", [⟨"Timestamp", "ts"⟩, ⟨"Nope", "x"⟩, ⟨"Message", "m"⟩]⟩) =
      .ok (.raw [("k", "v")]) :=
  BuildOutput_raw textStdlib [("k", "v")]
    (ruleConfig "certain" [⟨"f", "t", "n", "i", "r"⟩]
      ⟨"raw", [⟨"Timestamp", "ts"⟩, ⟨"Nope", "x"⟩, ⟨"Message", "m"⟩]⟩) rfl

/-- C9: when the record has fewer keys than the output specification has entries,
`BuildSignal` returns the field-count-mismatch error and no signal, whatever the output
fields are: the check precedes the mapping of the fields. -/
theorem BuildSignal_field_count_mismatch (lib : Stdlib) (result : Record) (cfg : RuleConfig)
    (hfewer : result.len < cfg.Output.Fields.length) :
    BuildSignal lib result cfg = .error .fieldCountMismatch := by
  simp [BuildSignal, hfewer]

/-- Witness of C9: one key against three output fields, of which the first has an unparsable
timestamp, the second an unsupported target and the third a missing source. -/
theorem BuildSignal_field_count_mismatch_witness :
    Record.len [("ts", "yesterday")] < 3 ∧
    BuildSignal textStdlib [("ts", "yesterday")]
      (ruleConfig "high" [] ⟨"signal", [⟨"Timestamp", "ts"⟩, ⟨"Nope", "ts"⟩, ⟨"Message", "m"⟩]⟩) =
      .error .fieldCountMismatch :=
  ⟨by decide,
   BuildSignal_field_count_mismatch textStdlib [("ts", "yesterday")]
     (ruleConfig "high" [] ⟨"signal", [⟨"Timestamp", "ts"⟩, ⟨"Nope", "ts"⟩, ⟨"Message", "m"⟩]⟩)
     (by decide)⟩

/-- C10: if the source name of any output field is absent from the record, `BuildSignal`
returns an error and no signal; and when the field-count check passes and every output field
before that one maps successfully, the error is the missing-source error naming that source,
whatever the target name of the field is. -/
theorem BuildSignal_missing_source (lib : Stdlib) (result : Record) (cfg : RuleConfig) :
    ((∃ f ∈ cfg.Output.Fields, result.get f.Source = none) →
      ∃ err, BuildSignal lib result cfg = .error err) ∧
    (∀ (earlier later : List OutputField) (f : OutputField) (signal : Signal lib.Time),
      cfg.Output.Fields = earlier ++ f :: later →
      ¬ result.len < cfg.Output.Fields.length →
      mapOutputFields lib result (newSignal lib cfg) earlier = .ok signal →
      result.get f.Source = none →
      BuildSignal lib result cfg = .error (.missingSourceField f.Source)) := by
  constructor
  · intro hmissing
    by_cases hlen : result.len < cfg.Output.Fields.length
    · exact ⟨.fieldCountMismatch, by simp [BuildSignal, hlen]⟩
    · obtain ⟨err, herr⟩ :=
        mapOutputFields_error_of_missing_source lib result (newSignal lib cfg) _ hmissing
      exact ⟨err, by simp [BuildSignal, hlen, herr]⟩
  · intro earlier later f signal hfields hlen hearlier hmissing
    simp only [BuildSignal, hlen, if_false]
    rw [hfields, mapOutputFields_append, hearlier]
    simp [mapOutputFields, setOutputField_missing_source lib result signal f hmissing]

/-- Witness of C10: the second output field has an unsupported target and a source the
record lacks; the error names the source. -/
theorem BuildSignal_missing_source_witness :
    BuildSignal textStdlib [("ts", "2023-05-14T10:00:00Z"), ("raw", "m"), ("host", "h")]
      (ruleConfig "high" [] ⟨"signal", [⟨"Timestamp", "ts"⟩, ⟨"Nope", "message"⟩]⟩) =
      .error (.missingSourceField "message") :=
  (BuildSignal_missing_source textStdlib
      [("ts", "2023-05-14T10:00:00Z"), ("raw", "m"), ("host", "h")]
      (ruleConfig "high" [] ⟨"signal", [⟨"Timestamp", "ts"⟩, ⟨"Nope", "message"⟩]⟩)).2
    [⟨"Timestamp", "ts"⟩] [] ⟨"Nope", "message"⟩
    { newSignal textStdlib
        (ruleConfig "high" [] ⟨"signal", [⟨"Timestamp", "ts"⟩, ⟨"Nope", "message"⟩]⟩) with
      Timestamp := "2023-05-14T10:00:00Z" }
    rfl (by decide) rfl (by decide)

end Signal

/-! ## Lemmas on the signal builder: the loop over the output fields -/

namespace Signal
open Config

theorem setOutputField_unsupported (lib : Stdlib) (result : Record)
    (signal : Signal lib.Time) (f : OutputField) (value : String)
    (hpresent : result.get f.Source = some value)
    (hunsupported : f.Field ∉ ["Timestamp", "ActorUserName", "ActorUserUID", "ResourceName",
      "ResourceType", "ResourceUID", "SrcHostname", "SrcIP", "DstHostname", "DstIP", "Message",
      "EventID", "EventIndex", "RuleSpecificData"]) :
    setOutputField lib result signal f = .error (.unsupportedOutputField f.Field) := by
  simp only [List.mem_cons, List.mem_singleton, List.not_mem_nil, or_false, not_or]
    at hunsupported
  unfold setOutputField
  simp only [hpresent]
  split
  all_goals first | rfl | (exfalso; simp_all)

theorem setOutputField_preserves (lib : Stdlib) (result : Record)
    (signal signal2 : Signal lib.Time) (f : OutputField)
    (h : setOutputField lib result signal f = .ok signal2) :
    signal2.Rule_ID = signal.Rule_ID ∧ signal2.Rule_Name = signal.Rule_Name ∧
    signal2.ConfidenceID = signal.ConfidenceID ∧ signal2.Confidence = signal.Confidence ∧
    signal2.TTPs = signal.TTPs := by
  unfold setOutputField at h
  split at h
  · cases h
  · split at h
    case h_1 =>
      split at h
      · cases h
      · cases h; simp
    case h_14 =>
      split at h <;> (cases h; simp)
    all_goals first | (cases h; simp) | cases h

theorem setOutputField_ok_of_ok (lib : Stdlib) (result : Record)
    (signal other : Signal lib.Time) (f : OutputField)
    (h : ∃ signal2, setOutputField lib result signal f = .ok signal2) :
    ∃ other2, setOutputField lib result other f = .ok other2 := by
  obtain ⟨signal2, h⟩ := h
  unfold setOutputField at h ⊢
  split at h
  · cases h
  · rename_i value hget
    simp only [hget]
    split at h
    case h_1 =>
      split at h
      · cases h
      · rename_i t ht
        simp [ht]
    case h_14 =>
      split <;> simp
    all_goals first | (cases h; done) | simp

theorem setOutputField_slots (lib : Stdlib) (result : Record)
    (signal signal2 : Signal lib.Time) (f : OutputField)
    (h : setOutputField lib result signal f = .ok signal2) :
    (signal2.Actor.User.Name =
      if f.Field = "ActorUserName" then (result.get f.Source).getD ""
      else signal.Actor.User.Name) ∧
    (signal2.Actor.User.UID =
      if f.Field = "ActorUserUID" then (result.get f.Source).getD ""
      else signal.Actor.User.UID) ∧
    (signal2.Resource.Name =
      if f.Field = "ResourceName" then (result.get f.Source).getD ""
      else signal.Resource.Name) ∧
    (signal2.Resource.Type_ =
      if f.Field = "ResourceType" then (result.get f.Source).getD ""
      else signal.Resource.Type_) ∧
    (signal2.Resource.UID =
      if f.Field = "ResourceUID" then (result.get f.Source).getD ""
      else signal.Resource.UID) ∧
    (signal2.SrcEndpoint.Hostname =
      if f.Field = "SrcHostname" then (result.get f.Source).getD ""
      else signal.SrcEndpoint.Hostname) ∧
    (signal2.SrcEndpoint.IP =
      if f.Field = "SrcIP" then (result.get f.Source).getD "" else signal.SrcEndpoint.IP) ∧
    (signal2.DstEndpoint.Hostname =
      if f.Field = "DstHostname" then (result.get f.Source).getD ""
      else signal.DstEndpoint.Hostname) ∧
    (signal2.DstEndpoint.IP =
      if f.Field = "DstIP" then (result.get f.Source).getD "" else signal.DstEndpoint.IP) ∧
    (signal2.Message =
      if f.Field = "Message" then (result.get f.Source).getD "" else signal.Message) ∧
    (signal2.Metadata.EventID =
      if f.Field = "EventID" then (result.get f.Source).getD ""
      else signal.Metadata.EventID) ∧
    (signal2.Metadata.EventIndex =
      if f.Field = "EventIndex" then (result.get f.Source).getD ""
      else signal.Metadata.EventIndex) := by
  unfold setOutputField at h
  split at h
  · cases h
  · rename_i value hget
    split at h
    all_goals (try split at h)
    all_goals first | (cases h; done) | (cases h; simp_all)

theorem mapOutputFields_slot (lib : Stdlib) (result : Record) (target : String)
    (slot : Signal lib.Time → String)
    (hstep : ∀ (s s2 : Signal lib.Time) (f : OutputField),
      setOutputField lib result s f = .ok s2 →
      slot s2 = if f.Field = target then (result.get f.Source).getD "" else slot s)
    (signal sig : Signal lib.Time) (fields : List OutputField)
    (h : mapOutputFields lib result signal fields = .ok sig) :
    slot sig =
      match (fields.filter (fun f => f.Field = target)).getLast? with
      | none => slot signal
      | some f => (result.get f.Source).getD "" := by
  induction fields generalizing signal with
  | nil =>
    simp only [mapOutputFields, Except.ok.injEq] at h
    simp [h]
  | cons f rest ih =>
    cases hf : setOutputField lib result signal f with
    | error err => simp [mapOutputFields, hf] at h
    | ok signal2 =>
      simp only [mapOutputFields, hf] at h
      have hrest := ih signal2 h
      have hs := hstep signal signal2 f hf
      rw [hrest]
      by_cases htarget : f.Field = target
      · cases hlast : (rest.filter (fun f => f.Field = target)) with
        | nil => simp [List.filter_cons, htarget, hlast, hs]
        | cons g more =>
          simp only [List.filter_cons, htarget, decide_True, if_true, hlast,
            List.getLast?_cons_cons]
          cases hgl : (g :: more).getLast? with
          | none => simp at hgl
          | some x => rfl
      · simp [List.filter_cons, htarget, hs]

theorem mapOutputFields_preserves (lib : Stdlib) (result : Record)
    (signal sig : Signal lib.Time) (fields : List OutputField)
    (h : mapOutputFields lib result signal fields = .ok sig) :
    sig.Rule_ID = signal.Rule_ID ∧ sig.Rule_Name = signal.Rule_Name ∧
    sig.ConfidenceID = signal.ConfidenceID ∧ sig.Confidence = signal.Confidence ∧
    sig.TTPs = signal.TTPs := by
  induction fields generalizing signal with
  | nil =>
    simp only [mapOutputFields, Except.ok.injEq] at h
    simp [h]
  | cons f rest ih =>
    cases hf : setOutputField lib result signal f with
    | error err => simp [mapOutputFields, hf] at h
    | ok signal2 =>
      simp only [mapOutputFields, hf] at h
      obtain ⟨h1, h2, h3, h4, h5⟩ := ih signal2 h
      obtain ⟨g1, g2, g3, g4, g5⟩ := setOutputField_preserves lib result signal signal2 f hf
      exact ⟨h1.trans g1, h2.trans g2, h3.trans g3, h4.trans g4, h5.trans g5⟩

theorem mapOutputFields_ok_of_ok (lib : Stdlib) (result : Record)
    (signal other : Signal lib.Time) (fields : List OutputField)
    (h : ∃ sig, mapOutputFields lib result signal fields = .ok sig) :
    ∃ sig2, mapOutputFields lib result other fields = .ok sig2 := by
  induction fields generalizing signal other with
  | nil => exact ⟨other, rfl⟩
  | cons f rest ih =>
    obtain ⟨sig, h⟩ := h
    cases hf : setOutputField lib result signal f with
    | error err => simp [mapOutputFields, hf] at h
    | ok signal2 =>
      simp only [mapOutputFields, hf] at h
      obtain ⟨other2, ho⟩ := setOutputField_ok_of_ok lib result signal other f ⟨signal2, hf⟩
      obtain ⟨sig2, hs⟩ := ih signal2 other2 ⟨sig, h⟩
      exact ⟨sig2, by simp [mapOutputFields, ho, hs]⟩

theorem mapOutputFields_sources_present (lib : Stdlib) (result : Record)
    (signal sig : Signal lib.Time) (fields : List OutputField)
    (h : mapOutputFields lib result signal fields = .ok sig) :
    ∀ f ∈ fields, ∃ value, result.get f.Source = some value := by
  intro f hf
  cases hget : result.get f.Source with
  | some value => exact ⟨value, rfl⟩
  | none =>
    obtain ⟨err, herr⟩ :=
      mapOutputFields_error_of_missing_source lib result signal fields ⟨f, hf, hget⟩
    rw [herr] at h
    cases h

theorem appendTTPs_some (acc : List Record) (ttps : List TTP) :
    appendTTPs (some acc) ttps = some (acc ++ ttps.map ttpMap) := by
  induction ttps generalizing acc with
  | nil => simp [appendTTPs]
  | cons ttp rest ih => simp [appendTTPs, goAppend, ih]

theorem mapOutputFields_error_of_unsupported (lib : Stdlib) (result : Record)
    (signal : Signal lib.Time) (fields : List OutputField)
    (hunsupported : ∃ f ∈ fields, f.Field ∉ ["Timestamp", "ActorUserName", "ActorUserUID",
      "ResourceName", "ResourceType", "ResourceUID", "SrcHostname", "SrcIP", "DstHostname",
      "DstIP", "Message", "EventID", "EventIndex", "RuleSpecificData"]) :
    ∃ err, mapOutputFields lib result signal fields = .error err := by
  induction fields generalizing signal with
  | nil => simp at hunsupported
  | cons f rest ih =>
    cases hf : setOutputField lib result signal f with
    | error err => exact ⟨err, by simp [mapOutputFields, hf]⟩
    | ok signal2 =>
      obtain ⟨g, hg, hbad⟩ := hunsupported
      rcases List.mem_cons.1 hg with hgf | hgrest
      · subst hgf
        cases hget : result.get g.Source with
        | none =>
          rw [setOutputField_missing_source lib result signal g hget] at hf
          cases hf
        | some value =>
          rw [setOutputField_unsupported lib result signal g value hget hbad] at hf
          cases hf
      · obtain ⟨err, herr⟩ := ih signal2 ⟨g, hgrest, hbad⟩
        exact ⟨err, by simp [mapOutputFields, hf, herr]⟩

end Signal

/-! ## Theorems on the signal builder: targets, confidence, TTPs, slots -/

namespace Signal

open Config

/-- C11: if the target name of any output field is outside the fourteen recognised names,
`BuildSignal` returns an error and no signal; and when the field-count check passes, every
output field before that one maps successfully and the source of the field is in the
record, the error is the unsupported-output-field error naming that target. -/
theorem BuildSignal_unsupported_target (lib : Stdlib) (result : Record) (cfg : RuleConfig) :
    ((∃ f ∈ cfg.Output.Fields, f.Field ∉ ["Timestamp", "ActorUserName", "ActorUserUID",
        "ResourceName", "ResourceType", "ResourceUID", "SrcHostname", "SrcIP", "DstHostname",
        "DstIP", "Message", "EventID", "EventIndex", "RuleSpecificData"]) →
      ∃ err, BuildSignal lib result cfg = .error err) ∧
    (∀ (earlier later : List OutputField) (f : OutputField) (signal : Signal lib.Time)
        (value : String),
      cfg.Output.Fields = earlier ++ f :: later →
      ¬ result.len < cfg.Output.Fields.length →
      mapOutputFields lib result (newSignal lib cfg) earlier = .ok signal →
      result.get f.Source = some value →
      f.Field ∉ ["Timestamp", "ActorUserName", "ActorUserUID", "ResourceName",
        "ResourceType", "ResourceUID", "SrcHostname", "SrcIP", "DstHostname", "DstIP",
        "Message", "EventID", "EventIndex", "RuleSpecificData"] →
      BuildSignal lib result cfg = .error (.unsupportedOutputField f.Field)) := by
  constructor
  · intro hbad
    by_cases hlen : result.len < cfg.Output.Fields.length
    · exact ⟨.fieldCountMismatch, by simp [BuildSignal, hlen]⟩
    · obtain ⟨err, herr⟩ :=
        mapOutputFields_error_of_unsupported lib result (newSignal lib cfg) _ hbad
      exact ⟨err, by simp [BuildSignal, hlen, herr]⟩
  · intro earlier later f signal value hfields hlen hearlier hpresent hbad
    simp only [BuildSignal, hlen, if_false]
    rw [hfields, mapOutputFields_append, hearlier]
    simp [mapOutputFields, setOutputField_unsupported lib result signal f value hpresent hbad]

/-- Witness of C11: the target of the second output field differs from a recognised name by
the case of one letter. -/
theorem BuildSignal_unsupported_target_witness :
    BuildSignal textStdlib [("ts", "2023-05-14T10:00:00Z"), ("msg", "m")]
      (ruleConfig "high" [] ⟨"signal", [⟨"Timestamp", "ts"⟩, ⟨"message", "msg"⟩]⟩) =
      .error (.unsupportedOutputField "message") :=
  (BuildSignal_unsupported_target textStdlib [("ts", "2023-05-14T10:00:00Z"), ("msg", "m")]
      (ruleConfig "high" [] ⟨"signal", [⟨"Timestamp", "ts"⟩, ⟨"message", "msg"⟩]⟩)).2
    [⟨"Timestamp", "ts"⟩] [] ⟨"message", "msg"⟩
    { newSignal textStdlib
        (ruleConfig "high" [] ⟨"signal", [⟨"Timestamp", "ts"⟩, ⟨"message", "msg"⟩]⟩) with
      Timestamp := "2023-05-14T10:00:00Z" }
    "m" rfl (by decide) rfl (by decide) (by decide)

/-- Counterexample to C12: with the configured confidence `certain`, `BuildSignal` succeeds
and the confidence label of the signal is `certain`, which is none of `unknown`, `low`,
`medium`, `high`. -/
theorem BuildSignal_confidence_label_counterexample :
    ∃ sig, BuildSignal textStdlib [("msg", "m")]
        (ruleConfig "certain" [] ⟨"signal", [⟨"Message", "msg"⟩]⟩) = .ok sig ∧
      sig.Confidence = "certain" ∧
      sig.Confidence ∉ ["unknown", "low", "medium", "high"] :=
  ⟨_, rfl, rfl, by decide⟩

/-- C12, amended: on a successful `BuildSignal` the confidence label of the signal is the
configured confidence, copied as it is; the numeric confidence is one of 0, 1, 2, 3 and is 0,
the id of `unknown`, for a configured confidence outside `low`, `medium`, `high`; and whether
the build succeeds does not depend on the configured confidence. -/
theorem BuildSignal_confidence (lib : Stdlib) (result : Record) (cfg : RuleConfig) :
    (∀ sig, BuildSignal lib result cfg = .ok sig →
      sig.Confidence = cfg.Confidence ∧ sig.ConfidenceID ∈ [0, 1, 2, 3] ∧
      (cfg.Confidence ∉ ["low", "medium", "high"] → sig.ConfidenceID = 0)) ∧
    (∀ confidence : String, (∃ sig, BuildSignal lib result cfg = .ok sig) →
      ∃ sig2, BuildSignal lib result { cfg with Confidence := confidence } = .ok sig2) := by
  constructor
  · intro sig h
    by_cases hlen : result.len < cfg.Output.Fields.length
    · simp [BuildSignal, hlen] at h
    · simp only [BuildSignal, hlen, if_false] at h
      obtain ⟨_, _, hid, hlabel, _⟩ := mapOutputFields_preserves lib result _ sig _ h
      refine ⟨by rw [hlabel]; rfl, ?_, ?_⟩
      · rw [hid]
        simp only [newSignal, getConfidenceID]
        split_ifs <;> simp
      · intro hother
        simp only [List.mem_cons, List.mem_singleton, List.not_mem_nil, or_false, not_or]
          at hother
        rw [hid]
        simp [newSignal, getConfidenceID, hother]
  · intro confidence hok
    by_cases hlen : result.len < cfg.Output.Fields.length
    · obtain ⟨sig, h⟩ := hok
      simp [BuildSignal, hlen] at h
    · simp only [BuildSignal, hlen, if_false] at hok ⊢
      exact mapOutputFields_ok_of_ok lib result _ _ _ hok

/-- Witness of C12, amended: the label `certain` is copied and its numeric id is 0. -/
theorem BuildSignal_confidence_witness :
    (∀ sig, BuildSignal textStdlib [("msg", "m")]
        (ruleConfig "certain" [] ⟨"signal", [⟨"Message", "msg"⟩]⟩) = .ok sig →
      sig.Confidence = "certain" ∧ sig.ConfidenceID ∈ [0, 1, 2, 3] ∧
      ("certain" ∉ ["low", "medium", "high"] → sig.ConfidenceID = 0)) ∧
    ∃ sig2, BuildSignal textStdlib [("msg", "m")]
      { ruleConfig "certain" [] ⟨"signal", [⟨"Message", "msg"⟩]⟩ with Confidence := "low" } =
        .ok sig2 :=
  ⟨(BuildSignal_confidence textStdlib [("msg", "m")]
      (ruleConfig "certain" [] ⟨"signal", [⟨"Message", "msg"⟩]⟩)).1,
   (BuildSignal_confidence textStdlib [("msg", "m")]
      (ruleConfig "certain" [] ⟨"signal", [⟨"Message", "msg"⟩]⟩)).2 "low" ⟨_, rfl⟩⟩

/-- C13: on a successful `BuildSignal` the TTP list of the signal has one entry per
configured TTP, in configuration order, each the map of the four keys `framework`, `tactic`,
`name`, `id` with the configured values, the reference being dropped; with no configured TTP
the list is empty and not nil. -/
theorem BuildSignal_ttps (lib : Stdlib) (result : Record) (cfg : RuleConfig)
    (sig : Signal lib.Time) (hok : BuildSignal lib result cfg = .ok sig) :
    sig.TTPs = some (cfg.TTPs.map (fun ttp =>
      [("framework", ttp.Framework), ("tactic", ttp.Tactic), ("name", ttp.Name),
        ("id", ttp.ID)])) ∧
    (∀ entries, sig.TTPs = some entries → ∀ entry ∈ entries, entry.len = 4) ∧
    (cfg.TTPs = [] → sig.TTPs = some []) := by
  by_cases hlen : result.len < cfg.Output.Fields.length
  · simp [BuildSignal, hlen] at hok
  · simp only [BuildSignal, hlen, if_false] at hok
    obtain ⟨_, _, _, _, https⟩ := mapOutputFields_preserves lib result _ sig _ hok
    have hlist : sig.TTPs = some (cfg.TTPs.map (fun ttp =>
        [("framework", ttp.Framework), ("tactic", ttp.Tactic), ("name", ttp.Name),
          ("id", ttp.ID)])) := by
      rw [https]
      simp only [newSignal, appendTTPs_some, List.nil_append]
      rfl
    refine ⟨hlist, ?_, ?_⟩
    · intro entries hentries entry hentry
      rw [hlist, Option.some.injEq] at hentries
      subst hentries
      obtain ⟨ttp, _, rfl⟩ := List.mem_map.1 hentry
      rfl
    · intro hnone
      rw [hlist, hnone]
      rfl

/-- Witness of C13: two configured TTPs. -/
theorem BuildSignal_ttps_witness :
    BuildSignal textStdlib [("msg", "m")]
      (ruleConfig "low" [⟨"MITRE", "TA0004", "Escalation", "T1068", "https://a"⟩,
        ⟨"MITRE", "TA0001", "Access", "T1078", "https://b"⟩]
        ⟨"signal", [⟨"Message", "msg"⟩]⟩) =
      .ok { newSignal textStdlib
          (ruleConfig "low" [⟨"MITRE", "TA0004", "Escalation", "T1068", "https://a"⟩,
            ⟨"MITRE", "TA0001", "Access", "T1078", "https://b"⟩]
            ⟨"signal", [⟨"Message", "msg"⟩]⟩) with Message := "m" } ∧
    (newSignal textStdlib
      (ruleConfig "low" [⟨"MITRE", "TA0004", "Escalation", "T1068", "https://a"⟩,
        ⟨"MITRE", "TA0001", "Access", "T1078", "https://b"⟩]
        ⟨"signal", [⟨"Message", "msg"⟩]⟩)).TTPs =
      some [[("framework", "MITRE"), ("tactic", "TA0004"), ("name", "Escalation"),
          ("id", "T1068")],
        [("framework", "MITRE"), ("tactic", "TA0001"), ("name", "Access"), ("id", "T1078")]] :=
  ⟨rfl,
   (BuildSignal_ttps textStdlib [("msg", "m")]
      (ruleConfig "low" [⟨"MITRE", "TA0004", "Escalation", "T1068", "https://a"⟩,
        ⟨"MITRE", "TA0001", "Access", "T1078", "https://b"⟩]
        ⟨"signal", [⟨"Message", "msg"⟩]⟩)
      { newSignal textStdlib
          (ruleConfig "low" [⟨"MITRE", "TA0004", "Escalation", "T1068", "https://a"⟩,
            ⟨"MITRE", "TA0001", "Access", "T1078", "https://b"⟩]
            ⟨"signal", [⟨"Message", "msg"⟩]⟩) with Message := "m" } rfl).1⟩

end Signal

namespace Signal

open Config

/-- C14: on a successful `BuildSignal`, `Rule_ID` is the configured UID, `Rule_Name` the
configured name, `ConfidenceID` is 1, 2, 3 for `low`, `medium`, `high` and 0 for every other
configured value, and each of the twelve string slots holds the value of the reference
construction: the record value of the source of the last output field that targets the slot,
the empty string when none does. Every source the output fields name is in the record. -/
theorem BuildSignal_scalar_fields (lib : Stdlib) (result : Record) (cfg : RuleConfig)
    (sig : Signal lib.Time) (hok : BuildSignal lib result cfg = .ok sig) :
    sig.Rule_ID = cfg.UID ∧ sig.Rule_Name = cfg.Name ∧
    (cfg.Confidence = "low" → sig.ConfidenceID = 1) ∧
    (cfg.Confidence = "medium" → sig.ConfidenceID = 2) ∧
    (cfg.Confidence = "high" → sig.ConfidenceID = 3) ∧
    (cfg.Confidence ∉ ["low", "medium", "high"] → sig.ConfidenceID = 0) ∧
    sig.Actor.User.Name = referenceSlot result cfg.Output.Fields "ActorUserName" ∧
    sig.Actor.User.UID = referenceSlot result cfg.Output.Fields "ActorUserUID" ∧
    sig.Resource.Name = referenceSlot result cfg.Output.Fields "ResourceName" ∧
    sig.Resource.Type_ = referenceSlot result cfg.Output.Fields "ResourceType" ∧
    sig.Resource.UID = referenceSlot result cfg.Output.Fields "ResourceUID" ∧
    sig.SrcEndpoint.Hostname = referenceSlot result cfg.Output.Fields "SrcHostname" ∧
    sig.SrcEndpoint.IP = referenceSlot result cfg.Output.Fields "SrcIP" ∧
    sig.DstEndpoint.Hostname = referenceSlot result cfg.Output.Fields "DstHostname" ∧
    sig.DstEndpoint.IP = referenceSlot result cfg.Output.Fields "DstIP" ∧
    sig.Message = referenceSlot result cfg.Output.Fields "Message" ∧
    sig.Metadata.EventID = referenceSlot result cfg.Output.Fields "EventID" ∧
    sig.Metadata.EventIndex = referenceSlot result cfg.Output.Fields "EventIndex" ∧
    (∀ f ∈ cfg.Output.Fields, ∃ value, result.get f.Source = some value) := by
  by_cases hlen : result.len < cfg.Output.Fields.length
  · simp [BuildSignal, hlen] at hok
  · simp only [BuildSignal, hlen, if_false] at hok
    obtain ⟨hid, hname, hcid, _, _⟩ := mapOutputFields_preserves lib result _ sig _ hok
    have hslot : ∀ (target : String) (slot : Signal lib.Time → String),
        (∀ (s s2 : Signal lib.Time) (f : OutputField),
          setOutputField lib result s f = .ok s2 →
          slot s2 = if f.Field = target then (result.get f.Source).getD "" else slot s) →
        slot (newSignal lib cfg) = "" →
        slot sig = referenceSlot result cfg.Output.Fields target := by
      intro target slot hstep hzero
      rw [mapOutputFields_slot lib result target slot hstep _ sig _ hok, hzero]
      rfl
    refine ⟨hid, hname, ?_, ?_, ?_, ?_, ?_, ?_, ?_, ?_, ?_, ?_, ?_, ?_, ?_, ?_, ?_, ?_,
      mapOutputFields_sources_present lib result _ sig _ hok⟩
    · intro hc
      rw [hcid]
      simp [newSignal, getConfidenceID, hc, ConfidenceLow, ConfidenceMedium, ConfidenceHigh,
        ConfidenceLowID, ConfidenceMediumID, ConfidenceHighID]
    · intro hc
      rw [hcid]
      simp [newSignal, getConfidenceID, hc, ConfidenceLow, ConfidenceMedium, ConfidenceHigh,
        ConfidenceLowID, ConfidenceMediumID, ConfidenceHighID]
    · intro hc
      rw [hcid]
      simp [newSignal, getConfidenceID, hc, ConfidenceLow, ConfidenceMedium, ConfidenceHigh,
        ConfidenceLowID, ConfidenceMediumID, ConfidenceHighID]
    · intro hc
      simp only [List.mem_cons, List.mem_singleton, List.not_mem_nil, or_false, not_or] at hc
      rw [hcid]
      simp [newSignal, getConfidenceID, hc, ConfidenceLow, ConfidenceMedium, ConfidenceHigh,
        ConfidenceUnknownID]
    · exact hslot _ (fun s => s.Actor.User.Name)
        (fun s s2 f h => (setOutputField_slots lib result s s2 f h).1) rfl
    · exact hslot _ (fun s => s.Actor.User.UID)
        (fun s s2 f h => (setOutputField_slots lib result s s2 f h).2.1) rfl
    · exact hslot _ (fun s => s.Resource.Name)
        (fun s s2 f h => (setOutputField_slots lib result s s2 f h).2.2.1) rfl
    · exact hslot _ (fun s => s.Resource.Type_)
        (fun s s2 f h => (setOutputField_slots lib result s s2 f h).2.2.2.1) rfl
    · exact hslot _ (fun s => s.Resource.UID)
        (fun s s2 f h => (setOutputField_slots lib result s s2 f h).2.2.2.2.1) rfl
    · exact hslot _ (fun s => s.SrcEndpoint.Hostname)
        (fun s s2 f h => (setOutputField_slots lib result s s2 f h).2.2.2.2.2.1) rfl
    · exact hslot _ (fun s => s.SrcEndpoint.IP)
        (fun s s2 f h => (setOutputField_slots lib result s s2 f h).2.2.2.2.2.2.1) rfl
    · exact hslot _ (fun s => s.DstEndpoint.Hostname)
        (fun s s2 f h => (setOutputField_slots lib result s s2 f h).2.2.2.2.2.2.2.1) rfl
    · exact hslot _ (fun s => s.DstEndpoint.IP)
        (fun s s2 f h => (setOutputField_slots lib result s s2 f h).2.2.2.2.2.2.2.2.1) rfl
    · exact hslot _ (fun s => s.Message)
        (fun s s2 f h => (setOutputField_slots lib result s s2 f h).2.2.2.2.2.2.2.2.2.1) rfl
    · exact hslot _ (fun s => s.Metadata.EventID)
        (fun s s2 f h => (setOutputField_slots lib result s s2 f h).2.2.2.2.2.2.2.2.2.2.1) rfl
    · exact hslot _ (fun s => s.Metadata.EventIndex)
        (fun s s2 f h => (setOutputField_slots lib result s s2 f h).2.2.2.2.2.2.2.2.2.2.2) rfl

/-- Witness of C14: two output fields target `Message`; the slot holds the value of the
source of the second one, and a slot no field targets is empty. -/
theorem BuildSignal_scalar_fields_witness :
    BuildSignal textStdlib [("a", "first"), ("b", "second"), ("h", "host")]
      (ruleConfig "medium" []
        ⟨"signal", [⟨"Message", "a"⟩, ⟨"SrcHostname", "h"⟩, ⟨"Message", "b"⟩]⟩) =
      .ok { newSignal textStdlib (ruleConfig "medium" []
          ⟨"signal", [⟨"Message", "a"⟩, ⟨"SrcHostname", "h"⟩, ⟨"Message", "b"⟩]⟩) with
        Message := "second", SrcEndpoint := ⟨"host", ""⟩ } ∧
    referenceSlot [("a", "first"), ("b", "second"), ("h", "host")]
      [⟨"Message", "a"⟩, ⟨"SrcHostname", "h"⟩, ⟨"Message", "b"⟩] "Message" = "second" ∧
    referenceSlot [("a", "first"), ("b", "second"), ("h", "host")]
      [⟨"Message", "a"⟩, ⟨"SrcHostname", "h"⟩, ⟨"Message", "b"⟩] "DstIP" = "" :=
  ⟨rfl,
   (BuildSignal_scalar_fields textStdlib [("a", "first"), ("b", "second"), ("h", "host")]
      (ruleConfig "medium" []
        ⟨"signal", [⟨"Message", "a"⟩, ⟨"SrcHostname", "h"⟩, ⟨"Message", "b"⟩]⟩)
      { newSignal textStdlib (ruleConfig "medium" []
          ⟨"signal", [⟨"Message", "a"⟩, ⟨"SrcHostname", "h"⟩, ⟨"Message", "b"⟩]⟩) with
        Message := "second", SrcEndpoint := ⟨"host", ""⟩ }
      rfl).2.2.2.2.2.2.2.2.2.2.2.2.2.2.2.1.symm,
   by decide⟩

/-- Counterexample to C15: the source value `null` is not the text of a JSON object, the
build succeeds, and `RuleSpecificData` is the empty map, not the map of `raw` to `null`. -/
theorem BuildSignal_rule_specific_data_null_counterexample :
    (¬ ∃ members, textStdlib.decodeJSON "null" = .ok (.object members)) ∧
    ∃ sig, BuildSignal textStdlib [("data", "null")]
        (ruleConfig "high" [] ⟨"signal", [⟨"RuleSpecificData", "data"⟩]⟩) = .ok sig ∧
      sig.RuleSpecificData = some [] ∧
      sig.RuleSpecificData ≠ some [("raw", "null")] := by
  refine ⟨?_, _, rfl, rfl, by decide⟩
  rintro ⟨members, h⟩
  have hnull : textStdlib.decodeJSON "null" = .ok .null := rfl
  rw [hnull] at h
  cases h

theorem setOutputField_rule_specific_data_kept (lib : Stdlib) (result : Record)
    (signal signal2 : Signal lib.Time) (f : OutputField)
    (hfield : f.Field ≠ "RuleSpecificData")
    (h : setOutputField lib result signal f = .ok signal2) :
    signal2.RuleSpecificData = signal.RuleSpecificData := by
  unfold setOutputField at h
  split at h
  · cases h
  · split at h
    case h_1 =>
      split at h
      · cases h
      · cases h; rfl
    case h_14 heq => exact absurd heq hfield
    all_goals first | (cases h; rfl) | cases h

theorem mapOutputFields_rule_specific_data_kept (lib : Stdlib) (result : Record)
    (signal sig : Signal lib.Time) (fields : List OutputField)
    (hfields : ∀ f ∈ fields, f.Field ≠ "RuleSpecificData")
    (h : mapOutputFields lib result signal fields = .ok sig) :
    sig.RuleSpecificData = signal.RuleSpecificData := by
  induction fields generalizing signal with
  | nil =>
    simp only [mapOutputFields, Except.ok.injEq] at h
    rw [h]
  | cons f rest ih =>
    cases hf : setOutputField lib result signal f with
    | error err => simp [mapOutputFields, hf] at h
    | ok signal2 =>
      simp only [mapOutputFields, hf] at h
      rw [ih signal2 (fun g hg => hfields g (List.mem_cons_of_mem _ hg)) h]
      exact setOutputField_rule_specific_data_kept lib result signal signal2 f
        (hfields f (List.mem_cons_self _ _)) hf

/-- C15, amended: on a successful `BuildSignal` whose output fields hold a single field
`RuleSpecificData`, among any other fields before it and after it, with the source value
`s`: if `s` is malformed JSON, or JSON of another kind than an object and `null` (an array, a
number, a string, a boolean), then `RuleSpecificData` is exactly the one-entry map of `raw`
to `s`. -/
theorem BuildSignal_rule_specific_data_raw (lib : Stdlib) (result : Record)
    (cfg : RuleConfig) (earlier later : List OutputField) (source s : String)
    (sig : Signal lib.Time)
    (hfields : cfg.Output.Fields = earlier ++ ⟨"RuleSpecificData", source⟩ :: later)
    (hsingle : ∀ f ∈ earlier ++ later, f.Field ≠ "RuleSpecificData")
    (hvalue : result.get source = some s)
    (hok : BuildSignal lib result cfg = .ok sig)
    (hkind : (∃ err, lib.decodeJSON s = .error err) ∨
      (∃ v, lib.decodeJSON s = .ok v ∧ v ≠ .null ∧ ∀ members, v ≠ .object members)) :
    sig.RuleSpecificData = some [("raw", s)] := by
  have hunmarshal : ∃ err, unmarshalMap lib s = .error err := by
    rcases hkind with ⟨err, herr⟩ | ⟨v, hv, hnull, hobject⟩
    · exact ⟨err, by simp [unmarshalMap, herr]⟩
    · cases v with
      | null => exact absurd rfl hnull
      | object members => exact absurd rfl (hobject members)
      | bool b => exact ⟨_, by unfold unmarshalMap; rw [hv]⟩
      | number text => exact ⟨_, by unfold unmarshalMap; rw [hv]⟩
      | string t => exact ⟨_, by unfold unmarshalMap; rw [hv]⟩
      | array elems => exact ⟨_, by unfold unmarshalMap; rw [hv]⟩
  obtain ⟨err, herr⟩ := hunmarshal
  by_cases hlen : result.len < cfg.Output.Fields.length
  · simp [BuildSignal, hlen] at hok
  · simp only [BuildSignal, hlen, if_false] at hok
    rw [hfields, mapOutputFields_append] at hok
    cases hearlier : mapOutputFields lib result (newSignal lib cfg) earlier with
    | error e =>
      rw [hearlier] at hok
      cases hok
    | ok signal1 =>
      rw [hearlier] at hok
      simp only [mapOutputFields, setOutputField, hvalue, herr] at hok
      rw [mapOutputFields_rule_specific_data_kept lib result _ sig later
        (fun f hf => hsingle f (List.mem_append_right _ hf)) hok]

/-- Witness of C15, amended: the record and the seven output fields of the test of the
repository, the source value being text that is not JSON. -/
theorem BuildSignal_rule_specific_data_raw_witness :
    (∃ err, textStdlib.decodeJSON "key1: value1, key2: value2" = .error err) ∧
    ∃ sig, BuildSignal textStdlib
      [("timestamp", "2023-05-14T10:00:00Z"),
        ("message", "process xyz created/modified the file abc"),
        ("hostname", "hostname123"), ("actor.user.name", "user123"),
        ("src.hostname", "src-hostname"), ("src.ip", "src-ip"),
        ("rule_specific_data", "key1: value1, key2: value2")]
      (ruleConfig "" [] ⟨"signal", [⟨"Timestamp", "timestamp"⟩, ⟨"Message", "message"⟩,
        ⟨"ResourceName", "hostname"⟩, ⟨"ActorUserName", "actor.user.name"⟩,
        ⟨"SrcHostname", "src.hostname"⟩, ⟨"SrcIP", "src.ip"⟩,
        ⟨"RuleSpecificData", "rule_specific_data"⟩]⟩) = .ok sig ∧
      sig.RuleSpecificData = some [("raw", "key1: value1, key2: value2")] :=
  ⟨⟨_, rfl⟩, _, rfl,
   BuildSignal_rule_specific_data_raw textStdlib
     [("timestamp", "2023-05-14T10:00:00Z"),
       ("message", "process xyz created/modified the file abc"),
       ("hostname", "hostname123"), ("actor.user.name", "user123"),
       ("src.hostname", "src-hostname"), ("src.ip", "src-ip"),
       ("rule_specific_data", "key1: value1, key2: value2")]
     (ruleConfig "" [] ⟨"signal", [⟨"Timestamp", "timestamp"⟩, ⟨"Message", "message"⟩,
       ⟨"ResourceName", "hostname"⟩, ⟨"ActorUserName", "actor.user.name"⟩,
       ⟨"SrcHostname", "src.hostname"⟩, ⟨"SrcIP", "src.ip"⟩,
       ⟨"RuleSpecificData", "rule_specific_data"⟩]⟩)
     [⟨"Timestamp", "timestamp"⟩, ⟨"Message", "message"⟩, ⟨"ResourceName", "hostname"⟩,
       ⟨"ActorUserName", "actor.user.name"⟩, ⟨"SrcHostname", "src.hostname"⟩,
       ⟨"SrcIP", "src.ip"⟩] []
     "rule_specific_data" "key1: value1, key2: value2" _ rfl (by decide) rfl rfl
     (Or.inl ⟨_, rfl⟩)⟩

end Signal

/-! ## Lemmas on the enrichment stage: white space and code fences -/

namespace Llm

open Config

theorem rdropWhile_cons_of_neg (p : Char → Bool) (a : Char) (cs : List Char)
    (ha : ¬ p a = true) : (a :: cs).rdropWhile p = a :: cs.rdropWhile p := by
  induction cs using List.reverseRecOn with
  | nil => simp [List.rdropWhile_singleton, ha]
  | append_singleton l x ih =>
    by_cases hx : p x = true
    · rw [← List.cons_append, List.rdropWhile_concat_pos _ _ _ hx,
        List.rdropWhile_concat_pos _ _ _ hx, ih]
    · rw [← List.cons_append, List.rdropWhile_concat_neg _ _ _ hx,
        List.rdropWhile_concat_neg _ _ _ hx, List.cons_append]

theorem trimSpaceChars_eq_nil_or_cons (cs : List Char) :
    trimSpaceChars cs = [] ∨
      ∃ (a : Char) (rest : List Char),
        ¬ isSpace a = true ∧ trimSpaceChars cs = a :: rest.rdropWhile isSpace := by
  unfold trimSpaceChars
  cases h : cs.dropWhile isSpace with
  | nil => left; simp
  | cons a rest =>
    right
    have ha : ¬ isSpace a = true := by
      have := List.dropWhile_get_zero_not isSpace cs (by simp [h])
      simpa [h] using this
    exact ⟨a, rest, ha, rdropWhile_cons_of_neg isSpace a rest ha⟩

theorem trimSpaceChars_idempotent (cs : List Char) :
    trimSpaceChars (trimSpaceChars cs) = trimSpaceChars cs := by
  rcases trimSpaceChars_eq_nil_or_cons cs with h | ⟨a, rest, ha, h⟩
  · rw [h]; rfl
  · rw [h]
    unfold trimSpaceChars
    rw [List.dropWhile_cons_of_neg ha, rdropWhile_cons_of_neg isSpace a _ ha,
      List.rdropWhile_idempotent]

theorem trimSpace_idempotent (s : String) : trimSpace (trimSpace s) = trimSpace s := by
  simp [trimSpace, trimSpaceChars_idempotent]

theorem trimSpaceChars_infix (cs : List Char) :
    ∃ before after, cs = before ++ trimSpaceChars cs ++ after := by
  obtain ⟨before, hb⟩ := List.dropWhile_suffix (l := cs) isSpace
  obtain ⟨after, ha⟩ := List.rdropWhile_prefix (p := isSpace) (l := cs.dropWhile isSpace)
  refine ⟨before, after, ?_⟩
  unfold trimSpaceChars
  rw [List.append_assoc, ha, hb]

theorem trimSpaceChars_eq_self (a b : Char) (mid : List Char)
    (ha : ¬ isSpace a = true) (hb : ¬ isSpace b = true) :
    trimSpaceChars (a :: (mid ++ [b])) = a :: (mid ++ [b]) := by
  unfold trimSpaceChars
  rw [List.dropWhile_cons_of_neg ha, ← List.cons_append,
    List.rdropWhile_concat_neg _ _ _ hb]

theorem captureGreedy_append_fence (group : List Char) :
    captureGreedy (group ++ "\n```".data) = some group := by
  induction group with
  | nil => rfl
  | cons c rest ih => simp [captureGreedy, ih]

theorem hasPrefixChars_append (lit rest : List Char) :
    Exclusion.hasPrefixChars (lit ++ rest) lit = true :=
  (Exclusion.hasPrefixChars_eq_true_iff _ _).2 ⟨rest, rfl⟩

theorem findFenceChars_of_matchFenceAt (cs group : List Char)
    (hmatch : matchFenceAt cs = some group) : findFenceChars cs = some group := by
  cases cs with
  | nil => simp [matchFenceAt, Exclusion.hasPrefixChars] at hmatch
  | cons c rest =>
    unfold findFenceChars
    rw [hmatch]

theorem findFenceChars_tagged (group : List Char) :
    findFenceChars ("```json\n".data ++ (group ++ "\n```".data)) = some group := by
  apply findFenceChars_of_matchFenceAt
  unfold matchFenceAt
  rw [hasPrefixChars_append, if_pos rfl]
  exact captureGreedy_append_fence group

theorem findFenceChars_untagged (group : List Char) :
    findFenceChars ("```\n".data ++ (group ++ "\n```".data)) = some group := by
  apply findFenceChars_of_matchFenceAt
  unfold matchFenceAt
  have hnot : Exclusion.hasPrefixChars ("```\n".data ++ (group ++ "\n```".data))
      "```json\n".data = false := by
    simp [Exclusion.hasPrefixChars]
  rw [hnot, hasPrefixChars_append]
  simp only [Bool.false_eq_true, if_false, if_true]
  exact captureGreedy_append_fence group

theorem findFenceChars_eq_none (cs : List Char)
    (hnone : ¬ ∃ before after, cs = before ++ "```".data ++ after) :
    findFenceChars cs = none := by
  induction cs with
  | nil => rfl
  | cons c rest ih =>
    have hrest : ¬ ∃ before after, rest = before ++ "```".data ++ after := by
      rintro ⟨before, after, h⟩
      exact hnone ⟨c :: before, after, by simp [h]⟩
    have hstarts : ∀ lit : List Char, Exclusion.hasPrefixChars (c :: rest) ("```".data ++ lit)
        = false := by
      intro lit
      rw [← Bool.not_eq_true, Exclusion.hasPrefixChars_eq_true_iff]
      rintro ⟨after, h⟩
      exact hnone ⟨[], lit ++ after, by simp [h]⟩
    have hmatch : matchFenceAt (c :: rest) = none := by
      unfold matchFenceAt
      have h1 := hstarts "json\n".data
      have h2 := hstarts "\n".data
      have e1 : "```".data ++ "json\n".data = "```json\n".data := rfl
      have e2 : "```".data ++ "\n".data = "```\n".data := rfl
      rw [e1] at h1
      rw [e2] at h2
      simp [h1, h2]
    unfold findFenceChars
    rw [hmatch]
    exact ih hrest

end Llm

namespace Llm

open Config

theorem trimSpace_eq_self (s : String) (a b : Char) (mid : List Char)
    (hdata : s.data = a :: (mid ++ [b]))
    (ha : ¬ isSpace a = true) (hb : ¬ isSpace b = true) : trimSpace s = s := by
  unfold trimSpace
  rw [hdata, trimSpaceChars_eq_self a b mid ha hb, ← hdata]

theorem trimSpace_fenced (opening content : String)
    (hopen : ∃ rest, opening.data = backtick :: rest) :
    trimSpace (opening ++ content ++ "\n```") = opening ++ content ++ "\n```" := by
  obtain ⟨rest, hrest⟩ := hopen
  apply trimSpace_eq_self _ backtick backtick (rest ++ content.data ++ "\n``".data)
  · simp only [String.data_append, hrest, List.append_assoc, List.cons_append]
    rfl
  · decide
  · decide

theorem findFence_tagged (content : String) :
    findFence ("```json\n" ++ content ++ "\n```") = some content := by
  unfold findFence
  have hdata : ("```json\n" ++ content ++ "\n```").data =
      "```json\n".data ++ (content.data ++ "\n```".data) := by
    simp only [String.data_append, List.append_assoc]
  rw [hdata, findFenceChars_tagged]

theorem findFence_untagged (content : String) :
    findFence ("```\n" ++ content ++ "\n```") = some content := by
  unfold findFence
  have hdata : ("```\n" ++ content ++ "\n```").data =
      "```\n".data ++ (content.data ++ "\n```".data) := by
    simp only [String.data_append, List.append_assoc]
  rw [hdata, findFenceChars_untagged]

theorem findFence_trimSpace_eq_none (s : String)
    (hnone : ¬ ∃ before after, s.data = before ++ "```".data ++ after) :
    findFence (trimSpace s) = none := by
  unfold findFence
  have hchars : findFenceChars (trimSpace s).data = none := by
    apply findFenceChars_eq_none
    rintro ⟨before, after, h⟩
    obtain ⟨pre, post, hs⟩ := trimSpaceChars_infix s.data
    apply hnone
    refine ⟨pre ++ before, after ++ post, ?_⟩
    have h2 : trimSpaceChars s.data = before ++ "```".data ++ after := h
    rw [hs, h2]
    simp only [List.append_assoc]
  rw [hchars]

end Llm

/-! ## Theorems on the enrichment stage: parsing the response -/

namespace Llm

open Config

/-- C18: a response that, after trimming the surrounding white space, is the empty string or
exactly `[]` makes `parseResponse` return the nil slice and no error. -/
theorem parseResponse_no_findings (lib : Stdlib) (response : String)
    (hempty : trimSpace response = "" ∨ trimSpace response = "[]") :
    parseResponse lib response = .ok none := by
  have h1 : findFence "" = none := rfl
  have h2 : findFence "[]" = none := rfl
  have h3 : trimSpace "" = "" := rfl
  have h4 : trimSpace "[]" = "[]" := by decide
  unfold parseResponse
  rcases hempty with h | h
  · simp [h, h1, h3]
  · simp [h, h2, h4]

/-- Witness of C18: the text `[]` between line feeds and spaces. -/
theorem parseResponse_no_findings_witness :
    trimSpace " \n[]\n " = "[]" ∧ parseResponse plainStdlib " \n[]\n " = .ok none :=
  ⟨by decide, parseResponse_no_findings plainStdlib " \n[]\n " (Or.inr (by decide))⟩

/-- C20: for a text that holds no three consecutive grave accents, `parseResponse` of the
text wrapped in a fenced block, tagged `json` or not, is `parseResponse` of the text: the
same records, or the same error. -/
theorem parseResponse_fenced (lib : Stdlib) (content : String)
    (hnofence : ¬ ∃ before after, content.data = before ++ "```".data ++ after) :
    parseResponse lib ("```json\n" ++ content ++ "\n```") = parseResponse lib content ∧
    parseResponse lib ("```\n" ++ content ++ "\n```") = parseResponse lib content := by
  have hplain : findFence (trimSpace content) = none :=
    findFence_trimSpace_eq_none content hnofence
  constructor
  · unfold parseResponse
    simp only [trimSpace_fenced "```json\n" content ⟨_, rfl⟩, findFence_tagged, hplain,
      trimSpace_idempotent]
  · unfold parseResponse
    simp only [trimSpace_fenced "```\n" content ⟨_, rfl⟩, findFence_untagged, hplain,
      trimSpace_idempotent]

/-- Witness of C20: an array of one object, fenced with the tag and without it. -/
theorem parseResponse_fenced_witness :
    parseResponse plainStdlib "```json\n[\x7b\"Title\": \"Suspicious Activity\"\x7d]\n```" =
      parseResponse plainStdlib "[\x7b\"Title\": \"Suspicious Activity\"\x7d]" ∧
    parseResponse plainStdlib "```\n[\x7b\"Title\": \"Suspicious Activity\"\x7d]\n```" =
      parseResponse plainStdlib "[\x7b\"Title\": \"Suspicious Activity\"\x7d]" ∧
    parseResponse plainStdlib "[\x7b\"Title\": \"Suspicious Activity\"\x7d]" =
      .ok (some [[("Title", "Suspicious Activity")]]) :=
  ⟨(parseResponse_fenced plainStdlib "[\x7b\"Title\": \"Suspicious Activity\"\x7d]"
      (by rw [← Exclusion.containsChars_eq_true_iff]; decide)).1,
   (parseResponse_fenced plainStdlib "[\x7b\"Title\": \"Suspicious Activity\"\x7d]"
      (by rw [← Exclusion.containsChars_eq_true_iff]; decide)).2, rfl⟩

end Llm

/-! ## Lemmas on the grammar and the decoder of the concrete library -/

namespace JSON

theorem parseValue_first_char (fuel : Nat) (c : Char) (rest : List Char)
    (hspace : ¬ isSpaceChar c = true) (hbracket : c ≠ '[') (hn : c ≠ 'n')
    (v : JSON) (after : List Char) (h : parseValue fuel (c :: rest) = some (v, after)) :
    v ≠ .null ∧ ∀ elems, v ≠ .array elems := by
  cases fuel with
  | zero => simp [parseValue] at h
  | succ fuel =>
    unfold parseValue at h
    rw [List.dropWhile_cons_of_neg hspace] at h
    simp only [hbracket, hn, if_false] at h
    unfold parseLiteral at h
    repeat' split at h
    all_goals first
      | (cases h; done)
      | (simp only [Option.some.injEq, Prod.mk.injEq] at h
         obtain ⟨hv, _⟩ := h
         subst hv
         exact ⟨(by intro hv; cases hv), (by intro elems hv; cases hv)⟩)

theorem decode_first_char (s : String) (c : Char) (rest : List Char)
    (hdata : s.data = c :: rest)
    (hspace : ¬ isSpaceChar c = true) (hbracket : c ≠ '[') (hn : c ≠ 'n') :
    (∃ err, decode s = .error err) ∨
      ∃ v, decode s = .ok v ∧ v ≠ .null ∧ ∀ elems, v ≠ .array elems := by
  unfold decode
  rw [hdata]
  cases h : parseValue (2 * s.length + 2) (c :: rest) with
  | none => exact Or.inl ⟨_, rfl⟩
  | some p =>
    obtain ⟨v, after⟩ := p
    have hv := parseValue_first_char _ c rest hspace hbracket hn v after h
    by_cases hrest : (List.dropWhile isSpaceChar after).isEmpty = true
    · right
      exact ⟨v, by simp [hrest], hv⟩
    · left
      exact ⟨"invalid character after top-level value", by simp [hrest]⟩

theorem decode_first_char_n (s : String) (rest : List Char) (hdata : s.data = 'n' :: rest) :
    (∃ err, decode s = .error err) ∨
      (decode s = .ok .null ∧
        ∃ ws, s.data = "null".data ++ ws ∧ ∀ c ∈ ws, isSpaceChar c = true) := by
  unfold decode
  rw [hdata]
  have hvalue : parseValue (2 * s.length + 2) ('n' :: rest) =
      parseLiteral "null".data .null ('n' :: rest) := by
    have hfuel : 2 * s.length + 2 = (2 * s.length + 1) + 1 := rfl
    rw [hfuel]
    unfold parseValue
    rw [List.dropWhile_cons_of_neg (by decide)]
    have h1 : ('n' : Char) ≠ quoteChar := by decide
    have h2 : ('n' : Char) ≠ '[' := by decide
    have h3 : ('n' : Char) ≠ leftBrace := by decide
    simp only [h1, h2, h3, if_false, if_true]
  rw [hvalue]
  unfold parseLiteral
  by_cases hstarts : Exclusion.hasPrefixChars ('n' :: rest) "null".data = true
  · obtain ⟨ws, hws⟩ := (Exclusion.hasPrefixChars_eq_true_iff _ _).1 hstarts
    have hdrop : List.drop "null".data.length ('n' :: rest) = ws := by
      rw [hws]
      exact List.drop_left _ _
    simp only [hstarts, if_true, hdrop]
    by_cases hrest : (List.dropWhile isSpaceChar ws).isEmpty = true
    · right
      refine ⟨by simp [hrest], ws, hws, ?_⟩
      have hnil : List.dropWhile isSpaceChar ws = [] := List.isEmpty_iff.1 hrest
      exact List.dropWhile_eq_nil_iff.1 hnil
    · left
      exact ⟨"invalid character after top-level value", by simp [hrest]⟩
  · left
    exact ⟨"invalid character", by simp [hstarts]⟩

theorem unmarshalValue_of_decode_error (s err : String) (h : decode s = .error err) :
    unmarshalValue s = .error err := by
  unfold unmarshalValue
  rw [h]

theorem unmarshalValue_of_decode_ok (s : String) (v : JSON) (h : decode s = .ok v) :
    (∃ err, unmarshalValue s = .error err) ∨ unmarshalValue s = .ok v := by
  unfold unmarshalValue
  rw [h]
  by_cases hdepth : maxNestingDepth < nesting v
  · left
    exact ⟨"exceeded max depth", by simp [hdepth]⟩
  · by_cases hfit : numbersFit v = true
    · right
      simp [hdepth, hfit]
    · left
      exact ⟨"json: cannot unmarshal number into Go value of type float64",
        by simp [hdepth, hfit]⟩

theorem unmarshalValue_ok (s : String) (v : JSON) (h : unmarshalValue s = .ok v) :
    decode s = .ok v ∧ nesting v ≤ maxNestingDepth ∧ numbersFit v = true := by
  unfold unmarshalValue at h
  cases hd : decode s with
  | error err =>
    rw [hd] at h
    cases h
  | ok w =>
    rw [hd] at h
    by_cases hdepth : maxNestingDepth < nesting w
    · simp [hdepth] at h
    · by_cases hfit : numbersFit w = true
      · simp only [hdepth, hfit, if_true, if_false, Except.ok.injEq] at h
        subst h
        exact ⟨rfl, Nat.le_of_not_lt hdepth, hfit⟩
      · simp [hdepth, hfit] at h

end JSON

/-! ## Lemmas on the enrichment stage: the formatted block -/

namespace Llm

open Config

theorem get_eq_some_iff_mem_keys (result : Record) (key : String) :
    (∃ value, result.get key = some value) ↔ key ∈ result.map Prod.fst := by
  induction result with
  | nil => simp [Record.get]
  | cons entry rest ih =>
    obtain ⟨k, v⟩ := entry
    by_cases hk : k = key
    · simp [Record.get, hk]
    · simp only [Record.get, hk, if_false, ih, List.map_cons, List.mem_cons]
      constructor
      · intro h; exact Or.inr h
      · rintro (h | h)
        · exact absurd h.symm hk
        · exact h

theorem mem_sortStrings_mapsKeys (result : Record) (key : String) :
    key ∈ sortStrings (mapsKeys result) ↔ ∃ value, result.get key = some value := by
  rw [get_eq_some_iff_mem_keys]
  simp [sortStrings, mapsKeys, List.mem_insertionSort]

theorem sortStrings_mapsKeys_sorted (result : Record) :
    List.Sorted (fun a b => a < b) (sortStrings (mapsKeys result)) := by
  have hle : List.Sorted (fun a b : String => a ≤ b) (sortStrings (mapsKeys result)) :=
    List.sorted_insertionSort (fun a b : String => a ≤ b) _
  have hnodup : (sortStrings (mapsKeys result)).Nodup :=
    (List.perm_insertionSort (fun a b : String => a ≤ b) _).nodup_iff.2
      (List.nodup_dedup _)
  exact hle.lt_of_le hnodup

theorem sortStrings_mapsKeys_congr (result other : Record)
    (hsame : ∀ key, result.get key = other.get key) :
    sortStrings (mapsKeys result) = sortStrings (mapsKeys other) := by
  have hperm : (sortStrings (mapsKeys result)).Perm (sortStrings (mapsKeys other)) := by
    rw [List.perm_ext_iff_of_nodup (sortStrings_mapsKeys_sorted result).nodup
      (sortStrings_mapsKeys_sorted other).nodup]
    intro key
    rw [mem_sortStrings_mapsKeys, mem_sortStrings_mapsKeys, hsame key]
  exact List.eq_of_perm_of_sorted hperm
    (List.sorted_insertionSort (fun a b : String => a ≤ b) _)
    (List.sorted_insertionSort (fun a b : String => a ≤ b) _)

theorem formatFields_eq_map (result : Record) (keys : List String) :
    formatFields result keys =
      keys.map (fun key => key ++ ": " ++ (result.get key).getD "") := by
  induction keys with
  | nil => rfl
  | cons key rest ih => simp [formatFields, ih]

theorem join_cons (s : String) (ss : List String) :
    String.join (s :: ss) = s ++ String.join ss := by
  apply String.ext
  simp [String.data_join]

theorem writeResults_eq (formattedResults : String) (results : List Record) :
    writeResults formattedResults results =
      formattedResults ++ String.join (results.map (fun result => formatLine result ++ "\n")) := by
  induction results generalizing formattedResults with
  | nil =>
    apply String.ext
    simp [writeResults, String.data_join]
  | cons result rest ih =>
    rw [writeResults, ih, List.map_cons, join_cons]
    apply String.ext
    simp [String.data_append, List.append_assoc]

end Llm

/-! ## Theorems on the enrichment stage: the prompt and the process -/

namespace Llm

open Config

/-- C17: the formatted block of `generatePrompt` is the lines of the records in batch order,
each followed by a line feed; the line of a record is its entries, each rendered as the key,
a colon, a space and the value, listed in strictly ascending key order and separated by a
comma and a space; two records that hold the same value under every key have the same
line, whatever the order of their entries. -/
theorem formatResults_lines (results : List Record) :
    formatResults results =
      String.join (results.map (fun result => formatLine result ++ "\n")) ∧
    (∀ result : Record, ∃ entries : List (String × String),
      List.Sorted (fun a b => a < b) (entries.map Prod.fst) ∧
      (∀ key value, (key, value) ∈ entries ↔ result.get key = some value) ∧
      formatLine result = ", ".intercalate (entries.map (fun e => e.1 ++ ": " ++ e.2))) ∧
    (∀ result other : Record, (∀ key, result.get key = other.get key) →
      formatLine result = formatLine other) := by
  refine ⟨?_, ?_, ?_⟩
  · rw [formatResults, writeResults_eq]
    apply String.ext
    simp
  · intro result
    refine ⟨(sortStrings (mapsKeys result)).map
      (fun key => (key, (result.get key).getD "")), ?_, ?_, ?_⟩
    · rw [List.map_map]
      have hid : (Prod.fst ∘ fun key : String => (key, (result.get key).getD "")) = id := rfl
      rw [hid, List.map_id]
      exact sortStrings_mapsKeys_sorted result
    · intro key value
      simp only [List.mem_map, Prod.mk.injEq]
      constructor
      · rintro ⟨k, hk, rfl, rfl⟩
        obtain ⟨v, hv⟩ := (mem_sortStrings_mapsKeys result k).1 hk
        simp [hv]
      · intro hget
        exact ⟨key, (mem_sortStrings_mapsKeys result key).2 ⟨value, hget⟩, rfl, by simp [hget]⟩
    · rw [formatLine, formatFields_eq_map, List.map_map]
      rfl
  · intro result other hsame
    rw [formatLine, formatLine, formatFields_eq_map, formatFields_eq_map,
      sortStrings_mapsKeys_congr result other hsame]
    simp [hsame]

end Llm

namespace Llm

open Config

/-- Witness of C17: two lists of the same two entries, in different orders. -/
theorem formatResults_lines_witness :
    formatLine [("user", "test-user"), ("signal_name", "UserLogin")] =
      formatLine [("signal_name", "UserLogin"), ("user", "test-user")] :=
  (formatResults_lines [[("user", "test-user"), ("signal_name", "UserLogin")]]).2.2 [("user", "test-user"), ("signal_name", "UserLogin")]
    [("signal_name", "UserLogin"), ("user", "test-user")]
    (by
      intro key
      by_cases h1 : "user" = key
      · subst h1; decide
      · by_cases h2 : "signal_name" = key
        · subst h2; decide
        · simp [Record.get, h1, h2])

end Llm

namespace Llm

open Config

/-- C16: `Process` returns an error exactly when the batch is not empty and the client is
missing, or the prompt template fails to expand, or the call of the client returns an error,
or the response fails to parse (an error excludes records, the two being the alternatives of
the result); on an empty batch it returns the nil slice and no error and calls nothing,
whatever the client and the configuration are. On a batch that is not empty, with a client
and without LLM settings in the configuration, `Process` does not return. -/
theorem Process_error_iff (lib : Stdlib) (client : Option Client) (results : List Record)
    (cfg : RuleConfig) :
    ((∃ err, (Process lib client results cfg).returned = some (.error err)) ↔
      results ≠ [] ∧
        (client = none ∨
         (∃ llm err, cfg.LLM = some llm ∧
            generatePrompt lib llm.Prompt results = .error err) ∨
         (∃ c llm prompt err, client = some c ∧ cfg.LLM = some llm ∧
            generatePrompt lib llm.Prompt results = .ok prompt ∧
            c.Call prompt = .error err) ∨
         (∃ c llm prompt response err, client = some c ∧ cfg.LLM = some llm ∧
            generatePrompt lib llm.Prompt results = .ok prompt ∧
            c.Call prompt = .ok response ∧ parseResponse lib response = .error err))) ∧
    (results = [] →
      Process lib client results cfg = { returned := some (.ok none), calls := [] }) ∧
    (results ≠ [] → client ≠ none → cfg.LLM = none →
      (Process lib client results cfg).returned = none) := by
  refine ⟨?_, ?_, ?_⟩
  · cases results with
    | nil => simp [Process]
    | cons result rest =>
      cases client with
      | none => simp [Process]
      | some c =>
        cases hllm : cfg.LLM with
        | none => simp [Process, hllm]
        | some llm =>
          cases hprompt : generatePrompt lib llm.Prompt (result :: rest) with
          | error perr => simp [Process, hllm, hprompt]
          | ok prompt =>
            cases hcall : c.Call prompt with
            | error cerr => simp [Process, hllm, hprompt, hcall]
            | ok response =>
              cases hparse : parseResponse lib response with
              | error err => simp [Process, hllm, hprompt, hcall, hparse]
              | ok newResults =>
                by_cases hlen : sliceLen newResults = 0
                · simp [Process, hllm, hprompt, hcall, hparse, hlen]
                · simp [Process, hllm, hprompt, hcall, hparse, hlen]
  · intro hempty
    simp [Process, hempty]
  · intro hresults hclient hllm
    cases results with
    | nil => exact absurd rfl hresults
    | cons result rest =>
      cases client with
      | none => exact absurd rfl hclient
      | some c => simp [Process, hllm]

/-- Witness of C16: an empty batch, without a client and without LLM settings; and a batch
of one record whose client returns an error. -/
theorem Process_error_iff_witness :
    Process plainStdlib none [] (Signal.ruleConfig "high" [] ⟨"signal", []⟩) =
      { returned := some (.ok none), calls := [] } ∧
    ∃ err, (Process plainStdlib (some (fixedClient (.error "simulated LLM error")))
      [[("signal_name", "UserLogin")]]
      { Signal.ruleConfig "high" [] ⟨"signal", []⟩ with
        LLM := some ⟨true, "Signals:\n\x7b\x7b .FormattedResults \x7d\x7d"⟩ }).returned =
        some (.error err) :=
  ⟨(Process_error_iff plainStdlib none [] (Signal.ruleConfig "high" [] ⟨"signal", []⟩)).2.1 rfl,
   (Process_error_iff plainStdlib (some (fixedClient (.error "simulated LLM error")))
      [[("signal_name", "UserLogin")]]
      { Signal.ruleConfig "high" [] ⟨"signal", []⟩ with
        LLM := some ⟨true, "Signals:\n\x7b\x7b .FormattedResults \x7d\x7d"⟩ }).1.2
     ⟨by decide, Or.inr (Or.inr (Or.inl
       ⟨fixedClient (.error "simulated LLM error"),
        ⟨true, "Signals:\n\x7b\x7b .FormattedResults \x7d\x7d"⟩,
        "Signals:\nsignal_name: UserLogin\n", "simulated LLM error", rfl, rfl, rfl, rfl⟩))⟩⟩

end Llm

/-! ## Lemmas on the grammar: text after a value -/

namespace JSON

theorem dropWhile_append_of_ne_nil {p : Char → Bool} (cs t : List Char) (c : Char)
    (rest : List Char) (h : cs.dropWhile p = c :: rest) :
    (cs ++ t).dropWhile p = c :: (rest ++ t) := by
  induction cs with
  | nil => simp at h
  | cons a as ih =>
    by_cases ha : p a = true
    · rw [List.dropWhile_cons_of_pos ha] at h
      rw [List.cons_append, List.dropWhile_cons_of_pos ha]
      exact ih h
    · rw [List.dropWhile_cons_of_neg ha] at h
      rw [List.cons_append, List.dropWhile_cons_of_neg ha]
      cases h
      rfl

theorem takeWhile_append_of_dropWhile_ne_nil {p : Char → Bool} (cs t : List Char)
    (h : cs.dropWhile p ≠ []) :
    (cs ++ t).takeWhile p = cs.takeWhile p ∧
      (cs ++ t).dropWhile p = cs.dropWhile p ++ t := by
  induction cs with
  | nil => simp at h
  | cons a as ih =>
    by_cases ha : p a = true
    · rw [List.dropWhile_cons_of_pos ha] at h
      obtain ⟨h1, h2⟩ := ih h
      rw [List.cons_append, List.takeWhile_cons_of_pos ha, List.takeWhile_cons_of_pos ha,
        List.dropWhile_cons_of_pos ha, List.dropWhile_cons_of_pos ha, h1, h2]
      exact ⟨rfl, rfl⟩
    · rw [List.cons_append, List.takeWhile_cons_of_neg ha, List.takeWhile_cons_of_neg ha,
        List.dropWhile_cons_of_neg ha, List.dropWhile_cons_of_neg ha]
      exact ⟨rfl, rfl⟩

theorem length_of_dropWhile_eq_cons {p : Char → Bool} (cs : List Char) (c : Char)
    (rest : List Char) (h : cs.dropWhile p = c :: rest) : rest.length + 1 ≤ cs.length := by
  have hle := (List.dropWhile_suffix (l := cs) p).length_le
  rw [h] at hle
  simpa using hle

theorem parseStringBody_append (fuel : Nat) :
    ∀ (cs s after t : List Char) (fuel2 : Nat), cs.length ≤ fuel2 →
      parseStringBody fuel cs = some (s, after) →
      parseStringBody fuel2 (cs ++ t) = some (s, after ++ t) ∧ after.length ≤ cs.length := by
  induction fuel with
  | zero =>
    intro cs s after t fuel2 _ h
    simp [parseStringBody] at h
  | succ fuel ih =>
    intro cs s after t fuel2 hle h
    cases cs with
    | nil => simp [parseStringBody] at h
    | cons c rest =>
      obtain ⟨k, rfl⟩ : ∃ k, fuel2 = k + 1 := ⟨fuel2 - 1, by simp at hle; omega⟩
      simp only [List.length_cons] at hle ⊢
      rw [List.cons_append]
      unfold parseStringBody at h ⊢
      by_cases hq : c = quoteChar
      · simp only [hq, if_true, Option.some.injEq, Prod.mk.injEq] at h ⊢
        obtain ⟨h1, h2⟩ := h
        subst h1 h2
        exact ⟨⟨rfl, rfl⟩, by omega⟩
      · simp only [hq, if_false] at h ⊢
        by_cases hb : c = backslashChar
        · simp only [hb, if_true] at h ⊢
          cases rest with
          | nil => simp at h
          | cons e rest2 =>
            simp only [List.cons_append, List.length_cons] at h hle ⊢
            by_cases hu : e = 'u'
            · simp only [hu, if_true] at h ⊢
              match rest2, h, hle with
              | h1 :: h2 :: h3 :: h4 :: rest3, h, hle =>
                simp only [List.cons_append, List.length_cons] at h hle ⊢
                cases hhex : hex4 h1 h2 h3 h4 with
                | none => simp [hhex] at h
                | some n =>
                  cases hbody : parseStringBody fuel rest3 with
                  | none => simp [hhex, hbody] at h
                  | some p =>
                    obtain ⟨s2, after2⟩ := p
                    simp only [hhex, hbody, Option.some.injEq, Prod.mk.injEq] at h
                    obtain ⟨h1, h2⟩ := h
                    subst h1 h2
                    obtain ⟨hx, hl⟩ := ih rest3 s2 after2 t k (by omega) hbody
                    rw [hx]
                    exact ⟨rfl, by omega⟩
              | [], h, _ => simp at h
              | [_], h, _ => simp at h
              | [_, _], h, _ => simp at h
              | [_, _, _], h, _ => simp at h
            · simp only [hu, if_false] at h ⊢
              cases hesc : unescape e with
              | none => simp [hesc] at h
              | some ch =>
                cases hbody : parseStringBody fuel rest2 with
                | none => simp [hesc, hbody] at h
                | some p =>
                  obtain ⟨s2, after2⟩ := p
                  simp only [hesc, hbody, Option.some.injEq, Prod.mk.injEq] at h
                  obtain ⟨h1, h2⟩ := h
                  subst h1 h2
                  obtain ⟨hx, hl⟩ := ih rest2 s2 after2 t k (by omega) hbody
                  rw [hx]
                  exact ⟨rfl, by omega⟩
        · simp only [hb, if_false] at h ⊢
          by_cases hctl : c.toNat < 32
          · simp [hctl] at h
          · simp only [hctl, if_false] at h ⊢
            cases hbody : parseStringBody fuel rest with
            | none => simp [hbody] at h
            | some p =>
              obtain ⟨s2, after2⟩ := p
              simp only [hbody, Option.some.injEq, Prod.mk.injEq] at h
              obtain ⟨h1, h2⟩ := h
              subst h1 h2
              obtain ⟨hx, hl⟩ := ih rest s2 after2 t k (by omega) hbody
              rw [hx]
              exact ⟨rfl, by omega⟩

theorem parseLiteral_append (lit : List Char) (v w : JSON) (cs rest t : List Char)
    (h : parseLiteral lit v cs = some (w, rest)) :
    parseLiteral lit v (cs ++ t) = some (w, rest ++ t) ∧ rest.length ≤ cs.length := by
  unfold parseLiteral at h ⊢
  by_cases hp : Exclusion.hasPrefixChars cs lit = true
  · obtain ⟨after, hafter⟩ := (Exclusion.hasPrefixChars_eq_true_iff _ _).1 hp
    have hp2 : Exclusion.hasPrefixChars (cs ++ t) lit = true :=
      (Exclusion.hasPrefixChars_eq_true_iff _ _).2
        ⟨after ++ t, by rw [hafter, List.append_assoc]⟩
    simp only [hp, hp2, if_true, Option.some.injEq, Prod.mk.injEq] at h ⊢
    obtain ⟨h1, h2⟩ := h
    refine ⟨⟨h1, ?_⟩, ?_⟩
    · rw [← h2, hafter, List.append_assoc, List.drop_left, List.drop_left]
    · rw [← h2]
      simp
  · simp [hp] at h

theorem parseValue_none_of_blank (fuel : Nat) (cs : List Char)
    (h : cs.dropWhile isSpaceChar = []) : parseValue fuel cs = none := by
  cases fuel with
  | zero => simp [parseValue]
  | succ fuel =>
    unfold parseValue
    rw [h]

theorem parseElems_none_of_blank (fuel : Nat) (cs : List Char)
    (h : cs.dropWhile isSpaceChar = []) : parseElems fuel cs = none := by
  cases fuel with
  | zero => simp [parseElems]
  | succ fuel =>
    unfold parseElems
    rw [parseValue_none_of_blank fuel cs h]

theorem parse_append (fuel : Nat) :
    (∀ (cs rest t : List Char) (v : JSON) (fuel2 : Nat), 2 * cs.length ≤ fuel2 →
      parseValue fuel cs = some (v, rest) → (∀ text, v = .number text → rest ≠ []) →
      parseValue fuel2 (cs ++ t) = some (v, rest ++ t) ∧ rest.length ≤ cs.length) ∧
    (∀ (cs rest t : List Char) (vs : List JSON) (fuel2 : Nat), 2 * cs.length + 1 ≤ fuel2 →
      parseElems fuel cs = some (vs, rest) →
      parseElems fuel2 (cs ++ t) = some (vs, rest ++ t) ∧ rest.length ≤ cs.length) ∧
    (∀ (cs rest t : List Char) (ms : List (String × JSON)) (fuel2 : Nat),
      2 * cs.length + 1 ≤ fuel2 → parseMembers fuel cs = some (ms, rest) →
      parseMembers fuel2 (cs ++ t) = some (ms, rest ++ t) ∧ rest.length ≤ cs.length) := by
  induction fuel with
  | zero =>
    refine ⟨?_, ?_, ?_⟩
    · intro cs rest t v fuel2 _ h
      simp [parseValue] at h
    · intro cs rest t vs fuel2 _ h
      simp [parseElems] at h
    · intro cs rest t ms fuel2 _ h
      simp [parseMembers] at h
  | succ fuel ih =>
    obtain ⟨ihValue, ihElems, ihMembers⟩ := ih
    refine ⟨?_, ?_, ?_⟩
    · intro cs rest t v fuel2 hle h hnum
      unfold parseValue at h
      cases hdrop : cs.dropWhile isSpaceChar with
      | nil => simp [hdrop] at h
      | cons c rest0 =>
        have hcs := length_of_dropWhile_eq_cons cs c rest0 hdrop
        obtain ⟨k, rfl⟩ : ∃ k, fuel2 = k + 1 := ⟨fuel2 - 1, by omega⟩
        unfold parseValue
        rw [dropWhile_append_of_ne_nil cs t c rest0 hdrop]
        rw [hdrop] at h
        simp only [] at h ⊢
        by_cases hq : c = quoteChar
        · simp only [hq, if_true] at h ⊢
          cases hbody : parseStringBody fuel rest0 with
          | none => simp [hbody] at h
          | some p =>
            obtain ⟨s2, after2⟩ := p
            simp only [hbody, Option.some.injEq, Prod.mk.injEq] at h
            obtain ⟨h1, h2⟩ := h
            subst h1 h2
            obtain ⟨hx, hl⟩ := parseStringBody_append fuel rest0 s2 after2 t k (by omega) hbody
            rw [hx]
            exact ⟨rfl, by omega⟩
        · simp only [hq, if_false] at h ⊢
          by_cases hbr : c = '['
          · simp only [hbr, if_true] at h ⊢
            cases hd2 : rest0.dropWhile isSpaceChar with
            | nil =>
              rw [hd2] at h
              simp only [parseElems_none_of_blank fuel rest0 hd2] at h
              cases h
            | cons d r =>
              have hr := length_of_dropWhile_eq_cons rest0 d r hd2
              rw [dropWhile_append_of_ne_nil rest0 t d r hd2]
              rw [hd2] at h
              by_cases hd : d = ']'
              · subst hd
                simp only [Option.some.injEq, Prod.mk.injEq] at h ⊢
                obtain ⟨h1, h2⟩ := h
                subst h1 h2
                exact ⟨⟨rfl, rfl⟩, by omega⟩
              · split at h
                · rename_i heq
                  cases heq
                  exact absurd rfl hd
                · split
                  · rename_i heq
                    cases heq
                    exact absurd rfl hd
                  · cases helems : parseElems fuel rest0 with
                    | none => simp [helems] at h
                    | some p =>
                      obtain ⟨vs, after2⟩ := p
                      simp only [helems, Option.some.injEq, Prod.mk.injEq] at h
                      obtain ⟨h1, h2⟩ := h
                      subst h1 h2
                      obtain ⟨hx, hl⟩ := ihElems rest0 after2 t vs k (by omega) helems
                      rw [hx]
                      exact ⟨rfl, by omega⟩
          · simp only [hbr, if_false] at h ⊢
            by_cases hbrace : c = leftBrace
            · simp only [hbrace, if_true] at h ⊢
              cases hd2 : rest0.dropWhile isSpaceChar with
              | nil => simp [hd2] at h
              | cons d r =>
                have hr := length_of_dropWhile_eq_cons rest0 d r hd2
                rw [dropWhile_append_of_ne_nil rest0 t d r hd2]
                rw [hd2] at h
                simp only [] at h ⊢
                by_cases hd : d = rightBrace
                · simp only [hd, if_true, Option.some.injEq, Prod.mk.injEq] at h ⊢
                  obtain ⟨h1, h2⟩ := h
                  subst h1 h2
                  exact ⟨⟨rfl, rfl⟩, by omega⟩
                · simp only [hd, if_false] at h ⊢
                  cases hmembers : parseMembers fuel rest0 with
                  | none => simp [hmembers] at h
                  | some p =>
                    obtain ⟨ms, after2⟩ := p
                    simp only [hmembers, Option.some.injEq, Prod.mk.injEq] at h
                    obtain ⟨h1, h2⟩ := h
                    subst h1 h2
                    obtain ⟨hx, hl⟩ := ihMembers rest0 after2 t ms k (by omega) hmembers
                    rw [hx]
                    exact ⟨rfl, by omega⟩
            · simp only [hbrace, if_false] at h ⊢
              by_cases hn : c = 'n'
              · simp only [hn, if_true] at h ⊢
                obtain ⟨hx, hl⟩ := parseLiteral_append _ _ _ _ _ t h
                exact ⟨hx, by simp only [List.length_cons] at hl; omega⟩
              · simp only [hn, if_false] at h ⊢
                by_cases ht : c = 't'
                · simp only [ht, if_true] at h ⊢
                  obtain ⟨hx, hl⟩ := parseLiteral_append _ _ _ _ _ t h
                  exact ⟨hx, by simp only [List.length_cons] at hl; omega⟩
                · simp only [ht, if_false] at h ⊢
                  by_cases hf : c = 'f'
                  · simp only [hf, if_true] at h ⊢
                    obtain ⟨hx, hl⟩ := parseLiteral_append _ _ _ _ _ t h
                    exact ⟨hx, by simp only [List.length_cons] at hl; omega⟩
                  · simp only [hf, if_false] at h ⊢
                    by_cases hvalid : validNumber ((c :: rest0).takeWhile isNumberChar) = true
                    · simp only [hvalid, if_true, Option.some.injEq, Prod.mk.injEq] at h
                      obtain ⟨h1, h2⟩ := h
                      have hne : (c :: rest0).dropWhile isNumberChar ≠ [] := by
                        rw [h2]
                        exact hnum _ h1.symm
                      obtain ⟨e1, e2⟩ :=
                        takeWhile_append_of_dropWhile_ne_nil (c :: rest0) t hne
                      have hsuffix :=
                        (List.dropWhile_suffix (l := c :: rest0) isNumberChar).length_le
                      rw [h2] at hsuffix
                      simp only [List.length_cons] at hsuffix
                      rw [← List.cons_append, e1, e2]
                      simp only [hvalid, if_true, Option.some.injEq, Prod.mk.injEq]
                      exact ⟨⟨h1, by rw [h2]⟩, by omega⟩
                    · simp [hvalid] at h
    · intro cs rest t vs fuel2 hle h
      obtain ⟨k, rfl⟩ : ∃ k, fuel2 = k + 1 := ⟨fuel2 - 1, by omega⟩
      unfold parseElems at h ⊢
      cases hvalue : parseValue fuel cs with
      | none => simp [hvalue] at h
      | some p =>
        obtain ⟨v, rest1⟩ := p
        rw [hvalue] at h
        simp only [] at h
        cases hd1 : rest1.dropWhile isSpaceChar with
        | nil => simp [hd1] at h
        | cons d r =>
          have hr := length_of_dropWhile_eq_cons rest1 d r hd1
          have hne : rest1 ≠ [] := by
            intro hnil
            rw [hnil] at hd1
            cases hd1
          obtain ⟨hx1, hl1⟩ := ihValue cs rest1 t v k (by omega) hvalue (fun _ _ => hne)
          rw [hx1]
          simp only []
          rw [dropWhile_append_of_ne_nil rest1 t d r hd1]
          rw [hd1] at h
          by_cases hcomma : d = ','
          · subst hcomma
            simp only [] at h ⊢
            cases helems : parseElems fuel r with
            | none => simp [helems] at h
            | some q =>
              obtain ⟨vs2, after2⟩ := q
              simp only [helems, Option.some.injEq, Prod.mk.injEq] at h
              obtain ⟨h1, h2⟩ := h
              subst h1 h2
              obtain ⟨hx, hl⟩ := ihElems r after2 t vs2 k (by omega) helems
              rw [hx]
              exact ⟨rfl, by omega⟩
          · by_cases hclose : d = ']'
            · subst hclose
              simp only [Option.some.injEq, Prod.mk.injEq] at h ⊢
              obtain ⟨h1, h2⟩ := h
              subst h1 h2
              exact ⟨⟨rfl, rfl⟩, by omega⟩
            · exfalso
              split at h
              · rename_i heq
                cases heq
                exact hcomma rfl
              · rename_i heq
                cases heq
                exact hclose rfl
              · cases h
    · intro cs rest t ms fuel2 hle h
      obtain ⟨k, rfl⟩ : ∃ k, fuel2 = k + 1 := ⟨fuel2 - 1, by omega⟩
      unfold parseMembers at h ⊢
      cases hdrop : cs.dropWhile isSpaceChar with
      | nil => simp [hdrop] at h
      | cons c rest0 =>
        have hcs := length_of_dropWhile_eq_cons cs c rest0 hdrop
        rw [dropWhile_append_of_ne_nil cs t c rest0 hdrop]
        rw [hdrop] at h
        simp only [] at h ⊢
        by_cases hq : c = quoteChar
        · simp only [hq, if_true] at h ⊢
          cases hbody : parseStringBody fuel rest0 with
          | none => simp [hbody] at h
          | some p =>
            obtain ⟨key, rest2⟩ := p
            obtain ⟨hxs, hls⟩ := parseStringBody_append fuel rest0 key rest2 t k (by omega) hbody
            rw [hxs]
            rw [hbody] at h
            simp only [] at h ⊢
            cases hd2 : rest2.dropWhile isSpaceChar with
            | nil => simp [hd2] at h
            | cons d r =>
              have hr := length_of_dropWhile_eq_cons rest2 d r hd2
              rw [dropWhile_append_of_ne_nil rest2 t d r hd2]
              rw [hd2] at h
              by_cases hcolon : d = ':'
              · subst hcolon
                simp only [] at h ⊢
                cases hvalue : parseValue fuel r with
                | none => simp [hvalue] at h
                | some q =>
                  obtain ⟨v, rest4⟩ := q
                  rw [hvalue] at h
                  simp only [] at h
                  cases hd4 : rest4.dropWhile isSpaceChar with
                  | nil => simp [hd4] at h
                  | cons c4 rest5 =>
                    have hr5 := length_of_dropWhile_eq_cons rest4 c4 rest5 hd4
                    have hne : rest4 ≠ [] := by
                      intro hnil
                      rw [hnil] at hd4
                      cases hd4
                    obtain ⟨hxv, hlv⟩ :=
                      ihValue r rest4 t v k (by omega) hvalue (fun _ _ => hne)
                    rw [hxv]
                    simp only []
                    rw [dropWhile_append_of_ne_nil rest4 t c4 rest5 hd4]
                    rw [hd4] at h
                    simp only [] at h ⊢
                    by_cases hcomma : c4 = ','
                    · simp only [hcomma, if_true] at h ⊢
                      cases hmembers : parseMembers fuel rest5 with
                      | none => simp [hmembers] at h
                      | some q2 =>
                        obtain ⟨ms2, after2⟩ := q2
                        simp only [hmembers, Option.some.injEq, Prod.mk.injEq] at h
                        obtain ⟨h1, h2⟩ := h
                        subst h1 h2
                        obtain ⟨hx, hl⟩ := ihMembers rest5 after2 t ms2 k (by omega) hmembers
                        rw [hx]
                        exact ⟨rfl, by omega⟩
                    · simp only [hcomma, if_false] at h ⊢
                      by_cases hclose : c4 = rightBrace
                      · simp only [hclose, if_true, Option.some.injEq, Prod.mk.injEq] at h ⊢
                        obtain ⟨h1, h2⟩ := h
                        subst h1 h2
                        exact ⟨⟨rfl, rfl⟩, by omega⟩
                      · simp [hclose] at h
              · exfalso
                split at h
                · rename_i heq
                  cases heq
                  exact hcolon rfl
                · cases h
        · simp [hq] at h

theorem dropWhile_append_of_all {p : Char → Bool} (cs t : List Char)
    (h : cs.dropWhile p = []) : (cs ++ t).dropWhile p = t.dropWhile p := by
  induction cs with
  | nil => rfl
  | cons a as ih =>
    by_cases ha : p a = true
    · rw [List.dropWhile_cons_of_pos ha] at h
      rw [List.cons_append, List.dropWhile_cons_of_pos ha]
      exact ih h
    · rw [List.dropWhile_cons_of_neg ha] at h
      cases h

theorem dropWhile_dropWhile {p : Char → Bool} (cs : List Char) :
    (cs.dropWhile p).dropWhile p = cs.dropWhile p := by
  induction cs with
  | nil => rfl
  | cons a as ih =>
    by_cases ha : p a = true
    · rw [List.dropWhile_cons_of_pos ha]
      exact ih
    · rw [List.dropWhile_cons_of_neg ha, List.dropWhile_cons_of_neg ha]

theorem head_of_dropWhile_eq_cons {p : Char → Bool} (cs : List Char) (c : Char)
    (rest : List Char) (h : cs.dropWhile p = c :: rest) : ¬ p c = true := by
  induction cs with
  | nil => simp at h
  | cons a as ih =>
    by_cases ha : p a = true
    · rw [List.dropWhile_cons_of_pos ha] at h
      exact ih h
    · rw [List.dropWhile_cons_of_neg ha] at h
      cases h
      exact ha

theorem parseValue_dropWhile (fuel : Nat) (cs : List Char) :
    parseValue fuel (cs.dropWhile isSpaceChar) = parseValue fuel cs := by
  cases fuel with
  | zero => simp [parseValue]
  | succ fuel =>
    unfold parseValue
    rw [dropWhile_dropWhile]

theorem parseValue_array_first (fuel : Nat) (cs rest : List Char) (elems : List JSON)
    (h : parseValue fuel cs = some (.array elems, rest)) :
    ∃ body, cs.dropWhile isSpaceChar = '[' :: body := by
  cases hdrop : cs.dropWhile isSpaceChar with
  | nil =>
    rw [parseValue_none_of_blank fuel cs hdrop] at h
    cases h
  | cons c rest0 =>
    have hspace := head_of_dropWhile_eq_cons cs c rest0 hdrop
    rw [← parseValue_dropWhile, hdrop] at h
    by_cases hbr : c = '['
    · exact ⟨rest0, by rw [hbr]⟩
    · exfalso
      by_cases hn : c = 'n'
      · subst hn
        cases fuel with
        | zero => simp [parseValue] at h
        | succ fuel =>
          unfold parseValue at h
          rw [List.dropWhile_cons_of_neg (by decide)] at h
          have h1 : ('n' : Char) ≠ quoteChar := by decide
          have h2 : ('n' : Char) ≠ '[' := by decide
          have h3 : ('n' : Char) ≠ leftBrace := by decide
          simp only [h1, h2, h3, if_false, if_true] at h
          unfold parseLiteral at h
          split at h
          · cases h
          · cases h
      · exact (parseValue_first_char fuel c rest0 hspace hbr hn _ _ h).2 elems rfl

theorem decode_array_then_text (array s : String) (elems : List JSON) (tail : List Char)
    (harray : decode array = .ok (.array elems))
    (hs : s.data = array.data.dropWhile isSpaceChar ++ tail)
    (htail : tail.dropWhile isSpaceChar ≠ []) :
    decode s = .error "invalid character after top-level value" := by
  unfold decode at harray
  cases hparse : parseValue (2 * array.length + 2) array.data with
  | none =>
    rw [hparse] at harray
    cases harray
  | some p =>
    obtain ⟨v, rest0⟩ := p
    rw [hparse] at harray
    by_cases hblank : (rest0.dropWhile isSpaceChar).isEmpty = true
    · simp only [hblank, if_true, Except.ok.injEq] at harray
      subst harray
      have hnil : rest0.dropWhile isSpaceChar = [] := List.isEmpty_iff.1 hblank
      rw [← parseValue_dropWhile] at hparse
      have hlen : 2 * (array.data.dropWhile isSpaceChar).length ≤ 2 * s.length + 2 := by
        have hdata : s.length = s.data.length := rfl
        rw [hdata, hs, List.length_append]
        omega
      obtain ⟨hx, _⟩ := (parse_append (2 * array.length + 2)).1
        (array.data.dropWhile isSpaceChar) rest0 tail (.array elems) (2 * s.length + 2) hlen
        hparse (fun text hv => by cases hv)
      unfold decode
      rw [hs, hx]
      have hrest : ((rest0 ++ tail).dropWhile isSpaceChar).isEmpty = false := by
        rw [dropWhile_append_of_all rest0 tail hnil]
        cases hd : tail.dropWhile isSpaceChar with
        | nil => exact absurd hd htail
        | cons a as => rfl
      simp [hrest]
    · simp [hblank] at harray

theorem decode_array_first (array : String) (elems : List JSON)
    (h : decode array = .ok (.array elems)) :
    ∃ body, array.data.dropWhile isSpaceChar = '[' :: body := by
  unfold decode at h
  cases hparse : parseValue (2 * array.length + 2) array.data with
  | none =>
    rw [hparse] at h
    cases h
  | some p =>
    obtain ⟨v, rest0⟩ := p
    rw [hparse] at h
    by_cases hblank : (rest0.dropWhile isSpaceChar).isEmpty = true
    · simp only [hblank, if_true, Except.ok.injEq] at h
      subst h
      exact parseValue_array_first _ _ _ _ hparse
    · simp [hblank] at h

end JSON

/-! ## Theorems on the enrichment stage: prose around the array -/

namespace Llm

open Config

theorem isSpace_of_isSpaceChar (c : Char) (h : JSON.isSpaceChar c = true) :
    isSpace c = true := by
  simp only [JSON.isSpaceChar, Bool.or_eq_true, decide_eq_true_eq] at h
  rcases h with ((rfl | rfl) | rfl) | rfl <;> decide

theorem trimSpaceChars_no_trailing_space (cs before ws : List Char)
    (htrim : trimSpaceChars cs = before ++ ws) (hws : ∀ c ∈ ws, isSpace c = true) :
    ws = [] := by
  rcases List.eq_nil_or_concat ws with hnil | ⟨front, x, hconcat⟩
  · exact hnil
  · exfalso
    have hx : isSpace x = true := hws x (by simp [hconcat, List.concat_eq_append])
    have hself : (before ++ ws).rdropWhile isSpace = before ++ ws := by
      rw [← htrim]
      exact List.rdropWhile_idempotent isSpace _
    have hassoc : before ++ ws = (before ++ front) ++ [x] := by
      rw [hconcat, List.concat_eq_append, List.append_assoc]
    rw [hassoc, List.rdropWhile_concat_pos _ _ _ hx] at hself
    have hlen := (List.rdropWhile_prefix (p := isSpace) (l := before ++ front)).length_le
    rw [hself] at hlen
    simp at hlen

theorem unmarshalMaps_plain_first_char (s : String) (c : Char) (rest : List Char)
    (hdata : s.data = c :: rest) (hspace : ¬ isSpace c = true)
    (htrail : ∀ before ws : List Char, s.data = before ++ ws →
      (∀ x ∈ ws, isSpace x = true) → ws = [])
    (hbracket : c ≠ '[') (hnotnull : s ≠ "null") :
    ∃ err, unmarshalMaps plainStdlib s = .error err := by
  have hjson : ¬ JSON.isSpaceChar c = true := fun h => hspace (isSpace_of_isSpaceChar c h)
  have hdecode : plainStdlib.decodeJSON s = JSON.unmarshalValue s := rfl
  by_cases hn : c = 'n'
  · subst hn
    rcases JSON.decode_first_char_n s rest hdata with ⟨err, herr⟩ | ⟨_, ws, hws, hall⟩
    · exact ⟨err, by
        unfold unmarshalMaps
        rw [hdecode, JSON.unmarshalValue_of_decode_error s err herr]⟩
    · exfalso
      have hnil : ws = [] :=
        htrail "null".data ws hws (fun x hx => isSpace_of_isSpaceChar x (hall x hx))
      rw [hnil, List.append_nil] at hws
      exact hnotnull (String.ext hws)
  · rcases JSON.decode_first_char s c rest hdata hjson hbracket hn with
      ⟨err, herr⟩ | ⟨v, hv, hnull, harray⟩
    · exact ⟨err, by
        unfold unmarshalMaps
        rw [hdecode, JSON.unmarshalValue_of_decode_error s err herr]⟩
    · rcases JSON.unmarshalValue_of_decode_ok s v hv with ⟨err, herr⟩ | hok
      · exact ⟨err, by unfold unmarshalMaps; rw [hdecode, herr]⟩
      · cases v with
        | null => exact absurd rfl hnull
        | array elems => exact absurd rfl (harray elems)
        | bool b => exact ⟨_, by unfold unmarshalMaps; rw [hdecode, hok]⟩
        | number text => exact ⟨_, by unfold unmarshalMaps; rw [hdecode, hok]⟩
        | string t => exact ⟨_, by unfold unmarshalMaps; rw [hdecode, hok]⟩
        | object members => exact ⟨_, by unfold unmarshalMaps; rw [hdecode, hok]⟩

theorem parseResponse_of_unmarshal_error (lib : Stdlib) (response err : String)
    (hnofence : findFence (trimSpace response) = none)
    (hempty : trimSpace response ≠ "") (harray : trimSpace response ≠ "[]")
    (hreject : unmarshalMaps lib (trimSpace response) = .error err) :
    parseResponse lib response = .error (.unmarshal err) := by
  unfold parseResponse
  simp only [hnofence, trimSpace_idempotent, hempty, harray, or_self, if_false, hreject]

theorem unmarshalMaps_of_decoder (lib : Stdlib)
    (hdecoder : ∀ text, lib.decodeJSON text = JSON.unmarshalValue text) (s : String) :
    unmarshalMaps lib s = unmarshalMaps plainStdlib s := by
  unfold unmarshalMaps
  rw [hdecoder]
  rfl

theorem dropWhile_isSpace_of_json (cs : List Char) (c : Char) (body : List Char)
    (h : cs.dropWhile JSON.isSpaceChar = c :: body) (hc : ¬ isSpace c = true) :
    cs.dropWhile isSpace = c :: body := by
  induction cs with
  | nil => simp at h
  | cons a as ih =>
    by_cases ha : JSON.isSpaceChar a = true
    · rw [List.dropWhile_cons_of_pos ha] at h
      rw [List.dropWhile_cons_of_pos (isSpace_of_isSpaceChar a ha)]
      exact ih h
    · rw [List.dropWhile_cons_of_neg ha] at h
      cases h
      rw [List.dropWhile_cons_of_neg hc]

theorem rdropWhile_append_of_ne_nil (p : Char → Bool) (xs ys : List Char)
    (h : ys.rdropWhile p ≠ []) : (xs ++ ys).rdropWhile p = xs ++ ys.rdropWhile p := by
  unfold List.rdropWhile at h ⊢
  have hne : ys.reverse.dropWhile p ≠ [] := by
    intro hnil
    rw [hnil] at h
    exact h rfl
  rw [List.reverse_append,
    (JSON.takeWhile_append_of_dropWhile_ne_nil ys.reverse xs.reverse hne).2,
    List.reverse_append, List.reverse_reverse]

theorem mem_dropWhile_of_not (p : Char → Bool) (cs : List Char) (c : Char) (hc : c ∈ cs)
    (hp : ¬ p c = true) : c ∈ cs.dropWhile p := by
  induction cs with
  | nil => cases hc
  | cons a as ih =>
    by_cases ha : p a = true
    · rw [List.dropWhile_cons_of_pos ha]
      rcases List.mem_cons.1 hc with h | h
      · subst h
        exact absurd ha hp
      · exact ih h
    · rw [List.dropWhile_cons_of_neg ha]
      exact hc

theorem mem_rdropWhile_of_not (p : Char → Bool) (cs : List Char) (c : Char) (hc : c ∈ cs)
    (hp : ¬ p c = true) : c ∈ cs.rdropWhile p := by
  unfold List.rdropWhile
  rw [List.mem_reverse]
  exact mem_dropWhile_of_not p cs.reverse c (List.mem_reverse.2 hc) hp

theorem mem_trimSpaceChars (cs : List Char) (c : Char) (hc : c ∈ cs)
    (hp : ¬ isSpace c = true) : c ∈ trimSpaceChars cs := by
  unfold trimSpaceChars
  exact mem_rdropWhile_of_not isSpace _ c (mem_dropWhile_of_not isSpace cs c hc hp) hp

theorem trimSpace_data (s : String) : (trimSpace s).data = trimSpaceChars s.data := rfl

theorem trimSpace_array_then_text (before array after : String) (body : List Char)
    (hbefore : ∀ c ∈ before.data, isSpace c = true)
    (hfirst : array.data.dropWhile JSON.isSpaceChar = '[' :: body)
    (hafter : ∃ c ∈ after.data, ¬ isSpace c = true) :
    (trimSpace (before ++ array ++ after)).data =
      array.data.dropWhile JSON.isSpaceChar ++ after.data.rdropWhile isSpace ∧
    (after.data.rdropWhile isSpace).dropWhile JSON.isSpaceChar ≠ [] := by
  obtain ⟨c, hc, hcspace⟩ := hafter
  have hmem : c ∈ after.data.rdropWhile isSpace :=
    mem_rdropWhile_of_not isSpace after.data c hc hcspace
  have hne : after.data.rdropWhile isSpace ≠ [] := by
    intro hnil
    rw [hnil] at hmem
    cases hmem
  refine ⟨?_, ?_⟩
  · have hblank : before.data.dropWhile isSpace = [] := List.dropWhile_eq_nil_iff.2 hbefore
    have hopen : ¬ isSpace '[' = true := by decide
    have hspace := dropWhile_isSpace_of_json array.data '[' body hfirst hopen
    rw [trimSpace_data]
    simp only [String.data_append, List.append_assoc]
    unfold trimSpaceChars
    rw [JSON.dropWhile_append_of_all before.data _ hblank,
      JSON.dropWhile_append_of_ne_nil array.data after.data '[' body hspace,
      ← List.cons_append, rdropWhile_append_of_ne_nil isSpace _ _ hne, hfirst]
  · intro hnil
    have hmem2 : c ∈ (after.data.rdropWhile isSpace).dropWhile JSON.isSpaceChar :=
      mem_dropWhile_of_not JSON.isSpaceChar _ c hmem
        (fun h => hcspace (isSpace_of_isSpaceChar c h))
    rw [hnil] at hmem2
    cases hmem2

theorem trimSpace_prose_first (before rest : String) (c : Char) (tail : List Char)
    (hfirst : before.data.dropWhile isSpace = c :: tail) :
    ¬ isSpace c = true ∧
      ∃ tail2, (trimSpace (before ++ rest)).data = c :: tail2 := by
  have hc : ¬ isSpace c = true := JSON.head_of_dropWhile_eq_cons before.data c tail hfirst
  refine ⟨hc, (tail ++ rest.data).rdropWhile isSpace, ?_⟩
  rw [trimSpace_data]
  simp only [String.data_append]
  unfold trimSpaceChars
  rw [JSON.dropWhile_append_of_ne_nil before.data rest.data c tail hfirst,
    rdropWhile_cons_of_neg isSpace c _ hc]

/-- Counterexample to C19: a valid JSON array of one object with prose before it and after
it, the prose holding the marks of a fenced block; `parseResponse` returns the record of the
array and no error. And a valid JSON array between two texts of which the first starts with
an opening square bracket, the whole being the text of an array of one object:
`parseResponse` returns the record of the whole and no error. -/
theorem parseResponse_prose_around_fence_counterexample :
    "Here is the analysis:\n```json\n[\x7b\"Title\": \"Suspicious Activity\"\x7d]\n```\nThank you." =
      "Here is the analysis:\n```json\n" ++ "[\x7b\"Title\": \"Suspicious Activity\"\x7d]" ++
        "\n```\nThank you." ∧
    JSON.decode "[\x7b\"Title\": \"Suspicious Activity\"\x7d]" =
      .ok (.array [.object [("Title", .string "Suspicious Activity")]]) ∧
    trimSpace "Here is the analysis:\n```json\n" ≠ "" ∧
    trimSpace "\n```\nThank you." ≠ "" ∧
    parseResponse plainStdlib
      "Here is the analysis:\n```json\n[\x7b\"Title\": \"Suspicious Activity\"\x7d]\n```\nThank you." =
      .ok (some [[("Title", "Suspicious Activity")]]) ∧
    "[\x7b\"note\": \"[\x7b\x7d]\"\x7d]" = "[\x7b\"note\": \"" ++ "[\x7b\x7d]" ++ "\"\x7d]" ∧
    JSON.decode "[\x7b\x7d]" = .ok (.array [.object []]) ∧
    trimSpace "[\x7b\"note\": \"" ≠ "" ∧
    findFence (trimSpace "[\x7b\"note\": \"[\x7b\x7d]\"\x7d]") = none ∧
    parseResponse plainStdlib "[\x7b\"note\": \"[\x7b\x7d]\"\x7d]" =
      .ok (some [[("note", "[\x7b\x7d]")]]) :=
  ⟨by decide, rfl, by decide, by decide, rfl, by decide, rfl, by decide, rfl, rfl⟩

/-- C19, amended: a response in whose trimmed text the code-fence expression matches
nowhere, and that consists of the text of a valid JSON array with, before it, prose whose
first character that is not white space is not an opening square bracket, or with nothing
but white space before it and, after it, prose that is not only white space: `parseResponse`
returns the unmarshal error and no records, so nothing is extracted from inside the text.
This holds for every library whose decoder is the one of `encoding/json`. -/
theorem parseResponse_no_partial_extraction (lib : Stdlib) (before array after : String)
    (elems : List JSON)
    (hdecoder : ∀ text, lib.decodeJSON text = JSON.unmarshalValue text)
    (harray : JSON.decode array = .ok (.array elems))
    (hnofence : findFence (trimSpace (before ++ array ++ after)) = none)
    (hprose : (∃ c tail, before.data.dropWhile isSpace = c :: tail ∧ c ≠ '[') ∨
      ((∀ c ∈ before.data, isSpace c = true) ∧ ∃ c ∈ after.data, ¬ isSpace c = true)) :
    ∃ err, parseResponse lib (before ++ array ++ after) = .error (.unmarshal err) := by
  obtain ⟨body, hbody⟩ := JSON.decode_array_first array elems harray
  have hopen : ¬ isSpace '[' = true := by decide
  have hreject : ∃ err, unmarshalMaps lib (trimSpace (before ++ array ++ after)) =
      .error err ∧ trimSpace (before ++ array ++ after) ≠ "" ∧
      trimSpace (before ++ array ++ after) ≠ "[]" := by
    rcases hprose with ⟨c, tail, hfirst, hbracket⟩ | ⟨hbefore, hafter⟩
    · obtain ⟨hc, tail2, hdata⟩ :=
        trimSpace_prose_first before (array ++ after) c tail hfirst
      rw [← String.append_assoc] at hdata
      have hmem : '[' ∈ (trimSpace (before ++ array ++ after)).data := by
        rw [trimSpace_data]
        apply mem_trimSpaceChars _ _ _ hopen
        simp only [String.data_append, List.mem_append]
        left
        right
        have hsuffix := List.dropWhile_suffix (l := array.data) JSON.isSpaceChar
        rw [hbody] at hsuffix
        exact hsuffix.subset (List.mem_cons_self _ _)
      have hnotnull : trimSpace (before ++ array ++ after) ≠ "null" := by
        intro h
        rw [h] at hmem
        revert hmem
        decide
      obtain ⟨err, herr⟩ :=
        unmarshalMaps_plain_first_char (trimSpace (before ++ array ++ after)) c tail2 hdata hc
          (fun pre ws hsplit hws =>
            trimSpaceChars_no_trailing_space (before ++ array ++ after).data pre ws hsplit hws)
          hbracket hnotnull
      refine ⟨err, ?_, ?_, ?_⟩
      · rw [unmarshalMaps_of_decoder lib hdecoder]
        exact herr
      · intro h
        rw [h] at hdata
        cases hdata
      · intro h
        rw [h] at hdata
        cases hdata
        exact hbracket rfl
    · obtain ⟨hdata, htail⟩ :=
        trimSpace_array_then_text before array after body hbefore hbody hafter
      have hdecode := JSON.decode_array_then_text array
        (trimSpace (before ++ array ++ after)) elems _ harray hdata htail
      refine ⟨"invalid character after top-level value", ?_, ?_, ?_⟩
      · unfold unmarshalMaps
        rw [hdecoder, JSON.unmarshalValue_of_decode_error _ _ hdecode]
      · intro h
        rw [h, hbody] at hdata
        cases hdata
      · intro h
        rw [h] at hdecode
        have hok : JSON.decode "[]" = .ok (.array []) := rfl
        rw [hok] at hdecode
        cases hdecode
  obtain ⟨err, herr, hempty, hbrackets⟩ := hreject
  exact ⟨err, parseResponse_of_unmarshal_error lib (before ++ array ++ after) err hnofence
    hempty hbrackets herr⟩

/-- Witness of C19, amended: the response of the test of the repository, prose before and
after an array and no fence; and an array followed by prose only. -/
theorem parseResponse_no_partial_extraction_witness :
    (∃ err, parseResponse plainStdlib
      ("Here is the analysis:\n" ++
        "[\n    \x7b\n        \"Title\": \"Suspicious Activity\"\n    \x7d\n]" ++
        "\nThank you.") = .error (.unmarshal err)) ∧
    (∃ err, parseResponse plainStdlib
      ("  " ++ "[\x7b\"Title\": \"Suspicious Activity\"\x7d]" ++ "\nThank you.") =
        .error (.unmarshal err)) ∧
    parseResponse plainStdlib "  [\x7b\"Title\": \"Suspicious Activity\"\x7d]\nThank you." =
      .error (.unmarshal "invalid character after top-level value") :=
  ⟨parseResponse_no_partial_extraction plainStdlib "Here is the analysis:\n"
      "[\n    \x7b\n        \"Title\": \"Suspicious Activity\"\n    \x7d\n]" "\nThank you."
      [.object [("Title", .string "Suspicious Activity")]] (fun _ => rfl) rfl rfl
      (Or.inl ⟨'H', _, rfl, by decide⟩),
   parseResponse_no_partial_extraction plainStdlib "  "
      "[\x7b\"Title\": \"Suspicious Activity\"\x7d]" "\nThank you."
      [.object [("Title", .string "Suspicious Activity")]] (fun _ => rfl) rfl rfl
      (Or.inr ⟨by decide, 'T', by decide, by decide⟩),
   rfl⟩

end Llm

/-! ## Theorems on the exclusion engine: both lists populated, validated excluders -/

namespace Exclusion

theorem validateCondition_ok_facts (re : Regexp) (cond : Condition)
    (h : validateCondition re cond = .ok ()) :
    cond.Operator ∈ ["equals", "not_equals", "contains", "regex", "in", "not_in"] ∧
    (cond.Operator = "regex" → ∃ m, re.compile cond.Value = .ok m) ∧
    (cond.Operator = "in" ∨ cond.Operator = "not_in" → cond.Values ≠ []) := by
  unfold validateCondition at h
  split at h
  · simp [*]
  · simp [*]
  · simp [*]
  · rename_i hop
    cases hc : re.compile cond.Value with
    | error err => simp [hc] at h
    | ok m => simp [hop]
  · rename_i hop
    by_cases hv : cond.Values = []
    · simp [hv] at h
    · simp [hop, hv]
  · rename_i hop
    by_cases hv : cond.Values = []
    · simp [hv] at h
    · simp [hop, hv]
  · cases h

theorem evaluateConditionReturn_of_valid (re : Regexp) (cond : Condition) (result : Record)
    (hop : cond.Operator ∈ ["equals", "not_equals", "contains", "regex", "in", "not_in"])
    (hregex : cond.Operator = "regex" → ∃ m, re.compile cond.Value = .ok m) :
    evaluateConditionReturn re cond result ≠ .unsupportedOperator ∧
    evaluateConditionReturn re cond result ≠ .regexError := by
  simp only [List.mem_cons, List.mem_singleton, List.not_mem_nil, or_false] at hop
  unfold evaluateConditionReturn
  cases hget : result.get cond.Field with
  | none => simp
  | some value =>
    simp only
    split
    · simp
    · simp
    · simp
    · rename_i hre
      obtain ⟨m, hm⟩ := hregex hre
      simp [Regexp.matchString, hm]
    · simp
    · simp
    · exfalso
      rcases hop with h | h | h | h | h | h <;> simp_all

/-- C26: when the And list of a condition group is not empty, in particular when both lists
are populated, `evaluateConditionGroup` is the result of the And list alone, true exactly
when every And condition is true on the record; it is the same for every Or list. -/
theorem evaluateConditionGroup_and_wins (re : Regexp) (group : ConditionGroup)
    (result : Record) (hand : group.And ≠ []) (_hor : group.Or ≠ []) :
    (evaluateConditionGroup re group result = true ↔
      ∀ cond ∈ group.And, evaluateCondition re cond result = true) ∧
    (∀ other : List Condition,
      evaluateConditionGroup re { group with Or := other } result =
        evaluateConditionGroup re group result) := by
  have hlen : group.And.length > 0 := List.length_pos.2 hand
  constructor
  · simp only [evaluateConditionGroup, hlen, if_true]
    exact evaluateAnd_eq_true_iff re result group.And
  · intro other
    simp only [evaluateConditionGroup, hlen, if_true]

/-- Witness of C26: the And condition fails and the Or condition holds; the group does not
match. -/
theorem evaluateConditionGroup_and_wins_witness :
    evaluateConditionGroup literalRegexp
        ⟨[⟨"username", "equals", "root", []⟩], [⟨"ip_address", "contains", "192.", []⟩]⟩
        [("username", "test"), ("ip_address", "192.168.1.1")] = false ∧
    (evaluateConditionGroup literalRegexp
        ⟨[⟨"username", "equals", "root", []⟩], [⟨"ip_address", "contains", "192.", []⟩]⟩
        [("username", "test"), ("ip_address", "192.168.1.1")] = true ↔
      ∀ cond ∈ [(⟨"username", "equals", "root", []⟩ : Condition)],
        evaluateCondition literalRegexp cond
          [("username", "test"), ("ip_address", "192.168.1.1")] = true) :=
  ⟨by decide,
   (evaluateConditionGroup_and_wins literalRegexp
      ⟨[⟨"username", "equals", "root", []⟩], [⟨"ip_address", "contains", "192.", []⟩]⟩
      [("username", "test"), ("ip_address", "192.168.1.1")] (by decide) (by decide)).1⟩

/-- C30: an Excluder that `NewExcluder` returns holds exactly the decoded rules, and each of
its conditions has one of the six recognised operators, a pattern that compiles when the
operator is `regex`, and a value list that is not empty when the operator is `in` or
`not_in`; evaluating such a condition on any record ends neither at the return of the
unsupported operator nor at the return of the regular-expression error. -/
theorem NewExcluder_conditions_valid (re : Regexp) (rules : List ExclusionRule)
    (e : Excluder) (hok : NewExcluder re rules = .ok e) :
    e.rules = rules ∧
    ∀ rule ∈ e.rules, ∀ cond ∈ rule.Conditions.And ++ rule.Conditions.Or,
      cond.Operator ∈ ["equals", "not_equals", "contains", "regex", "in", "not_in"] ∧
      (cond.Operator = "regex" → ∃ m, re.compile cond.Value = .ok m) ∧
      (cond.Operator = "in" ∨ cond.Operator = "not_in" → cond.Values ≠ []) ∧
      ∀ result : Record,
        evaluateConditionReturn re cond result ≠ .unsupportedOperator ∧
        evaluateConditionReturn re cond result ≠ .regexError := by
  unfold NewExcluder at hok
  cases hv : validateRules re 0 rules with
  | error err => simp [hv] at hok
  | ok u =>
    simp only [hv, Except.ok.injEq] at hok
    subst hok
    refine ⟨rfl, ?_⟩
    intro rule hrule cond hcond
    have hvalid := (validateRules_eq_ok_iff re 0 rules).1 hv rule hrule cond hcond
    obtain ⟨hop, hregex, hvalues⟩ := validateCondition_ok_facts re cond hvalid
    exact ⟨hop, hregex, hvalues,
      fun result => evaluateConditionReturn_of_valid re cond result hop hregex⟩

/-- Witness of C30: a rule list with a `regex` and an `in` condition. -/
theorem NewExcluder_conditions_valid_witness :
    NewExcluder literalRegexp
      [⟨⟨[⟨"url", "regex", "example", []⟩], [⟨"dept", "in", "", ["sales"]⟩]⟩⟩] =
      .ok ⟨[⟨⟨[⟨"url", "regex", "example", []⟩], [⟨"dept", "in", "", ["sales"]⟩]⟩⟩]⟩ ∧
    (Excluder.mk [⟨⟨[⟨"url", "regex", "example", []⟩], [⟨"dept", "in", "", ["sales"]⟩]⟩⟩]).rules =
      [⟨⟨[⟨"url", "regex", "example", []⟩], [⟨"dept", "in", "", ["sales"]⟩]⟩⟩] :=
  ⟨rfl,
   (NewExcluder_conditions_valid literalRegexp
      [⟨⟨[⟨"url", "regex", "example", []⟩], [⟨"dept", "in", "", ["sales"]⟩]⟩⟩]
      ⟨[⟨⟨[⟨"url", "regex", "example", []⟩], [⟨"dept", "in", "", ["sales"]⟩]⟩⟩]⟩ rfl).1⟩

end Exclusion

/-! ## Theorems on the signal builder: when the build succeeds -/

namespace Signal

open Config

theorem setOutputField_result (lib : Stdlib) (result : Record) (signal : Signal lib.Time)
    (f : OutputField) (value : String) (hpresent : result.get f.Source = some value)
    (htarget : f.Field ∈ ["Timestamp", "ActorUserName", "ActorUserUID", "ResourceName",
      "ResourceType", "ResourceUID", "SrcHostname", "SrcIP", "DstHostname", "DstIP", "Message",
      "EventID", "EventIndex", "RuleSpecificData"]) :
    ((∃ signal2, setOutputField lib result signal f = .ok signal2) ↔
      (f.Field = "Timestamp" → ∃ t, lib.parseRFC3339 value = .ok t)) ∧
    (∀ err, setOutputField lib result signal f = .error err →
      f.Field = "Timestamp" ∧ ∃ perr, lib.parseRFC3339 value = .error perr ∧
        err = .timestampParse perr) := by
  simp only [List.mem_cons, List.mem_singleton, List.not_mem_nil, or_false] at htarget
  unfold setOutputField
  simp only [hpresent]
  split
  case h_1 heq =>
    cases hparse : lib.parseRFC3339 value with
    | error perr => simp [heq]
    | ok t => simp [heq]
  case h_14 heq =>
    cases hrsd : unmarshalMap lib value with
    | error e => simp [heq]
    | ok rsd => simp [heq]
  case h_15 =>
    exfalso
    rcases htarget with h | h | h | h | h | h | h | h | h | h | h | h | h | h <;> simp_all
  all_goals (rename_i heq; simp [heq])

theorem mapOutputFields_result (lib : Stdlib) (result : Record) (signal : Signal lib.Time)
    (fields : List OutputField)
    (hsources : ∀ f ∈ fields, ∃ value, result.get f.Source = some value)
    (htargets : ∀ f ∈ fields, f.Field ∈ ["Timestamp", "ActorUserName", "ActorUserUID",
      "ResourceName", "ResourceType", "ResourceUID", "SrcHostname", "SrcIP", "DstHostname",
      "DstIP", "Message", "EventID", "EventIndex", "RuleSpecificData"]) :
    ((∃ sig, mapOutputFields lib result signal fields = .ok sig) ↔
      ∀ f ∈ fields, f.Field = "Timestamp" →
        ∀ value, result.get f.Source = some value → ∃ t, lib.parseRFC3339 value = .ok t) ∧
    (∀ err, mapOutputFields lib result signal fields = .error err →
      ∃ perr, err = .timestampParse perr) := by
  induction fields generalizing signal with
  | nil => simp [mapOutputFields]
  | cons f rest ih =>
    obtain ⟨value, hvalue⟩ := hsources f (List.mem_cons_self _ _)
    have hstep := setOutputField_result lib result signal f value hvalue
      (htargets f (List.mem_cons_self _ _))
    have hrest := fun s => ih s (fun g hg => hsources g (List.mem_cons_of_mem _ hg))
      (fun g hg => htargets g (List.mem_cons_of_mem _ hg))
    cases hf : setOutputField lib result signal f with
    | error err =>
      obtain ⟨hts, perr, hperr, herr⟩ := hstep.2 err hf
      constructor
      · simp only [mapOutputFields, hf, reduceCtorEq, exists_false, false_iff, not_forall]
        refine ⟨f, List.mem_cons_self _ _, hts, value, hvalue, ?_⟩
        rw [hperr]
        simp
      · intro e he
        simp only [mapOutputFields, hf, Except.error.injEq] at he
        exact ⟨perr, by rw [← he, herr]⟩
    | ok signal2 =>
      have hok := hstep.1.1 ⟨signal2, hf⟩
      constructor
      · simp only [mapOutputFields, hf, (hrest signal2).1, List.mem_cons, forall_eq_or_imp]
        constructor
        · intro h
          refine ⟨?_, h⟩
          intro hts v hv
          rw [hvalue, Option.some.injEq] at hv
          subst hv
          exact hok hts
        · intro h
          exact h.2
      · intro e he
        simp only [mapOutputFields, hf] at he
        exact (hrest signal2).2 e he

/-- C27: when the record has at least as many keys as there are output fields, every source
is in the record and every target is one of the fourteen recognised names, `BuildSignal`
succeeds exactly when every value mapped to the target `Timestamp` parses as an RFC3339
timestamp; a build that fails does so with the timestamp error, whatever the confidence,
the TTPs and the other values are. -/
theorem BuildSignal_ok_iff_timestamps_parse (lib : Stdlib) (result : Record)
    (cfg : RuleConfig)
    (hlen : ¬ result.len < cfg.Output.Fields.length)
    (hsources : ∀ f ∈ cfg.Output.Fields, ∃ value, result.get f.Source = some value)
    (htargets : ∀ f ∈ cfg.Output.Fields, f.Field ∈ ["Timestamp", "ActorUserName",
      "ActorUserUID", "ResourceName", "ResourceType", "ResourceUID", "SrcHostname", "SrcIP",
      "DstHostname", "DstIP", "Message", "EventID", "EventIndex", "RuleSpecificData"]) :
    ((∃ sig, BuildSignal lib result cfg = .ok sig) ↔
      ∀ f ∈ cfg.Output.Fields, f.Field = "Timestamp" →
        ∀ value, result.get f.Source = some value → ∃ t, lib.parseRFC3339 value = .ok t) ∧
    (∀ err, BuildSignal lib result cfg = .error err → ∃ perr, err = .timestampParse perr) := by
  simp only [BuildSignal, hlen, if_false]
  exact mapOutputFields_result lib result (newSignal lib cfg) cfg.Output.Fields hsources
    htargets

/-- Witness of C27: the timestamp of the test of the repository that does not parse, next to
a `RuleSpecificData` value that is not JSON. -/
theorem BuildSignal_ok_iff_timestamps_parse_witness :
    ((∃ sig, BuildSignal textStdlib [("timestamp", "invalid-timestamp"), ("data", "x: y")]
        (ruleConfig "certain" []
          ⟨"signal", [⟨"Timestamp", "timestamp"⟩, ⟨"RuleSpecificData", "data"⟩]⟩) = .ok sig) ↔
      ∀ f ∈ [(⟨"Timestamp", "timestamp"⟩ : OutputField), ⟨"RuleSpecificData", "data"⟩],
        f.Field = "Timestamp" →
        ∀ value, Record.get [("timestamp", "invalid-timestamp"), ("data", "x: y")] f.Source =
          some value → ∃ t, textStdlib.parseRFC3339 value = .ok t) ∧
    BuildSignal textStdlib [("timestamp", "invalid-timestamp"), ("data", "x: y")]
        (ruleConfig "certain" []
          ⟨"signal", [⟨"Timestamp", "timestamp"⟩, ⟨"RuleSpecificData", "data"⟩]⟩) =
      .error (.timestampParse "cannot parse") :=
  ⟨(BuildSignal_ok_iff_timestamps_parse textStdlib
      [("timestamp", "invalid-timestamp"), ("data", "x: y")]
      (ruleConfig "certain" []
        ⟨"signal", [⟨"Timestamp", "timestamp"⟩, ⟨"RuleSpecificData", "data"⟩]⟩)
      (by decide)
      (by
        intro f hf
        simp only [ruleConfig, List.mem_cons, List.mem_singleton, List.not_mem_nil,
          or_false] at hf
        rcases hf with rfl | rfl <;> exact ⟨_, rfl⟩)
      (by decide)).1, rfl⟩

end Signal

/-! ## Lemmas on the enrichment stage: decoded arrays -/

namespace Llm

open Config

theorem parseResponse_eq_clean (lib : Stdlib) (response : String) :
    parseResponse lib response =
      if cleanResponse response = "[]" ∨ cleanResponse response = "" then .ok none
      else
        match unmarshalMaps lib (cleanResponse response) with
        | .error err => .error (.unmarshal err)
        | .ok rawResults =>
          match convertResults lib 0 rawResults with
          | .error err => .error err
          | .ok results => .ok (some results) := rfl

theorem elementMaps_objects (objects : List (List (String × JSON))) :
    elementMaps (objects.map JSON.object) = some (objects.map JSON.objectMap) := by
  induction objects with
  | nil => rfl
  | cons members rest ih => simp [elementMaps, elementMap, ih]

theorem elementMaps_eq_none_of_mem (elems : List JSON) (e : JSON) (he : e ∈ elems)
    (hnull : e ≠ .null) (hobject : ∀ members, e ≠ .object members) :
    elementMaps elems = none := by
  induction elems with
  | nil => cases he
  | cons v rest ih =>
    rcases List.mem_cons.1 he with h | h
    · subst h
      have hmap : elementMap e = none := by
        cases e with
        | null => exact absurd rfl hnull
        | object members => exact absurd rfl (hobject members)
        | bool b => rfl
        | number text => rfl
        | string s => rfl
        | array elems => rfl
      simp [elementMaps, hmap]
    · simp [elementMaps, ih h]

theorem convertValue_ok (lib : Stdlib) (hmarshal : ∀ v, ∃ text, lib.marshalJSON v = .ok text)
    (v : JSON) : ∃ text, convertValue lib v = .ok text := by
  cases v with
  | null => exact ⟨"", rfl⟩
  | bool b => exact ⟨_, rfl⟩
  | number text => exact ⟨_, rfl⟩
  | string s => exact ⟨s, rfl⟩
  | array elems => exact hmarshal (.array elems)
  | object members => exact hmarshal (.object members)

theorem convertEntries_ok (lib : Stdlib)
    (hmarshal : ∀ v, ∃ text, lib.marshalJSON v = .ok text) (entries : List (String × JSON)) :
    ∃ record, convertEntries lib entries = .ok record ∧
      ∀ key, record.get key =
        match JSON.mapGet entries key with
        | none => none
        | some v => (convertValue lib v).toOption := by
  induction entries with
  | nil => exact ⟨[], rfl, fun key => rfl⟩
  | cons entry rest ih =>
    obtain ⟨k, v⟩ := entry
    obtain ⟨text, htext⟩ := convertValue_ok lib hmarshal v
    obtain ⟨record, hrecord, hget⟩ := ih
    refine ⟨(k, text) :: record, by simp [convertEntries, htext, hrecord], ?_⟩
    intro key
    by_cases hk : k = key
    · simp [Record.get, JSON.mapGet, hk, htext, Except.toOption]
    · simp only [Record.get, JSON.mapGet, hk, if_false]
      exact hget key

theorem mapGet_filter_ne {α : Type} (m : List (String × α)) (k key : String) (hk : k ≠ key) :
    JSON.mapGet (m.filter (fun e => e.1 ≠ k)) key = JSON.mapGet m key := by
  induction m with
  | nil => rfl
  | cons entry rest ih =>
    obtain ⟨k2, v2⟩ := entry
    simp only [ne_eq, decide_not] at ih ⊢
    by_cases h2 : k2 = k
    · subst h2
      simp [List.filter_cons, JSON.mapGet, hk, ih]
    · by_cases h3 : k2 = key
      · subst h3
        simp [List.filter_cons, h2, JSON.mapGet]
      · simp [List.filter_cons, h2, JSON.mapGet, h3, ih]

theorem mapGet_mapEntries {α : Type} (m : List (String × α)) (key : String) :
    JSON.mapGet (JSON.mapEntries m) key = JSON.mapGet m key := by
  induction m with
  | nil => rfl
  | cons entry rest ih =>
    obtain ⟨k, v⟩ := entry
    by_cases hk : k = key
    · simp [JSON.mapEntries, JSON.mapGet, hk]
    · simp only [JSON.mapEntries, JSON.mapGet, hk, if_false]
      rw [mapGet_filter_ne _ k key hk, ih]

theorem convertToMapStringString_ok (lib : Stdlib)
    (hmarshal : ∀ v, ∃ text, lib.marshalJSON v = .ok text) (m : List (String × JSON)) :
    ∃ record, convertToMapStringString lib m = .ok record ∧
      ∀ key, record.get key =
        match JSON.mapGet m key with
        | none => none
        | some v => (convertValue lib v).toOption := by
  obtain ⟨record, hrecord, hget⟩ := convertEntries_ok lib hmarshal (JSON.mapEntries m)
  refine ⟨record, hrecord, ?_⟩
  intro key
  rw [hget key, mapGet_mapEntries]

theorem convertResults_ok (lib : Stdlib)
    (hmarshal : ∀ v, ∃ text, lib.marshalJSON v = .ok text) (i : Nat)
    (rawResults : List (List (String × JSON))) :
    ∃ results, convertResults lib i rawResults = .ok results ∧
      List.Forall₂ (fun m record => ∀ key, record.get key =
        match JSON.mapGet m key with
        | none => none
        | some v => (convertValue lib v).toOption) rawResults results := by
  induction rawResults generalizing i with
  | nil => exact ⟨[], rfl, List.Forall₂.nil⟩
  | cons m rest ih =>
    obtain ⟨record, hrecord, hget⟩ := convertToMapStringString_ok lib hmarshal m
    obtain ⟨results, hresults, hall⟩ := ih (i + 1)
    exact ⟨record :: results, by simp [convertResults, hrecord, hresults],
      List.Forall₂.cons hget hall⟩

end Llm

/-! ## Theorems on the enrichment stage: decoded arrays -/

namespace Llm

open Config

theorem parseResponse_of_decoded_objects (lib : Stdlib) (response : String)
    (objects : List (List (String × JSON)))
    (hmarshal : ∀ v, ∃ text, lib.marshalJSON v = .ok text)
    (hbrackets : lib.decodeJSON "[]" = .ok (.array []))
    (hblank : ∀ v, lib.decodeJSON "" ≠ .ok v)
    (hdecode : lib.decodeJSON (cleanResponse response) = .ok (.array (objects.map JSON.object))) :
    ∃ results : Option (List Record), parseResponse lib response = .ok results ∧
      List.Forall₂ (fun members record => ∀ key, record.get key =
        match JSON.mapGet (JSON.objectMap members) key with
        | none => none
        | some v => (convertValue lib v).toOption) objects (results.getD []) := by
  have hne : cleanResponse response ≠ "" := by
    intro h
    rw [h] at hdecode
    exact hblank _ hdecode
  by_cases hnil : cleanResponse response = "[]"
  · have hobjects : objects = [] := by
      rw [hnil, hbrackets] at hdecode
      simp only [Except.ok.injEq, JSON.array.injEq] at hdecode
      exact List.map_eq_nil_iff.1 hdecode.symm
    refine ⟨none, ?_, ?_⟩
    · rw [parseResponse_eq_clean]
      simp [hnil]
    · rw [hobjects]
      exact List.Forall₂.nil
  · obtain ⟨results, hresults, hall⟩ :=
      convertResults_ok lib hmarshal 0 (objects.map JSON.objectMap)
    refine ⟨some results, ?_, ?_⟩
    · rw [parseResponse_eq_clean]
      simp only [hnil, hne, or_self, if_false, unmarshalMaps, hdecode, elementMaps_objects,
        hresults]
    · exact (List.forall₂_map_left_iff.1 hall)

/-- Counterexample to C21: the cleaned text is a JSON array of one object, whose number is
outside the range of `float64`; `json.Unmarshal` returns a type error, and `parseResponse`
returns an error and no records. -/
theorem parseResponse_number_range_counterexample :
    cleanResponse "[\x7b\"a\": 1e999\x7d]" = "[\x7b\"a\": 1e999\x7d]" ∧
    JSON.decode "[\x7b\"a\": 1e999\x7d]" = .ok (.array [.object [("a", .number "1e999")]]) ∧
    JSON.exceedsFloat64 "1e999".data = true ∧
    parseResponse plainStdlib "[\x7b\"a\": 1e999\x7d]" =
      .error (.unmarshal "json: cannot unmarshal number into Go value of type float64") :=
  ⟨by decide, rfl, rfl, rfl⟩

/-- C21, amended: when the cleaned text of the response is a JSON array of objects that
`encoding/json` admits, every number being within the range of `float64` and the arrays and
objects nested at most ten thousand deep, `parseResponse` returns one record per object, in
array order; a record has a value under exactly the keys of its object, which is
the converted value the object holds under the key: a string as it is, `null` as the empty
string, an array or an object as the text `json.Marshal` writes for it. The conversion of a
map never fails. The decoder is the one of `encoding/json`, and `json.Marshal` is taken to
succeed on decoded values. -/
theorem parseResponse_array_of_objects (lib : Stdlib) (response : String)
    (objects : List (List (String × JSON)))
    (hmarshal : ∀ v, ∃ text, lib.marshalJSON v = .ok text)
    (hdecoder : ∀ text, lib.decodeJSON text = JSON.unmarshalValue text)
    (hvalid : JSON.decode (cleanResponse response) = .ok (.array (objects.map JSON.object)))
    (hfit : JSON.numbersFit (.array (objects.map JSON.object)) = true)
    (hdepth : JSON.nesting (.array (objects.map JSON.object)) ≤ JSON.maxNestingDepth) :
    (∃ results : Option (List Record), parseResponse lib response = .ok results ∧
      List.Forall₂ (fun members record => ∀ key, record.get key =
        match JSON.mapGet (JSON.objectMap members) key with
        | none => none
        | some v => (convertValue lib v).toOption) objects (results.getD [])) ∧
    (∀ s, convertValue lib (.string s) = .ok s) ∧
    convertValue lib .null = .ok "" ∧
    (∀ elems, convertValue lib (.array elems) = lib.marshalJSON (.array elems)) ∧
    (∀ members, convertValue lib (.object members) = lib.marshalJSON (.object members)) ∧
    (∀ v, ∃ text, convertValue lib v = .ok text) ∧
    (∀ m, ∃ record, convertToMapStringString lib m = .ok record) := by
  refine ⟨?_, fun s => rfl, rfl, fun elems => rfl, fun members => rfl,
    convertValue_ok lib hmarshal, ?_⟩
  · apply parseResponse_of_decoded_objects lib response objects hmarshal
    · rw [hdecoder]
      rfl
    · intro v h
      rw [hdecoder] at h
      cases h
    · rw [hdecoder]
      unfold JSON.unmarshalValue
      rw [hvalid]
      simp only [Nat.not_lt.2 hdepth, hfit, if_true, if_false]
  · intro m
    obtain ⟨record, hrecord, _⟩ := convertToMapStringString_ok lib hmarshal m
    exact ⟨record, hrecord⟩

/-- Witness of C21, amended: an array of two objects; the second holds a name twice, an
array and `null`. -/
theorem parseResponse_array_of_objects_witness :
    parseResponse plainStdlib
      "[\x7b\"Title\": \"a\"\x7d, \x7b\"k\": \"old\", \"Raw\": [\"x<y\", 1], \"k\": null\x7d]" =
      .ok (some [[("Title", "a")], [("k", ""), ("Raw", "[\"x\\u003cy\",1]")]]) ∧
    ∃ results : Option (List Record),
      parseResponse plainStdlib
        "[\x7b\"Title\": \"a\"\x7d, \x7b\"k\": \"old\", \"Raw\": [\"x<y\", 1], \"k\": null\x7d]" =
        .ok results ∧
      List.Forall₂ (fun members record => ∀ key, Record.get record key =
        match JSON.mapGet (JSON.objectMap members) key with
        | none => none
        | some v => (convertValue plainStdlib v).toOption)
        [[("Title", JSON.string "a")],
          [("k", JSON.string "old"),
            ("Raw", JSON.array [JSON.string "x<y", JSON.number "1"]), ("k", JSON.null)]]
        (results.getD []) :=
  ⟨rfl,
   (parseResponse_array_of_objects plainStdlib
      "[\x7b\"Title\": \"a\"\x7d, \x7b\"k\": \"old\", \"Raw\": [\"x<y\", 1], \"k\": null\x7d]"
      [[("Title", JSON.string "a")],
        [("k", JSON.string "old"),
          ("Raw", JSON.array [JSON.string "x<y", JSON.number "1"]), ("k", JSON.null)]]
      (fun _ => ⟨_, rfl⟩) (fun _ => rfl) rfl rfl (by decide)).1⟩

/-- Counterexample to C28: the cleaned texts `null` and `[null]` are not arrays whose
elements are all objects, and `parseResponse` returns no error on them: an empty list of
records for the first, one record without keys for the second. -/
theorem parseResponse_null_counterexample :
    cleanResponse "null" = "null" ∧
    plainStdlib.decodeJSON "null" = .ok .null ∧
    parseResponse plainStdlib "null" = .ok (some []) ∧
    cleanResponse "[null]" = "[null]" ∧
    plainStdlib.decodeJSON "[null]" = .ok (.array [.null]) ∧
    parseResponse plainStdlib "[null]" = .ok (some [[]]) :=
  ⟨by decide, rfl, rfl, by decide, rfl, rfl⟩

/-- C28, amended: when the cleaned text of the response is neither empty nor `[]` and is
malformed JSON, or a value other than an array and `null` (an object, a number, a string,
a boolean), or an array with an element that is neither an object nor `null`,
`parseResponse` returns the unmarshal error and no records. -/
theorem parseResponse_rejects (lib : Stdlib) (response : String)
    (hne : cleanResponse response ≠ "") (hnil : cleanResponse response ≠ "[]")
    (hkind : (∃ err, lib.decodeJSON (cleanResponse response) = .error err) ∨
      (∃ v, lib.decodeJSON (cleanResponse response) = .ok v ∧ v ≠ .null ∧
        ∀ elems, v ≠ .array elems) ∨
      (∃ elems e, lib.decodeJSON (cleanResponse response) = .ok (.array elems) ∧
        e ∈ elems ∧ e ≠ .null ∧ ∀ members, e ≠ .object members)) :
    ∃ err, parseResponse lib response = .error (.unmarshal err) := by
  have hunmarshal : ∃ err, unmarshalMaps lib (cleanResponse response) = .error err := by
    rcases hkind with ⟨err, herr⟩ | ⟨v, hv, hnull, harray⟩ | ⟨elems, e, hv, he, hnull, hobj⟩
    · exact ⟨err, by unfold unmarshalMaps; rw [herr]⟩
    · cases v with
      | null => exact absurd rfl hnull
      | array elems => exact absurd rfl (harray elems)
      | bool b => exact ⟨_, by unfold unmarshalMaps; rw [hv]⟩
      | number text => exact ⟨_, by unfold unmarshalMaps; rw [hv]⟩
      | string s => exact ⟨_, by unfold unmarshalMaps; rw [hv]⟩
      | object members => exact ⟨_, by unfold unmarshalMaps; rw [hv]⟩
    · exact ⟨_, by
        unfold unmarshalMaps
        rw [hv]
        dsimp only
        rw [elementMaps_eq_none_of_mem elems e he hnull hobj]⟩
  obtain ⟨err, herr⟩ := hunmarshal
  refine ⟨err, ?_⟩
  rw [parseResponse_eq_clean]
  simp only [hne, hnil, or_self, if_false, herr]

/-- Witness of C28, amended: the malformed text of the test of the repository, and an array
that holds a number. -/
theorem parseResponse_rejects_witness :
    (∃ err, parseResponse plainStdlib "\x7b\"Title\": \"Missing brackets\"" =
      .error (.unmarshal err)) ∧
    (∃ err, parseResponse plainStdlib "[\x7b\"a\": \"b\"\x7d, 7]" = .error (.unmarshal err)) :=
  ⟨parseResponse_rejects plainStdlib "\x7b\"Title\": \"Missing brackets\""
     (by decide) (by decide) (Or.inl ⟨_, rfl⟩),
   parseResponse_rejects plainStdlib "[\x7b\"a\": \"b\"\x7d, 7]"
     (by decide) (by decide)
     (Or.inr (Or.inr ⟨[JSON.object [("a", JSON.string "b")], JSON.number "7"],
       JSON.number "7", rfl, List.mem_cons_of_mem _ (List.mem_singleton.2 rfl),
       (by intro h; cases h), (by intro members h; cases h)⟩))⟩

end Llm

/-! ## Theorems on the pipeline of `main` -/

namespace Main

open Config

theorem filterResults_eq (re : Exclusion.Regexp) (excluder : Exclusion.Excluder)
    (filtered parsedResponse : List Record) :
    filterResults re excluder filtered parsedResponse =
      filtered ++ parsedResponse.filter (fun result => !excluder.IsExcluded re result) := by
  induction parsedResponse generalizing filtered with
  | nil => simp [filterResults]
  | cons result rest ih =>
    by_cases h : excluder.IsExcluded re result = true
    · simp [filterResults, h, ih]
    · simp [filterResults, h, ih]

theorem exclusionStage_nil (re : Exclusion.Regexp) (excluder : Option Exclusion.Excluder) :
    exclusionStage re excluder [] = [] := by
  cases excluder with
  | none => rfl
  | some e => rfl

theorem publishAll_calls (ruleCfg : RuleConfig) (batch : List Record) (i : Nat)
    (publishers : List Publisher) :
    (publishAll ruleCfg batch i publishers).map (fun c => (c.index, c.data)) =
      (List.range' i publishers.length).map (fun j => (j, batch)) := by
  induction publishers generalizing i with
  | nil => rfl
  | cons pub rest ih => simp [publishAll, List.range', ih]

theorem publishAll_failed (ruleCfg : RuleConfig) (batch : List Record) (i : Nat)
    (publishers : List Publisher) (c : PublishCall)
    (hc : c ∈ publishAll ruleCfg batch i publishers) :
    ∃ pub, publishers[c.index - i]? = some pub ∧ i ≤ c.index ∧
      c.failed = isError (pub.Publish batch ruleCfg) := by
  induction publishers generalizing i with
  | nil => simp [publishAll] at hc
  | cons pub rest ih =>
    simp only [publishAll, List.mem_cons] at hc
    rcases hc with h | h
    · subst h
      exact ⟨pub, by simp, Nat.le_refl _, rfl⟩
    · obtain ⟨p, hp, hle, hfailed⟩ := ih (i + 1) h
      refine ⟨p, ?_, by omega, hfailed⟩
      have hidx : c.index - i = (c.index - (i + 1)) + 1 := by omega
      rw [hidx, List.getElem?_cons_succ]
      exact hp

theorem enrichmentStage_nil (lib : Llm.Stdlib) (llmClient : Option Llm.Client)
    (ruleCfg : RuleConfig) :
    enrichmentStage lib llmClient ruleCfg [] = none ∨
      enrichmentStage lib llmClient ruleCfg [] = some [] := by
  unfold enrichmentStage
  cases hllm : ruleCfg.LLM with
  | none => right; rfl
  | some llm =>
    by_cases henabled : llm.Enabled = true
    · left
      simp [henabled, Llm.Process, Llm.sliceLen]
    · right
      simp [henabled]

/-- C23: with a loaded excluder the exclusion stage of `main` yields exactly the records for
which `IsExcluded` is false, in their original order and as often as they occur, a sublist of
the query results; without an excluder, which is the case when no exclusion path is
configured, the record list is passed on unchanged. -/
theorem exclusionStage_filters (re : Exclusion.Regexp) (ruleCfg : RuleConfig)
    (decoded : Except String (List Exclusion.ExclusionRule))
    (parsedResponse : List Record) :
    (∀ excluder : Exclusion.Excluder,
      exclusionStage re (some excluder) parsedResponse =
        parsedResponse.filter (fun result => !excluder.IsExcluded re result) ∧
      List.Sublist (exclusionStage re (some excluder) parsedResponse) parsedResponse) ∧
    exclusionStage re none parsedResponse = parsedResponse ∧
    (ruleCfg.ExclusionsPath = "" → setupExcluder re ruleCfg decoded = some none) := by
  refine ⟨?_, rfl, ?_⟩
  · intro excluder
    have heq : exclusionStage re (some excluder) parsedResponse =
        parsedResponse.filter (fun result => !excluder.IsExcluded re result) := by
      simp [exclusionStage, filterResults_eq]
    refine ⟨heq, ?_⟩
    rw [heq]
    exact List.filter_sublist _
  · intro hpath
    simp [setupExcluder, hpath]

/-- Witness of C23: three records, of which the second is excluded and the third repeats the
first; and a configuration without exclusion path. -/
theorem exclusionStage_filters_witness :
    exclusionStage Exclusion.literalRegexp
      (some ⟨[⟨⟨[], [⟨"user", "equals", "root", []⟩]⟩⟩]⟩)
      [[("user", "alice")], [("user", "root")], [("user", "alice")]] =
      [[("user", "alice")], [("user", "alice")]] ∧
    setupExcluder Exclusion.literalRegexp (Signal.ruleConfig "high" [] ⟨"raw", []⟩)
      (.error "no such file") = some none :=
  ⟨((exclusionStage_filters Exclusion.literalRegexp (Signal.ruleConfig "high" [] ⟨"raw", []⟩)
      (.error "no such file")
      [[("user", "alice")], [("user", "root")], [("user", "alice")]]).1
      ⟨[⟨⟨[], [⟨"user", "equals", "root", []⟩]⟩⟩]⟩).1,
   (exclusionStage_filters Exclusion.literalRegexp (Signal.ruleConfig "high" [] ⟨"raw", []⟩)
      (.error "no such file") []).2.2 rfl⟩

theorem publishStage_calls (ruleCfg : RuleConfig) (batch : List Record)
    (publishers : List Publisher) (hbatch : batch ≠ []) :
    (publishStage ruleCfg batch publishers).map (fun c => (c.index, c.data)) =
      (List.range publishers.length).map (fun i => (i, batch)) ∧
    (∀ c ∈ publishStage ruleCfg batch publishers, ∃ pub,
      publishers[c.index]? = some pub ∧ c.failed = isError (pub.Publish batch ruleCfg)) := by
  have hlen : ¬ batch.length = 0 := by
    intro h
    exact hbatch (List.length_eq_zero.1 h)
  refine ⟨?_, ?_⟩
  · simp only [publishStage, hlen, if_false]
    rw [publishAll_calls, List.range_eq_range']
  · intro c hc
    simp only [publishStage, hlen, if_false] at hc
    obtain ⟨pub, hpub, _, hfailed⟩ := publishAll_failed ruleCfg batch 0 publishers c hc
    exact ⟨pub, by simpa using hpub, hfailed⟩

theorem run_calls_eq (re : Exclusion.Regexp) (lib : Llm.Stdlib) (ruleCfg : RuleConfig)
    (publishers : List Publisher) (decoded : Except String (List Exclusion.ExclusionRule))
    (newClient : Except String Llm.Client) (queryResult : Except String (List Record))
    (excluder : Option Exclusion.Excluder) (llmClient : Option Llm.Client)
    (parsedResponse batch : List Record)
    (hexcluder : setupExcluder re ruleCfg decoded = some excluder)
    (hclient : setupClient ruleCfg newClient = some llmClient)
    (hquery : queryResult = .ok parsedResponse)
    (hstage : enrichmentStage lib llmClient ruleCfg
      (exclusionStage re excluder parsedResponse) = some batch) :
    run re lib ruleCfg publishers decoded newClient queryResult =
      { fatal := false, calls := publishStage ruleCfg batch publishers } := by
  unfold run
  simp only [hexcluder, hclient, hquery, hstage]

/-- C24: in a run of `main` that reaches the publish loop with a batch that is not empty
(the excluder and the client are set up, the query returns, and the enrichment stage hands
on the batch), `main` calls `Publish` once on every publisher, in the order of the list,
each time with the whole batch; the flag of a call is the error of that publisher alone,
and the sequence of calls is the same for any other list of as many publishers, whatever
they return. The run does not end with `logger.Fatalf`. -/
theorem run_calls_every_publisher (re : Exclusion.Regexp) (lib : Llm.Stdlib)
    (ruleCfg : RuleConfig) (publishers : List Publisher)
    (decoded : Except String (List Exclusion.ExclusionRule))
    (newClient : Except String Llm.Client) (queryResult : Except String (List Record))
    (excluder : Option Exclusion.Excluder) (llmClient : Option Llm.Client)
    (parsedResponse batch : List Record)
    (hexcluder : setupExcluder re ruleCfg decoded = some excluder)
    (hclient : setupClient ruleCfg newClient = some llmClient)
    (hquery : queryResult = .ok parsedResponse)
    (hstage : enrichmentStage lib llmClient ruleCfg
      (exclusionStage re excluder parsedResponse) = some batch)
    (hbatch : batch ≠ []) :
    (run re lib ruleCfg publishers decoded newClient queryResult).calls.map
        (fun c => (c.index, c.data)) =
      (List.range publishers.length).map (fun i => (i, batch)) ∧
    (∀ c ∈ (run re lib ruleCfg publishers decoded newClient queryResult).calls, ∃ pub,
      publishers[c.index]? = some pub ∧ c.failed = isError (pub.Publish batch ruleCfg)) ∧
    (∀ others : List Publisher, others.length = publishers.length →
      (run re lib ruleCfg others decoded newClient queryResult).calls.map
          (fun c => (c.index, c.data)) =
        (run re lib ruleCfg publishers decoded newClient queryResult).calls.map
          (fun c => (c.index, c.data))) ∧
    (run re lib ruleCfg publishers decoded newClient queryResult).fatal = false := by
  have hrun : ∀ pubs : List Publisher,
      run re lib ruleCfg pubs decoded newClient queryResult =
        { fatal := false, calls := publishStage ruleCfg batch pubs } :=
    fun pubs => run_calls_eq re lib ruleCfg pubs decoded newClient queryResult excluder
      llmClient parsedResponse batch hexcluder hclient hquery hstage
  refine ⟨?_, ?_, ?_, ?_⟩
  · rw [hrun publishers]
    exact (publishStage_calls ruleCfg batch publishers hbatch).1
  · rw [hrun publishers]
    exact (publishStage_calls ruleCfg batch publishers hbatch).2
  · intro others hothers
    rw [hrun others, hrun publishers]
    simp only []
    rw [(publishStage_calls ruleCfg batch others hbatch).1,
      (publishStage_calls ruleCfg batch publishers hbatch).1, hothers]
  · rw [hrun publishers]

/-- Witness of C24: a run without exclusions and without enrichment whose query returns one
record, with three publishers of which the first two fail: the three calls are made in
order, each with the record. -/
theorem run_calls_every_publisher_witness :
    (run Exclusion.literalRegexp Llm.plainStdlib (Signal.ruleConfig "high" [] ⟨"raw", []⟩)
      [⟨fun _ _ => .error "down"⟩, ⟨fun _ _ => .error "denied"⟩, ⟨fun _ _ => .ok ()⟩]
      (.error "no such file") (.error "no provider") (.ok [[("k", "v")]])).calls =
      [⟨0, [[("k", "v")]], true⟩, ⟨1, [[("k", "v")]], true⟩, ⟨2, [[("k", "v")]], false⟩] ∧
    (run Exclusion.literalRegexp Llm.plainStdlib (Signal.ruleConfig "high" [] ⟨"raw", []⟩)
      [⟨fun _ _ => .error "down"⟩, ⟨fun _ _ => .error "denied"⟩, ⟨fun _ _ => .ok ()⟩]
      (.error "no such file") (.error "no provider") (.ok [[("k", "v")]])).calls.map
      (fun c => (c.index, c.data)) =
      (List.range 3).map (fun i => (i, [[("k", "v")]])) :=
  ⟨rfl,
   (run_calls_every_publisher Exclusion.literalRegexp Llm.plainStdlib
      (Signal.ruleConfig "high" [] ⟨"raw", []⟩)
      [⟨fun _ _ => .error "down"⟩, ⟨fun _ _ => .error "denied"⟩, ⟨fun _ _ => .ok ()⟩]
      (.error "no such file") (.error "no provider") (.ok [[("k", "v")]])
      none none [[("k", "v")]] [[("k", "v")]] rfl rfl rfl rfl (by decide)).1⟩

/-- C25: a run of `main` calls no `Publish` when the query returns no record, when no record
is left after the exclusion stage, when the enrichment stage is enabled and `Process`
returns an error or no record, and when the process ends with `logger.Fatalf`. -/
theorem run_publishes_nothing (re : Exclusion.Regexp) (lib : Llm.Stdlib)
    (ruleCfg : RuleConfig) (publishers : List Publisher)
    (decoded : Except String (List Exclusion.ExclusionRule))
    (newClient : Except String Llm.Client) (queryResult : Except String (List Record)) :
    (queryResult = .ok [] →
      (run re lib ruleCfg publishers decoded newClient queryResult).calls = []) ∧
    (∀ excluder parsedResponse, setupExcluder re ruleCfg decoded = some excluder →
      queryResult = .ok parsedResponse → exclusionStage re excluder parsedResponse = [] →
      (run re lib ruleCfg publishers decoded newClient queryResult).calls = []) ∧
    (∀ excluder parsedResponse llm client, setupExcluder re ruleCfg decoded = some excluder →
      queryResult = .ok parsedResponse → ruleCfg.LLM = some llm → llm.Enabled = true →
      newClient = .ok client →
      ((∃ err, (Llm.Process lib (some client) (exclusionStage re excluder parsedResponse)
          ruleCfg).returned = some (.error err)) ∨
        (∃ newResults, (Llm.Process lib (some client)
          (exclusionStage re excluder parsedResponse) ruleCfg).returned =
            some (.ok newResults) ∧ Llm.sliceLen newResults = 0)) →
      (run re lib ruleCfg publishers decoded newClient queryResult).calls = []) ∧
    ((run re lib ruleCfg publishers decoded newClient queryResult).fatal = true →
      (run re lib ruleCfg publishers decoded newClient queryResult).calls = []) := by
  have hempty : ∀ excluder parsedResponse, setupExcluder re ruleCfg decoded = some excluder →
      queryResult = .ok parsedResponse → exclusionStage re excluder parsedResponse = [] →
      (run re lib ruleCfg publishers decoded newClient queryResult).calls = [] := by
    intro excluder parsedResponse hsetup hquery hstage
    unfold run
    simp only [hsetup, hquery, hstage]
    cases setupClient ruleCfg newClient with
    | none => rfl
    | some llmClient =>
      rcases enrichmentStage_nil lib llmClient ruleCfg with h | h
      · simp [h]
      · simp [h, publishStage]
  refine ⟨?_, hempty, ?_, ?_⟩
  · intro hquery
    cases hsetup : setupExcluder re ruleCfg decoded with
    | none => simp [run, hsetup]
    | some excluder => exact hempty excluder [] hsetup hquery (exclusionStage_nil re excluder)
  · intro excluder parsedResponse llm client hsetup hquery hllm henabled hclient hprocess
    have hstage : enrichmentStage lib (some client) ruleCfg
        (exclusionStage re excluder parsedResponse) = none := by
      unfold enrichmentStage
      rcases hprocess with ⟨err, herr⟩ | ⟨newResults, hres, hlen⟩
      · simp [hllm, henabled, herr]
      · simp [hllm, henabled, hres, hlen]
    unfold run
    simp [hsetup, hquery, setupClient, hllm, henabled, hclient, hstage]
  · unfold run
    cases setupExcluder re ruleCfg decoded with
    | none => intro _; rfl
    | some excluder =>
      cases setupClient ruleCfg newClient with
      | none => intro _; rfl
      | some llmClient =>
        cases queryResult with
        | error err => intro _; rfl
        | ok parsedResponse =>
          cases hstage : enrichmentStage lib llmClient ruleCfg
              (exclusionStage re excluder parsedResponse) with
          | none => intro _; simp only [hstage]
          | some batch => intro h; simp [hstage] at h

/-- Witness of C25: a query that returns one record, which the excluder drops; the publisher
is not called. -/
theorem run_publishes_nothing_witness :
    (run Exclusion.literalRegexp Llm.plainStdlib
      { Signal.ruleConfig "high" [] ⟨"raw", []⟩ with ExclusionsPath := "exclusions.yaml" }
      [⟨fun _ _ => .ok ()⟩]
      (.ok [⟨⟨[], [⟨"user", "equals", "root", []⟩]⟩⟩])
      (.error "no provider") (.ok [[("user", "root")]])).calls = [] :=
  (run_publishes_nothing Exclusion.literalRegexp Llm.plainStdlib
      { Signal.ruleConfig "high" [] ⟨"raw", []⟩ with ExclusionsPath := "exclusions.yaml" }
      [⟨fun _ _ => .ok ()⟩]
      (.ok [⟨⟨[], [⟨"user", "equals", "root", []⟩]⟩⟩])
      (.error "no provider") (.ok [[("user", "root")]])).2.1
    (some ⟨[⟨⟨[], [⟨"user", "equals", "root", []⟩]⟩⟩]⟩) [[("user", "root")]] rfl rfl rfl

end Main
/-! ## Lemmas on the connector registry -/

namespace Connector

open Config

theorem mem_mapEntries_iff {α : Type} (m : List (String × α)) (k : String) (v : α) :
    (k, v) ∈ JSON.mapEntries m ↔ JSON.mapGet m k = some v := by
  induction m with
  | nil => simp [JSON.mapEntries, JSON.mapGet]
  | cons entry rest ih =>
    obtain ⟨k2, v2⟩ := entry
    by_cases hk : k2 = k
    · subst hk
      simp [JSON.mapEntries, JSON.mapGet, List.mem_filter, eq_comm]
    · have hk2 : ¬ k = k2 := fun h => hk h.symm
      simp [JSON.mapEntries, JSON.mapGet, List.mem_filter, hk, hk2, ih]

theorem initOpenSearch_eq (b : Backends) (r : Registry b) (connectors : OpenSearchConnectors) :
    initOpenSearch b r connectors = registerOpenSearch b r (JSON.mapEntries connectors.Instances) := by
  unfold initOpenSearch
  split
  · next h =>
    rw [List.length_eq_zero.1 h]
    simp [registerOpenSearch]
  · rfl

theorem registerOpenSearch_publishers (b : Backends) (entries : List (String × OpenSearchConfig))
    (r : Registry b) (name : String) :
    (JSON.mapGet (registerOpenSearch b r entries).publishers name).isSome ↔
      ((JSON.mapGet r.publishers name).isSome ∨
        ∃ inst cfg client, (inst, cfg) ∈ entries ∧ name = "opensearch." ++ inst ∧
          ¬ (cfg.URL = "" ∨ cfg.Username = "" ∨ cfg.Password = "") ∧ b.newOpenSearch cfg = .ok client) := by
  induction entries generalizing r with
  | nil => simp [registerOpenSearch]
  | cons entry rest ih =>
    obtain ⟨n, c⟩ := entry
    rw [registerOpenSearch]
    by_cases hv : c.URL = "" ∨ c.Username = "" ∨ c.Password = ""
    · rw [if_pos hv, ih]
      constructor
      · rintro (h | ⟨inst, cfg, client, hmem, h⟩)
        · exact Or.inl h
        · exact Or.inr ⟨inst, cfg, client, List.mem_cons_of_mem _ hmem, h⟩
      · rintro (h | ⟨inst, cfg, client, hmem, hname, hval, hok⟩)
        · exact Or.inl h
        · rcases List.mem_cons.1 hmem with heq | hmem
          · cases heq
            exact absurd hv hval
          · exact Or.inr ⟨inst, cfg, client, hmem, hname, hval, hok⟩
    · rw [if_neg hv]
      cases hnew : b.newOpenSearch c with
      | error err =>
        dsimp only
        rw [ih]
        constructor
        · rintro (h | ⟨inst, cfg, client, hmem, h⟩)
          · exact Or.inl h
          · exact Or.inr ⟨inst, cfg, client, List.mem_cons_of_mem _ hmem, h⟩
        · rintro (h | ⟨inst, cfg, client, hmem, hname, hval, hok⟩)
          · exact Or.inl h
          · rcases List.mem_cons.1 hmem with heq | hmem
            · cases heq
              rw [hnew] at hok
              cases hok
            · exact Or.inr ⟨inst, cfg, client, hmem, hname, hval, hok⟩
      | ok cl =>
        dsimp only
        rw [ih]
        constructor
        · rintro (h | ⟨inst, cfg, client, hmem, h⟩)
          · by_cases hn : "opensearch." ++ n = name
            · exact Or.inr ⟨n, c, cl, List.mem_cons_self _ _, hn.symm, hv, hnew⟩
            · left
              simpa [JSON.mapGet, hn] using h
          · exact Or.inr ⟨inst, cfg, client, List.mem_cons_of_mem _ hmem, h⟩
        · rintro (h | ⟨inst, cfg, client, hmem, hname, hval, hok⟩)
          · left
            by_cases hn : "opensearch." ++ n = name
            · simp [JSON.mapGet, hn]
            · simpa [JSON.mapGet, hn] using h
          · rcases List.mem_cons.1 hmem with heq | hmem
            · cases heq
              left
              simp [JSON.mapGet, hname]
            · exact Or.inr ⟨inst, cfg, client, hmem, hname, hval, hok⟩

theorem registerOpenSearch_queryRunners (b : Backends) (entries : List (String × OpenSearchConfig))
    (r : Registry b) (name : String) :
    (JSON.mapGet (registerOpenSearch b r entries).queryRunners name).isSome ↔
      ((JSON.mapGet r.queryRunners name).isSome ∨
        ∃ inst cfg client, (inst, cfg) ∈ entries ∧ name = "opensearch." ++ inst ∧
          ¬ (cfg.URL = "" ∨ cfg.Username = "" ∨ cfg.Password = "") ∧ b.newOpenSearch cfg = .ok client) := by
  induction entries generalizing r with
  | nil => simp [registerOpenSearch]
  | cons entry rest ih =>
    obtain ⟨n, c⟩ := entry
    rw [registerOpenSearch]
    by_cases hv : c.URL = "" ∨ c.Username = "" ∨ c.Password = ""
    · rw [if_pos hv, ih]
      constructor
      · rintro (h | ⟨inst, cfg, client, hmem, h⟩)
        · exact Or.inl h
        · exact Or.inr ⟨inst, cfg, client, List.mem_cons_of_mem _ hmem, h⟩
      · rintro (h | ⟨inst, cfg, client, hmem, hname, hval, hok⟩)
        · exact Or.inl h
        · rcases List.mem_cons.1 hmem with heq | hmem
          · cases heq
            exact absurd hv hval
          · exact Or.inr ⟨inst, cfg, client, hmem, hname, hval, hok⟩
    · rw [if_neg hv]
      cases hnew : b.newOpenSearch c with
      | error err =>
        dsimp only
        rw [ih]
        constructor
        · rintro (h | ⟨inst, cfg, client, hmem, h⟩)
          · exact Or.inl h
          · exact Or.inr ⟨inst, cfg, client, List.mem_cons_of_mem _ hmem, h⟩
        · rintro (h | ⟨inst, cfg, client, hmem, hname, hval, hok⟩)
          · exact Or.inl h
          · rcases List.mem_cons.1 hmem with heq | hmem
            · cases heq
              rw [hnew] at hok
              cases hok
            · exact Or.inr ⟨inst, cfg, client, hmem, hname, hval, hok⟩
      | ok cl =>
        dsimp only
        rw [ih]
        constructor
        · rintro (h | ⟨inst, cfg, client, hmem, h⟩)
          · by_cases hn : "opensearch." ++ n = name
            · exact Or.inr ⟨n, c, cl, List.mem_cons_self _ _, hn.symm, hv, hnew⟩
            · left
              simpa [JSON.mapGet, hn] using h
          · exact Or.inr ⟨inst, cfg, client, List.mem_cons_of_mem _ hmem, h⟩
        · rintro (h | ⟨inst, cfg, client, hmem, hname, hval, hok⟩)
          · left
            by_cases hn : "opensearch." ++ n = name
            · simp [JSON.mapGet, hn]
            · simpa [JSON.mapGet, hn] using h
          · rcases List.mem_cons.1 hmem with heq | hmem
            · cases heq
              left
              simp [JSON.mapGet, hname]
            · exact Or.inr ⟨inst, cfg, client, hmem, hname, hval, hok⟩

theorem initPubSub_eq (b : Backends) (r : Registry b) (connectors : PubSubConnectors) :
    initPubSub b r connectors = registerPubSub b r (JSON.mapEntries connectors.Instances) := by
  unfold initPubSub
  split
  · next h =>
    rw [List.length_eq_zero.1 h]
    simp [registerPubSub]
  · rfl

theorem registerPubSub_publishers (b : Backends) (entries : List (String × PubSubConfig))
    (r : Registry b) (name : String) :
    (JSON.mapGet (registerPubSub b r entries).publishers name).isSome ↔
      ((JSON.mapGet r.publishers name).isSome ∨
        ∃ inst cfg client, (inst, cfg) ∈ entries ∧ name = "pubsub." ++ inst ∧
          ¬ (cfg.ProjectID = "" ∨ cfg.TopicID = "") ∧ PubSub.New cfg.ProjectID cfg.TopicID = .ok client) := by
  induction entries generalizing r with
  | nil => simp [registerPubSub]
  | cons entry rest ih =>
    obtain ⟨n, c⟩ := entry
    rw [registerPubSub]
    by_cases hv : c.ProjectID = "" ∨ c.TopicID = ""
    · rw [if_pos hv, ih]
      constructor
      · rintro (h | ⟨inst, cfg, client, hmem, h⟩)
        · exact Or.inl h
        · exact Or.inr ⟨inst, cfg, client, List.mem_cons_of_mem _ hmem, h⟩
      · rintro (h | ⟨inst, cfg, client, hmem, hname, hval, hok⟩)
        · exact Or.inl h
        · rcases List.mem_cons.1 hmem with heq | hmem
          · cases heq
            exact absurd hv hval
          · exact Or.inr ⟨inst, cfg, client, hmem, hname, hval, hok⟩
    · rw [if_neg hv]
      cases hnew : PubSub.New c.ProjectID c.TopicID with
      | error err =>
        dsimp only
        rw [ih]
        constructor
        · rintro (h | ⟨inst, cfg, client, hmem, h⟩)
          · exact Or.inl h
          · exact Or.inr ⟨inst, cfg, client, List.mem_cons_of_mem _ hmem, h⟩
        · rintro (h | ⟨inst, cfg, client, hmem, hname, hval, hok⟩)
          · exact Or.inl h
          · rcases List.mem_cons.1 hmem with heq | hmem
            · cases heq
              rw [hnew] at hok
              cases hok
            · exact Or.inr ⟨inst, cfg, client, hmem, hname, hval, hok⟩
      | ok cl =>
        dsimp only
        rw [ih]
        constructor
        · rintro (h | ⟨inst, cfg, client, hmem, h⟩)
          · by_cases hn : "pubsub." ++ n = name
            · exact Or.inr ⟨n, c, cl, List.mem_cons_self _ _, hn.symm, hv, hnew⟩
            · left
              simpa [JSON.mapGet, hn] using h
          · exact Or.inr ⟨inst, cfg, client, List.mem_cons_of_mem _ hmem, h⟩
        · rintro (h | ⟨inst, cfg, client, hmem, hname, hval, hok⟩)
          · left
            by_cases hn : "pubsub." ++ n = name
            · simp [JSON.mapGet, hn]
            · simpa [JSON.mapGet, hn] using h
          · rcases List.mem_cons.1 hmem with heq | hmem
            · cases heq
              left
              simp [JSON.mapGet, hname]
            · exact Or.inr ⟨inst, cfg, client, hmem, hname, hval, hok⟩

theorem registerPubSub_queryRunners (b : Backends) (entries : List (String × PubSubConfig))
    (r : Registry b) : (registerPubSub b r entries).queryRunners = r.queryRunners := by
  induction entries generalizing r with
  | nil => simp [registerPubSub]
  | cons entry rest ih =>
    obtain ⟨n, c⟩ := entry
    rw [registerPubSub]
    by_cases hv : c.ProjectID = "" ∨ c.TopicID = ""
    · rw [if_pos hv, ih]
    · rw [if_neg hv]
      cases hnew : PubSub.New c.ProjectID c.TopicID with
      | error err =>
        dsimp only
        rw [ih]
      | ok cl =>
        dsimp only
        rw [ih]

theorem initBigQuery_eq (b : Backends) (r : Registry b) (connectors : BigQueryConnectors) :
    initBigQuery b r connectors = registerBigQuery b r (JSON.mapEntries connectors.Instances) := by
  unfold initBigQuery
  split
  · next h =>
    rw [List.length_eq_zero.1 h]
    simp [registerBigQuery]
  · rfl

theorem registerBigQuery_publishers (b : Backends) (entries : List (String × BigQueryConfig))
    (r : Registry b) (name : String) :
    (JSON.mapGet (registerBigQuery b r entries).publishers name).isSome ↔
      ((JSON.mapGet r.publishers name).isSome ∨
        ∃ inst cfg client, (inst, cfg) ∈ entries ∧ name = "bigquery." ++ inst ∧
          ¬ (cfg.ProjectID = "") ∧ b.newBigQuery cfg = .ok client) := by
  induction entries generalizing r with
  | nil => simp [registerBigQuery]
  | cons entry rest ih =>
    obtain ⟨n, c⟩ := entry
    rw [registerBigQuery]
    by_cases hv : c.ProjectID = ""
    · rw [if_pos hv, ih]
      constructor
      · rintro (h | ⟨inst, cfg, client, hmem, h⟩)
        · exact Or.inl h
        · exact Or.inr ⟨inst, cfg, client, List.mem_cons_of_mem _ hmem, h⟩
      · rintro (h | ⟨inst, cfg, client, hmem, hname, hval, hok⟩)
        · exact Or.inl h
        · rcases List.mem_cons.1 hmem with heq | hmem
          · cases heq
            exact absurd hv hval
          · exact Or.inr ⟨inst, cfg, client, hmem, hname, hval, hok⟩
    · rw [if_neg hv]
      cases hnew : b.newBigQuery c with
      | error err =>
        dsimp only
        rw [ih]
        constructor
        · rintro (h | ⟨inst, cfg, client, hmem, h⟩)
          · exact Or.inl h
          · exact Or.inr ⟨inst, cfg, client, List.mem_cons_of_mem _ hmem, h⟩
        · rintro (h | ⟨inst, cfg, client, hmem, hname, hval, hok⟩)
          · exact Or.inl h
          · rcases List.mem_cons.1 hmem with heq | hmem
            · cases heq
              rw [hnew] at hok
              cases hok
            · exact Or.inr ⟨inst, cfg, client, hmem, hname, hval, hok⟩
      | ok cl =>
        dsimp only
        rw [ih]
        constructor
        · rintro (h | ⟨inst, cfg, client, hmem, h⟩)
          · by_cases hn : "bigquery." ++ n = name
            · exact Or.inr ⟨n, c, cl, List.mem_cons_self _ _, hn.symm, hv, hnew⟩
            · left
              simpa [JSON.mapGet, hn] using h
          · exact Or.inr ⟨inst, cfg, client, List.mem_cons_of_mem _ hmem, h⟩
        · rintro (h | ⟨inst, cfg, client, hmem, hname, hval, hok⟩)
          · left
            by_cases hn : "bigquery." ++ n = name
            · simp [JSON.mapGet, hn]
            · simpa [JSON.mapGet, hn] using h
          · rcases List.mem_cons.1 hmem with heq | hmem
            · cases heq
              left
              simp [JSON.mapGet, hname]
            · exact Or.inr ⟨inst, cfg, client, hmem, hname, hval, hok⟩

theorem registerBigQuery_queryRunners (b : Backends) (entries : List (String × BigQueryConfig))
    (r : Registry b) (name : String) :
    (JSON.mapGet (registerBigQuery b r entries).queryRunners name).isSome ↔
      ((JSON.mapGet r.queryRunners name).isSome ∨
        ∃ inst cfg client, (inst, cfg) ∈ entries ∧ name = "bigquery." ++ inst ∧
          ¬ (cfg.ProjectID = "") ∧ b.newBigQuery cfg = .ok client) := by
  induction entries generalizing r with
  | nil => simp [registerBigQuery]
  | cons entry rest ih =>
    obtain ⟨n, c⟩ := entry
    rw [registerBigQuery]
    by_cases hv : c.ProjectID = ""
    · rw [if_pos hv, ih]
      constructor
      · rintro (h | ⟨inst, cfg, client, hmem, h⟩)
        · exact Or.inl h
        · exact Or.inr ⟨inst, cfg, client, List.mem_cons_of_mem _ hmem, h⟩
      · rintro (h | ⟨inst, cfg, client, hmem, hname, hval, hok⟩)
        · exact Or.inl h
        · rcases List.mem_cons.1 hmem with heq | hmem
          · cases heq
            exact absurd hv hval
          · exact Or.inr ⟨inst, cfg, client, hmem, hname, hval, hok⟩
    · rw [if_neg hv]
      cases hnew : b.newBigQuery c with
      | error err =>
        dsimp only
        rw [ih]
        constructor
        · rintro (h | ⟨inst, cfg, client, hmem, h⟩)
          · exact Or.inl h
          · exact Or.inr ⟨inst, cfg, client, List.mem_cons_of_mem _ hmem, h⟩
        · rintro (h | ⟨inst, cfg, client, hmem, hname, hval, hok⟩)
          · exact Or.inl h
          · rcases List.mem_cons.1 hmem with heq | hmem
            · cases heq
              rw [hnew] at hok
              cases hok
            · exact Or.inr ⟨inst, cfg, client, hmem, hname, hval, hok⟩
      | ok cl =>
        dsimp only
        rw [ih]
        constructor
        · rintro (h | ⟨inst, cfg, client, hmem, h⟩)
          · by_cases hn : "bigquery." ++ n = name
            · exact Or.inr ⟨n, c, cl, List.mem_cons_self _ _, hn.symm, hv, hnew⟩
            · left
              simpa [JSON.mapGet, hn] using h
          · exact Or.inr ⟨inst, cfg, client, List.mem_cons_of_mem _ hmem, h⟩
        · rintro (h | ⟨inst, cfg, client, hmem, hname, hval, hok⟩)
          · left
            by_cases hn : "bigquery." ++ n = name
            · simp [JSON.mapGet, hn]
            · simpa [JSON.mapGet, hn] using h
          · rcases List.mem_cons.1 hmem with heq | hmem
            · cases heq
              left
              simp [JSON.mapGet, hname]
            · exact Or.inr ⟨inst, cfg, client, hmem, hname, hval, hok⟩

theorem initSlack_eq (b : Backends) (r : Registry b) (connectors : SlackConnectors) :
    initSlack b r connectors = registerSlack b r (JSON.mapEntries connectors.Instances) := by
  unfold initSlack
  split
  · next h =>
    rw [List.length_eq_zero.1 h]
    simp [registerSlack]
  · rfl

theorem registerSlack_publishers (b : Backends) (entries : List (String × SlackConfig))
    (r : Registry b) (name : String) :
    (JSON.mapGet (registerSlack b r entries).publishers name).isSome ↔
      ((JSON.mapGet r.publishers name).isSome ∨
        ∃ inst cfg client, (inst, cfg) ∈ entries ∧ name = "slack." ++ inst ∧
          ¬ (cfg.WebhookURL = "") ∧ b.newSlack cfg = .ok client) := by
  induction entries generalizing r with
  | nil => simp [registerSlack]
  | cons entry rest ih =>
    obtain ⟨n, c⟩ := entry
    rw [registerSlack]
    by_cases hv : c.WebhookURL = ""
    · rw [if_pos hv, ih]
      constructor
      · rintro (h | ⟨inst, cfg, client, hmem, h⟩)
        · exact Or.inl h
        · exact Or.inr ⟨inst, cfg, client, List.mem_cons_of_mem _ hmem, h⟩
      · rintro (h | ⟨inst, cfg, client, hmem, hname, hval, hok⟩)
        · exact Or.inl h
        · rcases List.mem_cons.1 hmem with heq | hmem
          · cases heq
            exact absurd hv hval
          · exact Or.inr ⟨inst, cfg, client, hmem, hname, hval, hok⟩
    · rw [if_neg hv]
      cases hnew : b.newSlack c with
      | error err =>
        dsimp only
        rw [ih]
        constructor
        · rintro (h | ⟨inst, cfg, client, hmem, h⟩)
          · exact Or.inl h
          · exact Or.inr ⟨inst, cfg, client, List.mem_cons_of_mem _ hmem, h⟩
        · rintro (h | ⟨inst, cfg, client, hmem, hname, hval, hok⟩)
          · exact Or.inl h
          · rcases List.mem_cons.1 hmem with heq | hmem
            · cases heq
              rw [hnew] at hok
              cases hok
            · exact Or.inr ⟨inst, cfg, client, hmem, hname, hval, hok⟩
      | ok cl =>
        dsimp only
        rw [ih]
        constructor
        · rintro (h | ⟨inst, cfg, client, hmem, h⟩)
          · by_cases hn : "slack." ++ n = name
            · exact Or.inr ⟨n, c, cl, List.mem_cons_self _ _, hn.symm, hv, hnew⟩
            · left
              simpa [JSON.mapGet, hn] using h
          · exact Or.inr ⟨inst, cfg, client, List.mem_cons_of_mem _ hmem, h⟩
        · rintro (h | ⟨inst, cfg, client, hmem, hname, hval, hok⟩)
          · left
            by_cases hn : "slack." ++ n = name
            · simp [JSON.mapGet, hn]
            · simpa [JSON.mapGet, hn] using h
          · rcases List.mem_cons.1 hmem with heq | hmem
            · cases heq
              left
              simp [JSON.mapGet, hname]
            · exact Or.inr ⟨inst, cfg, client, hmem, hname, hval, hok⟩

theorem registerSlack_queryRunners (b : Backends) (entries : List (String × SlackConfig))
    (r : Registry b) : (registerSlack b r entries).queryRunners = r.queryRunners := by
  induction entries generalizing r with
  | nil => simp [registerSlack]
  | cons entry rest ih =>
    obtain ⟨n, c⟩ := entry
    rw [registerSlack]
    by_cases hv : c.WebhookURL = ""
    · rw [if_pos hv, ih]
    · rw [if_neg hv]
      cases hnew : b.newSlack c with
      | error err =>
        dsimp only
        rw [ih]
      | ok cl =>
        dsimp only
        rw [ih]

theorem GetPublisher_ok_iff {b : Backends} (r : Registry b) (name : String) :
    (∃ pub, r.GetPublisher name = .ok pub) ↔ (JSON.mapGet r.publishers name).isSome := by
  unfold Registry.GetPublisher
  cases JSON.mapGet r.publishers name with
  | none => simp
  | some pub => simp

theorem GetQueryRunner_ok_iff {b : Backends} (r : Registry b) (name : String) :
    (∃ qr, r.GetQueryRunner name = .ok qr) ↔ (JSON.mapGet r.queryRunners name).isSome := by
  unfold Registry.GetQueryRunner
  cases JSON.mapGet r.queryRunners name with
  | none => simp
  | some qr => simp

theorem GetPublisher_ok_or_notFound {b : Backends} (r : Registry b) (name : String) :
    (∃ pub, r.GetPublisher name = .ok pub) ∨
      r.GetPublisher name = .error (.publisherNotFound name) := by
  unfold Registry.GetPublisher
  cases JSON.mapGet r.publishers name with
  | none => exact Or.inr rfl
  | some pub => exact Or.inl ⟨pub, rfl⟩

theorem GetQueryRunner_ok_or_notFound {b : Backends} (r : Registry b) (name : String) :
    (∃ qr, r.GetQueryRunner name = .ok qr) ∨
      r.GetQueryRunner name = .error (.queryRunnerNotFound name) := by
  unfold Registry.GetQueryRunner
  cases JSON.mapGet r.queryRunners name with
  | none => exact Or.inr rfl
  | some qr => exact Or.inl ⟨qr, rfl⟩

/-- C22: after `NewRegistry`, `GetPublisher` succeeds exactly for the names `family.instance`
of the instances of the opensearch, pubsub, bigquery and slack families that pass the check of
their required fields and whose constructor returns a client, and `GetQueryRunner` exactly for
such names of the opensearch and bigquery families; on every other name the lookup returns its
not-found error. Whether a name is registered depends on its own instance alone, so a skipped
instance keeps no other instance out of the registry. -/
theorem NewRegistry_lookup (b : Backends) (globalCfg : GlobalConfig) (name : String) :
    ((∃ pub, (NewRegistry b globalCfg).GetPublisher name = .ok pub) ↔
      ((∃ inst cfg client, JSON.mapGet globalCfg.OpenSearch.Instances inst = some cfg ∧
          name = "opensearch." ++ inst ∧
          ¬ (cfg.URL = "" ∨ cfg.Username = "" ∨ cfg.Password = "") ∧
          b.newOpenSearch cfg = .ok client) ∨
       (∃ inst cfg client, JSON.mapGet globalCfg.PubSub.Instances inst = some cfg ∧
          name = "pubsub." ++ inst ∧ ¬ (cfg.ProjectID = "" ∨ cfg.TopicID = "") ∧
          PubSub.New cfg.ProjectID cfg.TopicID = .ok client) ∨
       (∃ inst cfg client, JSON.mapGet globalCfg.BigQuery.Instances inst = some cfg ∧
          name = "bigquery." ++ inst ∧ ¬ (cfg.ProjectID = "") ∧
          b.newBigQuery cfg = .ok client) ∨
       (∃ inst cfg client, JSON.mapGet globalCfg.Slack.Instances inst = some cfg ∧
          name = "slack." ++ inst ∧ ¬ (cfg.WebhookURL = "") ∧
          b.newSlack cfg = .ok client))) ∧
    ((∃ qr, (NewRegistry b globalCfg).GetQueryRunner name = .ok qr) ↔
      ((∃ inst cfg client, JSON.mapGet globalCfg.OpenSearch.Instances inst = some cfg ∧
          name = "opensearch." ++ inst ∧
          ¬ (cfg.URL = "" ∨ cfg.Username = "" ∨ cfg.Password = "") ∧
          b.newOpenSearch cfg = .ok client) ∨
       (∃ inst cfg client, JSON.mapGet globalCfg.BigQuery.Instances inst = some cfg ∧
          name = "bigquery." ++ inst ∧ ¬ (cfg.ProjectID = "") ∧
          b.newBigQuery cfg = .ok client))) ∧
    ((∃ pub, (NewRegistry b globalCfg).GetPublisher name = .ok pub) ∨
      (NewRegistry b globalCfg).GetPublisher name = .error (.publisherNotFound name)) ∧
    ((∃ qr, (NewRegistry b globalCfg).GetQueryRunner name = .ok qr) ∨
      (NewRegistry b globalCfg).GetQueryRunner name = .error (.queryRunnerNotFound name)) := by
  refine ⟨?_, ?_, GetPublisher_ok_or_notFound _ name, GetQueryRunner_ok_or_notFound _ name⟩
  · rw [GetPublisher_ok_iff]
    unfold NewRegistry
    rw [initSlack_eq, registerSlack_publishers, initBigQuery_eq, registerBigQuery_publishers,
      initPubSub_eq, registerPubSub_publishers, initOpenSearch_eq,
      registerOpenSearch_publishers]
    simp only [mem_mapEntries_iff, JSON.mapGet, Option.isSome_none, Bool.false_eq_true,
      false_or, or_assoc]
  · rw [GetQueryRunner_ok_iff]
    unfold NewRegistry
    rw [initSlack_eq, registerSlack_queryRunners, initBigQuery_eq,
      registerBigQuery_queryRunners, initPubSub_eq, registerPubSub_queryRunners,
      initOpenSearch_eq, registerOpenSearch_queryRunners]
    simp only [mem_mapEntries_iff, JSON.mapGet, Option.isSome_none, Bool.false_eq_true,
      false_or, or_assoc]

/-- Witness for C22 on a configuration with skipped instances in three families: the valid
instances are found under their qualified names, by `GetQueryRunner` only in the opensearch
and bigquery families, and the skipped ones and a bare instance name are not found. -/
theorem NewRegistry_lookup_witness :
    (∃ pub, (NewRegistry textBackends sampleGlobalConfig).GetPublisher "pubsub.alerts" =
      .ok pub) ∧
    (∃ qr, (NewRegistry textBackends sampleGlobalConfig).GetQueryRunner "bigquery.warehouse" =
      .ok qr) ∧
    (NewRegistry textBackends sampleGlobalConfig).GetPublisher "opensearch.prod" =
      .ok (.opensearch "https://search.example") ∧
    (NewRegistry textBackends sampleGlobalConfig).GetPublisher "slack.soc" =
      .ok (.slack "https://hooks.example/soc") ∧
    (NewRegistry textBackends sampleGlobalConfig).GetQueryRunner "pubsub.alerts" =
      .error (.queryRunnerNotFound "pubsub.alerts") ∧
    (NewRegistry textBackends sampleGlobalConfig).GetPublisher "opensearch.nopass" =
      .error (.publisherNotFound "opensearch.nopass") ∧
    (NewRegistry textBackends sampleGlobalConfig).GetPublisher "opensearch.ftp" =
      .error (.publisherNotFound "opensearch.ftp") ∧
    (NewRegistry textBackends sampleGlobalConfig).GetPublisher "bigquery.denied" =
      .error (.publisherNotFound "bigquery.denied") ∧
    (NewRegistry textBackends sampleGlobalConfig).GetPublisher "prod" =
      .error (.publisherNotFound "prod") :=
  ⟨(NewRegistry_lookup textBackends sampleGlobalConfig "pubsub.alerts").1.2
      (Or.inr (Or.inl ⟨"alerts", ⟨"detections", "signals"⟩, ⟨"detections", "signals"⟩, rfl,
        rfl, by decide, rfl⟩)),
    (NewRegistry_lookup textBackends sampleGlobalConfig "bigquery.warehouse").2.1.2
      (Or.inr ⟨"warehouse", ⟨"detections", "logs", "events"⟩, "detections", rfl, rfl,
        by decide, rfl⟩),
    rfl, rfl, rfl, rfl, rfl, rfl, rfl⟩

end Connector

/-! ## The PubSub publisher -/

namespace PubSub

/-- C29, evaluation of the code: on a batch of one record whose timestamp does not parse, with
a client that is created and a topic that exists, `buildPubSubMessage` fails and `Publish`
returns nil, whatever `json.Marshal` and the delivery do. -/
theorem Publish_nil_on_build_failure
    (marshalOutput : Signal.Output Signal.textStdlib.Time → Except String String)
    (deliver : Nat → String → Except String String) :
    buildPubSubMessage Signal.textStdlib
        ⟨fun _ => .ok (), fun _ _ => .ok true, marshalOutput, deliver⟩
        [("timestamp", "yesterday")]
        (Signal.ruleConfig "high" [] ⟨"signal", [⟨"Timestamp", "timestamp"⟩]⟩) =
      .error (.build (.timestampParse "cannot parse")) ∧
    Client.Publish Signal.textStdlib
        ⟨fun _ => .ok (), fun _ _ => .ok true, marshalOutput, deliver⟩
        ⟨"detections", "signals"⟩ [[("timestamp", "yesterday")]]
        (Signal.ruleConfig "high" [] ⟨"signal", [⟨"Timestamp", "timestamp"⟩]⟩) = .ok () :=
  ⟨rfl, rfl⟩

end PubSub



end Venator
